import Mathlib

/-!
# The broker core actor and the rocksdb store backend

A shallow embedding of `src/detail/core_actor.cc` and of
`src/store/rocksdb_backend.cc`.  The mutable `core_state`
and the parts of the hosting actor that the handlers touch (the installed
stream handlers and the request-id counter behind `make_stream_id`) are an
explicit record; every message handler is a function from that record and the
current mailbox element to a reply, a new record and the messages it emitted.
-/

namespace broker

/-! ## Handles, topics, streams -/

/-- A `caf::actor` / `caf::strong_actor_ptr` handle; `none` is `nullptr`. -/
abbrev actor := Option Nat

/-- A `broker::topic` wraps a `std::string`, here the list of its characters;
`operator<` on topics is the lexicographic comparison of the strings. -/
abbrev topic := List Char

/-- The core's `filter_type` is a `std::vector<topic>`. -/
abbrev filter_type := List topic

/-- A `caf::stream_id`: the originating actor and a running number. -/
structure stream_id where
  origin : actor
  nr : Nat
deriving DecidableEq

/-- The `stream_relay` objects that `self->streams()` maps stream ids to: the
relay of the local subscribers and one relay per governor peer. -/
inductive stream_relay where
  | local_relay : stream_relay
  | peer_relay (remote_core : actor) : stream_relay
deriving DecidableEq

/-- The handler result `stream_type`: a stream id with its handler pointer. -/
structure stream_type where
  id : stream_id
  ptr : Option stream_relay
deriving DecidableEq

/-- The value `invalid_stream`, also written `stream_type{stream_id{nullptr, 0}, nullptr}`. -/
def invalid_stream : stream_type := ⟨⟨none, 0⟩, none⟩

/-- The `caf::sec` codes the core returns. -/
inductive sec where
  | invalid_argument
  | cannot_add_downstream
  | no_downstream_stages_defined
deriving DecidableEq

/-- The `broker::ec` codes the core returns. -/
inductive ec where
  | unspecified
  | master_exists
  | no_such_master
deriving DecidableEq

/-- A `caf::error` built from either enumeration, or passed through from a resolver. -/
inductive error where
  | of_sec (c : sec) : error
  | of_ec (c : ec) : error
  | other (code : Nat) : error
deriving DecidableEq

/-- A `caf::result<T>`: a value, an error, or a response promise fulfilled later. -/
inductive result (α : Type) where
  | value (a : α) : result α
  | err (e : error) : result α
  | promise : result α
deriving DecidableEq

/-- The backends `make_backend` can instantiate. -/
inductive backend where
  | memory
  | sqlite
  | rocksdb
deriving DecidableEq

/-- The `backend_options` map handed to `make_backend`. -/
abbrev backend_options := List (String × String)

/-! ## `std::sort` and `std::unique` -/

/-- The loop of `std::unique`: `last` is the element most recently kept; an
element equal to it is skipped, any other element is kept. -/
def std_unique_loop {α : Type} [DecidableEq α] (last : α) : List α → List α
  | [] => []
  | x :: xs => if last = x then std_unique_loop last xs else x :: std_unique_loop x xs

/-- The range `[begin, e)` that `std::unique` leaves, `e` being the iterator it
returns: the first element of every run of equal elements. -/
def std_unique {α : Type} [DecidableEq α] : List α → List α
  | [] => []
  | x :: xs => x :: std_unique_loop x xs

/-- The result of `std::sort(begin, end)` with `operator<`: the ascending
arrangement of the elements. -/
def std_sort {α : Type} [LinearOrder α] (xs : List α) : List α :=
  List.insertionSort (fun a b => a ≤ b) xs

/-! ## Association containers -/

/-- The test `m.count(k) > 0` on a `std::unordered_map`, kept as an association
list in insertion order. -/
def map_contains {κ ν : Type} [DecidableEq κ] (m : List (κ × ν)) (k : κ) : Bool :=
  m.any (fun kv => decide (kv.1 = k))

/-- The lookup `m.find(k)`: the mapped value, `none` for `m.end()`. -/
def map_find {κ ν : Type} [DecidableEq κ] (m : List (κ × ν)) (k : κ) : Option ν :=
  (m.find? (fun kv => decide (kv.1 = k))).map Prod.snd

/-- The call `m.emplace(k, v)`: inserts unless the key is present; the flag is
`res.second`. -/
def map_emplace {κ ν : Type} [DecidableEq κ] (m : List (κ × ν)) (k : κ) (v : ν) :
    List (κ × ν) × Bool :=
  if map_contains m k then (m, false) else (m ++ [(k, v)], true)

/-- The call `m.erase(it)` for the iterator `it` that `m.find(k)` returned. -/
def map_erase {κ ν : Type} [DecidableEq κ] (m : List (κ × ν)) (k : κ) : List (κ × ν) :=
  m.filter (fun kv => !decide (kv.1 = k))

/-- The number of entries stored under `k`. -/
def map_count {κ ν : Type} [DecidableEq κ] (m : List (κ × ν)) (k : κ) : Nat :=
  (m.filter (fun kv => decide (kv.1 = k))).length

/-! ## Topics of the store channels -/

/-- Modelled from the spec: `operator/` on topics (declared in `broker/topic.hh`,
not among the sources) joins two path components with `/`. -/
def topic.join (a b : topic) : topic := a ++ ['/'] ++ b

/-- Modelled from the spec: the reserved component `<reserved>` of store channels
(`topics::reserved`, declared in `broker/topic.hh`). -/
def topics.reserved : topic := "<reserved>".toList

/-- Modelled from the spec: the component `<master>` (`topics::master`). -/
def topics.master : topic := "<master>".toList

/-- Modelled from the spec: the component `<clone>` (`topics::clone`). -/
def topics.clone : topic := "<clone>".toList

/-- The topic `name / topics::reserved / topics::master`. -/
def master_topic (name : String) : topic :=
  topic.join (topic.join name.toList topics.reserved) topics.master

/-- The topic `name / topics::reserved / topics::clone`. -/
def clone_topic (name : String) : topic :=
  topic.join (topic.join name.toList topics.reserved) topics.clone

/-! ## The stream governor

`stream_governor` is declared and defined outside the given sources; the core
uses its peer map and its local-subscriber lane group. -/

/-- Modelled from the spec: the governor's record of one peer
(`stream_governor::peer_data`): the path to the peer, the remote core, the
outgoing stream id, the peer's filter, the incoming stream id once known. -/
structure peer_data where
  hdl : actor
  remote_core : actor
  sid : stream_id
  filter : filter_type
  incoming_sid : Option stream_id
deriving DecidableEq

/-- The `relay` member of a peer record. -/
def peer_data.relay (p : peer_data) : stream_relay := stream_relay.peer_relay p.remote_core

/-- Modelled from the spec: the lane group of the local subscribers, which share
one stream id; each path has its own filter. -/
structure local_subscribers where
  sid : stream_id
  lanes : List (actor × filter_type)
deriving DecidableEq

/-- Modelled from the spec: the governor owns `peers : map EndpointId → PeerLane`
and the `local_subscribers` lane group. -/
structure stream_governor where
  peers : List (actor × peer_data)
  locals : local_subscribers
deriving DecidableEq

/-- Modelled from the spec: `stream_governor::has_peer`, whether the peer map has
an entry for the remote core. -/
def stream_governor.has_peer (g : stream_governor) (x : actor) : Bool :=
  map_contains g.peers x

/-- Modelled from the spec: `stream_governor::peer`, the record of a remote core
or `nullptr`. -/
def stream_governor.peer (g : stream_governor) (x : actor) : Option peer_data :=
  map_find g.peers x

/-- Modelled from the spec: `stream_governor::add_peer` records a new peer and
returns its record; for a remote core that is already known it returns
`nullptr` and changes nothing. -/
def stream_governor.add_peer (g : stream_governor) (hdl remote_core : actor)
    (sid : stream_id) (filter : filter_type) : Option peer_data × stream_governor :=
  let ptr : peer_data := ⟨hdl, remote_core, sid, filter, none⟩
  let res := map_emplace g.peers remote_core ptr
  if res.2 then (some ptr, { g with peers := res.1 }) else (none, g)

/-- The assignment `peer_ptr->incoming_sid = sid` on the record of `remote_core`. -/
def stream_governor.set_incoming_sid (g : stream_governor) (remote_core : actor)
    (sid : stream_id) : stream_governor :=
  { g with peers := g.peers.map (fun kv =>
      if kv.1 = remote_core then (kv.1, { kv.2 with incoming_sid := some sid }) else kv) }

/-- Modelled from the spec: `update_peer(peer, new_filter)` replaces the stored
filter of a known peer and reports whether the peer was known. -/
def stream_governor.update_peer (g : stream_governor) (hdl : actor) (f : filter_type) :
    Bool × stream_governor :=
  if g.has_peer hdl then
    (true, { g with peers := g.peers.map (fun kv =>
      if kv.1 = hdl then (kv.1, { kv.2 with filter := f }) else kv) })
  else (false, g)

/-- Modelled from the spec: `local_subscribers().add_path(ptr)` opens a lane to
`ptr` unless one exists. -/
def local_subscribers.add_path (l : local_subscribers) (ptr : actor) : local_subscribers :=
  { l with lanes := (map_emplace l.lanes ptr []).1 }

/-- Modelled from the spec: `local_subscribers().set_filter(ptr, f)` replaces the
filter of the lane to `ptr`. -/
def local_subscribers.set_filter (l : local_subscribers) (ptr : actor) (f : filter_type) :
    local_subscribers :=
  { l with lanes := l.lanes.map (fun kv => if kv.1 = ptr then (kv.1, f) else kv) }

/-! ## The core's state -/

/-- What `governor->push` is given: user data or the internal snapshot command. -/
inductive payload where
  | user_data (x : Nat) : payload
  | snapshot_command (requester : actor) : payload
deriving DecidableEq

/-- The token of a stream handshake: the empty tuple, or `(filter, self)`. -/
inductive handshake_token where
  | unit_token : handshake_token
  | filter_and_core (f : filter_type) (core : actor) : handshake_token
deriving DecidableEq

/-- The messages and side effects a handler issues, in program order. -/
inductive effect where
  | send_peer (dest stage : actor) (f : filter_type) (core : actor) : effect
  | send_update (dest : actor) (f : filter_type) : effect
  | fwd_stream_handshake (sid : stream_id) (token : handshake_token) (next : actor) : effect
  | send_stream_handshake (remote_core : actor) (sid : stream_id) : effect
  | push (t : topic) (x : payload) : effect
  | make_backend (b : backend) (opts : backend_options) : effect
  | spawn_master (name : String) (hdl : actor) : effect
  | spawn_clone (name : String) (master hdl : actor) : effect
  | spawn_resolver (hdl : actor) : effect
  | request_resolver (resolver : actor) (peers : List actor) (name : String) : effect
  | deliver (r : result actor) : effect
  | deliver_error (e : error) : effect
deriving DecidableEq

/-- The members of `core_state` that `core_actor.cc` reads or writes.  The
struct itself is declared in `broker/detail/core_actor.hh`; `clones` accepts
several clones of one store. -/
structure core_state where
  self : actor
  filter : filter_type
  governor : stream_governor
  local_relay : stream_relay
  pending_peers : List (actor × stream_id)
  connected_peers : List actor
  masters : List (String × actor)
  clones : List (String × actor)
  subscriptions : List (topic × List actor)
deriving DecidableEq

/-- The stateful actor hosting the core: its `core_state`, the stream handlers
`self->streams()`, the counter behind `make_stream_id`, and the id the actor
system gives to the next spawned actor. -/
structure core_actor_state where
  state : core_state
  streams : List (stream_id × stream_relay)
  last_request_id : Nat
  next_actor_id : Nat
deriving DecidableEq

/-- The content of a mailbox element that holds a `caf::stream_msg`. -/
inductive stream_msg_content where
  | open_msg (prev_stage : actor) : stream_msg_content
  | other_msg : stream_msg_content
deriving DecidableEq

/-- The current mailbox element: sender, forwarding stages, and the stream
message it holds, if any. -/
structure mailbox_element where
  sender : actor
  stages : List actor
  content : Option stream_msg_content
deriving DecidableEq

/-- One handled message: the handler's return value, the actor afterwards and
the effects issued. -/
structure handled (ρ : Type) where
  reply : ρ
  next : core_actor_state
  out : List effect

/-- The call `self->make_stream_id()`: the next request id, tagged with `self`. -/
def core_actor_state.make_stream_id (s : core_actor_state) : stream_id × core_actor_state :=
  (⟨s.state.self, s.last_request_id + 1⟩, { s with last_request_id := s.last_request_id + 1 })

/-- The call `self->streams().emplace(sid, relay)`. -/
def core_actor_state.streams_emplace (s : core_actor_state) (sid : stream_id)
    (r : stream_relay) : core_actor_state × Bool :=
  let res := map_emplace s.streams sid r
  ({ s with streams := res.1 }, res.2)

/-- The element `stages.back()`. -/
def mailbox_element.next_stage (cme : mailbox_element) : actor :=
  cme.stages.getLast?.getD none

/-- Modelled from the spec: the governor built by `stream_governor(core_state*)`
has no peers and an empty local lane group with a stream id of its own. -/
def stream_governor.make (lsid : stream_id) : stream_governor :=
  ⟨[], ⟨lsid, []⟩⟩

/-- The function `core_state::init`, run on the freshly constructed state of
actor `s`: it stores the filter as given, builds the governor, whose local lane
group draws its stream id from `s`, and installs the local relay for that id. -/
def core_state.init (s : actor) (initial_filter : filter_type) : core_actor_state :=
  let fresh : core_actor_state :=
    ⟨⟨s, [], stream_governor.make ⟨none, 0⟩, stream_relay.local_relay, [], [], [], [], []⟩, [], 0, 0⟩
  let made := fresh.make_stream_id
  let governor := stream_governor.make made.1
  let lsid := governor.locals.sid
  let relay := stream_relay.local_relay
  let st : core_state :=
    { fresh.state with filter := initial_filter, governor := governor, local_relay := relay }
  ({ made.2 with state := st }.streams_emplace lsid relay).1

/-- The function `core_state::prev_peer_from_handshake`. -/
def prev_peer_from_handshake (cme : mailbox_element) : actor :=
  match cme.content with
  | some (stream_msg_content.open_msg prev_stage) => prev_stage
  | _ => none

/-- The function `core_state::update_filter_on_peers`: one update per entry of
`governor->peers()`, in the order the map is walked. -/
def core_state.update_filter_on_peers (st : core_state) : List effect :=
  st.governor.peers.map (fun kvp => effect.send_update kvp.1 st.filter)

/-- The function `core_state::add_to_filter`. -/
def core_state.add_to_filter (st : core_state) (xs : filter_type) : core_state × List effect :=
  let s0 := st.filter.length
  let inserted := st.filter ++ xs
  let sorted := std_sort inserted
  let st1 : core_state := { st with filter := std_unique sorted }
  if s0 ≠ st1.filter.length then (st1, st1.update_filter_on_peers) else (st1, [])

/-- The function `core_state::has_peer`. -/
def core_state.has_peer (st : core_state) (x : actor) : Bool :=
  map_contains st.pending_peers x || st.connected_peers.contains x

/-- The function `find_remote_master`. -/
def find_remote_master (st : core_state) (name : String) : Option actor :=
  let t := master_topic name
  match map_find st.subscriptions t with
  | some subscribers => some (subscribers.head?.getD none)
  | none => none

/-! ## The behaviour of `core_actor` -/

/-- The function `core_actor` up to the returned behaviour: it runs
`core_state::init` with the initial filter. -/
def core_actor (self : actor) (initial_filter : filter_type) : core_actor_state :=
  core_state.init self initial_filter

/-- Handler `(atom::subscribe, filter_type& f)`. -/
def handle_subscribe (s : core_actor_state) (f : filter_type) : handled Unit :=
  let r := s.state.add_to_filter f
  ⟨(), { s with state := r.1 }, r.2⟩

/-- Handler `(atom::peer, actor remote_core)`, step 0 of the handshake. -/
def handle_peer (s : core_actor_state) (remote_core : actor) : handled (result Unit) :=
  let st := s.state
  if remote_core = none then
    ⟨result.err (error.of_sec sec.invalid_argument), s, []⟩
  else if !st.has_peer remote_core then
    ⟨result.value (), s, [effect.send_peer remote_core st.self st.filter st.self]⟩
  else
    ⟨result.value (), s, []⟩

/-- Handler `(atom::peer, filter_type& peer_ts, caf::actor& remote_core)`,
step #1 of the handshake. -/
def handle_peer_step1 (s : core_actor_state) (cme : mailbox_element) (peer_ts : filter_type)
    (remote_core : actor) : handled stream_type :=
  let st := s.state
  let p := cme.sender
  if p = none then ⟨invalid_stream, s, []⟩
  else if map_contains st.pending_peers remote_core then ⟨invalid_stream, s, []⟩
  else if st.connected_peers.contains remote_core then ⟨invalid_stream, s, []⟩
  else
    let made := s.make_stream_id
    let sid := made.1
    let s1 := made.2
    let added := st.governor.add_peer p remote_core sid peer_ts
    match added.1 with
    | none => ⟨invalid_stream, s1, []⟩
    | some peer_ptr =>
      let st1 : core_state :=
        { st with governor := added.2,
                  pending_peers := (map_emplace st.pending_peers remote_core sid).1 }
      let next := cme.next_stage
      let token := handshake_token.filter_and_core st1.filter st1.self
      ⟨⟨sid, some peer_ptr.relay⟩, { s1 with state := st1 },
        [effect.fwd_stream_handshake sid token next]⟩

/-- Handler `(const stream_type& in, filter_type& filter, caf::actor& remote_core)`,
step #2 of the handshake.  The record `add_peer` returns is used unchecked; the
duplicate test before it makes it non-null. -/
def handle_peer_step2 (s : core_actor_state) (cme : mailbox_element) (in_ : stream_type)
    (filter : filter_type) (remote_core : actor) : handled Unit :=
  let st := s.state
  let p := prev_peer_from_handshake cme
  if p = none then ⟨(), s, []⟩
  else if st.governor.has_peer remote_core then ⟨(), s, []⟩
  else
    let made := s.make_stream_id
    let sid := made.1
    let s1 := made.2
    let added := st.governor.add_peer p remote_core sid filter
    match added.1 with
    | none => ⟨(), s1, []⟩
    | some peer_ptr =>
      let governor := added.2.set_incoming_sid remote_core in_.id
      let s2 : core_actor_state := { s1 with state := { st with governor := governor } }
      let s3 := (s2.streams_emplace sid peer_ptr.relay).1
      let s4 := (s3.streams_emplace in_.id peer_ptr.relay).1
      ⟨(), s4, [effect.send_stream_handshake remote_core sid]⟩

/-- Handler `(const stream_type& in, ok_atom, caf::actor& remote_core)`,
step #3 of the handshake. -/
def handle_peer_step3 (s : core_actor_state) (cme : mailbox_element) (in_ : stream_type)
    (remote_core : actor) : handled Unit :=
  let st := s.state
  let p := prev_peer_from_handshake cme
  if p = none then ⟨(), s, []⟩
  else
    match map_find st.pending_peers remote_core with
    | none => ⟨(), s, []⟩
    | some _ =>
      let st1 : core_state := { st with pending_peers := map_erase st.pending_peers remote_core }
      let s1 : core_actor_state := { s with state := st1 }
      match st1.governor.peer remote_core with
      | none => ⟨(), s1, []⟩
      | some peer_ptr => ⟨(), (s1.streams_emplace in_.id peer_ptr.relay).1, []⟩

/-- Handler `(atom::update, filter_type f)`. -/
def handle_update (s : core_actor_state) (cme : mailbox_element) (f : filter_type) :
    handled Unit :=
  let st := s.state
  let p := cme.sender
  if p = none then ⟨(), s, []⟩
  else ⟨(), { s with state := { st with governor := (st.governor.update_peer p f).2 } }, []⟩

/-- Handler `(atom::join, filter_type& filter)`. -/
def handle_join (s : core_actor_state) (cme : mailbox_element) (filter : filter_type) :
    handled (Except error stream_type) :=
  let st := s.state
  let cs := cme.sender
  if cs = none then ⟨Except.error (error.of_sec sec.cannot_add_downstream), s, []⟩
  else if cme.stages.isEmpty then
    ⟨Except.ok ⟨⟨none, 0⟩, none⟩, s,
      [effect.deliver_error (error.of_sec sec.no_downstream_stages_defined)]⟩
  else
    let next := cme.next_stage
    let sid := st.governor.locals.sid
    let locals := (st.governor.locals.add_path cs).set_filter cs filter
    let st1 : core_state := { st with governor := { st.governor with locals := locals } }
    let r := st1.add_to_filter filter
    ⟨Except.ok ⟨sid, some r.1.local_relay⟩, { s with state := r.1 },
      effect.fwd_stream_handshake sid handshake_token.unit_token next :: r.2⟩

/-- Handler `(const stream_type& in)`. -/
def handle_local_stream (s : core_actor_state) (cme : mailbox_element) (in_ : stream_type) :
    handled Unit :=
  if cme.sender = none then ⟨(), s, []⟩
  else
    ⟨(), (s.streams_emplace in_.id s.state.local_relay).1, []⟩

/-- Handler `(atom::publish, topic& t, data& x)`. -/
def handle_publish (s : core_actor_state) (t : topic) (x : Nat) : handled Unit :=
  ⟨(), s, [effect.push t (payload.user_data x)]⟩

/-- Handler `(atom::store, atom::master, atom::attach, name, backend_type, opts)`. -/
def handle_attach_master (s : core_actor_state) (cme : mailbox_element) (name : String)
    (backend_type : backend) (opts : backend_options) : handled (result actor) :=
  let st := s.state
  if !cme.stages.isEmpty then ⟨result.err (error.of_ec ec.unspecified), s, []⟩
  else
    match map_find st.masters name with
    | some m => ⟨result.value m, s, []⟩
    | none =>
      if (find_remote_master st name).isSome then
        ⟨result.err (error.of_ec ec.master_exists), s, []⟩
      else
        let ms : actor := some s.next_actor_id
        let s1 : core_actor_state := { s with next_actor_id := s.next_actor_id + 1 }
        let masters := (map_emplace st.masters name ms).1
        let sid := st.governor.locals.sid
        let filter : filter_type := [master_topic name]
        let locals := (st.governor.locals.add_path ms).set_filter ms filter
        let st1 : core_state :=
          { st with masters := masters, governor := { st.governor with locals := locals } }
        let r := st1.add_to_filter filter
        ⟨result.value ms, { s1 with state := r.1 },
          [effect.make_backend backend_type opts, effect.spawn_master name ms,
           effect.fwd_stream_handshake sid handshake_token.unit_token ms] ++ r.2⟩

/-- The closure `spawn_clone` of the clone-attach handler. -/
def spawn_clone (s : core_actor_state) (name : String) (master : actor) :
    actor × core_actor_state × List effect :=
  let clone : actor := some s.next_actor_id
  let s1 : core_actor_state := { s with next_actor_id := s.next_actor_id + 1 }
  let st := s1.state
  let clones := st.clones ++ [(name, clone)]
  let f : filter_type := [clone_topic name]
  let sid := st.governor.locals.sid
  let locals := (st.governor.locals.add_path clone).set_filter clone f
  let st1 : core_state :=
    { st with clones := clones, governor := { st.governor with locals := locals } }
  let r := st1.add_to_filter f
  (clone, { s1 with state := r.1 },
    [effect.spawn_clone name master clone,
     effect.fwd_stream_handshake sid handshake_token.unit_token clone] ++ r.2 ++
    [effect.push (master_topic name) (payload.snapshot_command r.1.self)])

/-- Handler `(atom::store, atom::clone, atom::attach, std::string& name)`. -/
def handle_attach_clone (s : core_actor_state) (cme : mailbox_element) (name : String) :
    handled (result actor) :=
  if !cme.stages.isEmpty then ⟨result.err (error.of_ec ec.unspecified), s, []⟩
  else
    let peers := s.state.governor.peers
    match map_find s.state.masters name with
    | some m =>
      let r := spawn_clone s name m
      ⟨result.value r.1, r.2.1, r.2.2⟩
    | none =>
      if peers.isEmpty then ⟨result.err (error.of_ec ec.no_such_master), s, []⟩
      else
        let resolv : actor := some s.next_actor_id
        let s1 : core_actor_state := { s with next_actor_id := s.next_actor_id + 1 }
        let tmp := peers.map Prod.fst
        ⟨result.promise, s1, [effect.spawn_resolver resolv,
          effect.request_resolver resolv tmp name]⟩

/-- What is left of a `std::string` that was moved from: the empty string. -/
def moved_from_string : String := ""

/-- Continuation `[=](actor& master)` of the clone-attach request to the resolver.
The handler hands `std::move(name)` to `request` before this closure copies
`name`, so the closure registers the master under the string that was moved
from; the closure `spawn_clone` made its copy before and still has the name. -/
def handle_clone_resolved (s : core_actor_state) (name : String) (master : actor) :
    handled Unit :=
  let st := s.state
  let s1 : core_actor_state :=
    { s with state :=
        { st with masters := (map_emplace st.masters moved_from_string master).1 } }
  let r := spawn_clone s1 name master
  ⟨(), r.2.1, r.2.2 ++ [effect.deliver (result.value r.1)]⟩

/-- Continuation `[=](caf::error& err)` of either request to the resolver. -/
def handle_resolve_failed (s : core_actor_state) (err : error) : handled Unit :=
  ⟨(), s, [effect.deliver (result.err err)]⟩

/-- Handler `(atom::store, atom::master, atom::get, name)`. -/
def handle_get_master (s : core_actor_state) (name : String) : handled (result actor) :=
  match map_find s.state.masters name with
  | some m => ⟨result.value m, s, []⟩
  | none => ⟨result.err (error.of_ec ec.no_such_master), s, []⟩

/-- Handler `(atom::store, atom::master, atom::resolve, name)`. -/
def handle_resolve_master (s : core_actor_state) (name : String) : handled (result actor) :=
  match map_find s.state.masters name with
  | some m => ⟨result.value m, s, []⟩
  | none =>
    let resolv : actor := some s.next_actor_id
    let s1 : core_actor_state := { s with next_actor_id := s.next_actor_id + 1 }
    let tmp := s.state.governor.peers.map Prod.fst
    ⟨result.promise, s1, [effect.spawn_resolver resolv, effect.request_resolver resolv tmp name]⟩

/-- Continuation `[=](actor& master)` of the resolve request to the resolver. -/
def handle_master_resolved (s : core_actor_state) (name : String) (master : actor) :
    handled Unit :=
  let st := s.state
  ⟨(), { s with state := { st with masters := (map_emplace st.masters name master).1 } },
    [effect.deliver (result.value master)]⟩

/-- The messages the behaviour of `core_actor` accepts, responses to its own
resolver requests and down messages included. -/
inductive core_msg where
  | subscribe (f : filter_type) : core_msg
  | peer (remote_core : actor) : core_msg
  | peer_step1 (peer_ts : filter_type) (remote_core : actor) : core_msg
  | peer_step2 (in_ : stream_type) (filter : filter_type) (remote_core : actor) : core_msg
  | peer_step3 (in_ : stream_type) (remote_core : actor) : core_msg
  | update (f : filter_type) : core_msg
  | join (filter : filter_type) : core_msg
  | local_stream (in_ : stream_type) : core_msg
  | publish (t : topic) (x : Nat) : core_msg
  | attach_master (name : String) (backend_type : backend) (opts : backend_options) : core_msg
  | attach_clone (name : String) : core_msg
  | get_master (name : String) : core_msg
  | resolve_master (name : String) : core_msg
  | clone_resolved (name : String) (master : actor) : core_msg
  | master_resolved (name : String) (master : actor) : core_msg
  | resolve_failed (err : error) : core_msg
  | down : core_msg
deriving DecidableEq

/-- The actor after it handled the message in mailbox element `cme`, with the
effects of the handler; the down handler has an empty body. -/
def dispatch (s : core_actor_state) (cme : mailbox_element) :
    core_msg → core_actor_state × List effect
  | core_msg.subscribe f => let h := handle_subscribe s f; (h.next, h.out)
  | core_msg.peer remote_core => let h := handle_peer s remote_core; (h.next, h.out)
  | core_msg.peer_step1 peer_ts remote_core =>
    let h := handle_peer_step1 s cme peer_ts remote_core; (h.next, h.out)
  | core_msg.peer_step2 in_ filter remote_core =>
    let h := handle_peer_step2 s cme in_ filter remote_core; (h.next, h.out)
  | core_msg.peer_step3 in_ remote_core =>
    let h := handle_peer_step3 s cme in_ remote_core; (h.next, h.out)
  | core_msg.update f => let h := handle_update s cme f; (h.next, h.out)
  | core_msg.join filter => let h := handle_join s cme filter; (h.next, h.out)
  | core_msg.local_stream in_ => let h := handle_local_stream s cme in_; (h.next, h.out)
  | core_msg.publish t x => let h := handle_publish s t x; (h.next, h.out)
  | core_msg.attach_master name backend_type opts =>
    let h := handle_attach_master s cme name backend_type opts; (h.next, h.out)
  | core_msg.attach_clone name => let h := handle_attach_clone s cme name; (h.next, h.out)
  | core_msg.get_master name => let h := handle_get_master s name; (h.next, h.out)
  | core_msg.resolve_master name => let h := handle_resolve_master s name; (h.next, h.out)
  | core_msg.clone_resolved name master =>
    let h := handle_clone_resolved s name master; (h.next, h.out)
  | core_msg.master_resolved name master =>
    let h := handle_master_resolved s name master; (h.next, h.out)
  | core_msg.resolve_failed err => let h := handle_resolve_failed s err; (h.next, h.out)
  | core_msg.down => (s, [])

/-- The actor after it handled a sequence of mailbox elements, oldest first. -/
def run (s : core_actor_state) : List (mailbox_element × core_msg) → core_actor_state
  | [] => s
  | (cme, m) :: rest => run (dispatch s cme m).1 rest

/-- The actor after `n` deliveries of the same message. -/
def deliver_times (s : core_actor_state) (cme : mailbox_element) (m : core_msg) :
    Nat → core_actor_state
  | 0 => s
  | n + 1 => deliver_times (dispatch s cme m).1 cme m n

/-! ## The connection supervisor -/

/-- The address and port a supervisor connects to (`network_info`). -/
structure network_info where
  address : String
  port : Nat
deriving DecidableEq

/-- The two `peer_status` values a supervisor reports. -/
inductive peer_status where
  | connected
  | disconnected
deriving DecidableEq

/-- What a supervisor does while it handles one message, in program order:
`self->send(self, atom::connect)`, `self->delayed_send(self, retry, atom::connect)`,
`self->monitor(x)`, and `self->send(core, atom::peer, net, status[, other])`. -/
inductive supervisor_effect where
  | send_connect : supervisor_effect
  | delayed_send_connect (delay : Nat) : supervisor_effect
  | monitor (x : actor) : supervisor_effect
  | send_status (net : network_info) (status : peer_status) (other : Option actor) :
      supervisor_effect
deriving DecidableEq

/-- The body of `supervisor` before it returns its behaviour. -/
def supervisor_start : List supervisor_effect := [supervisor_effect.send_connect]

/-- The down handler installed by `supervisor`. -/
def supervisor_down (net : network_info) : List supervisor_effect :=
  [supervisor_effect.send_status net peer_status.disconnected none,
   supervisor_effect.send_connect]

/-- The value `*other` of the `expected<actor>` that `remote_actor` returned;
for a failed connect the expression has no defined value and the null handle
stands for it. -/
def deref_expected (other : Option actor) : actor := other.getD none

/-- The `atom::connect` handler of `supervisor`; `other` is what
`mm.remote_actor(net.address, net.port)` returned, `none` for an error, and
`retry` the retry interval in seconds. -/
def supervisor_connect (net : network_info) (retry : Nat) (other : Option actor) :
    List supervisor_effect :=
  if other.isNone && retry != 0 then
    [supervisor_effect.delayed_send_connect retry]
  else
    [supervisor_effect.monitor (deref_expected other),
     supervisor_effect.send_status net peer_status.connected (some (deref_expected other))]

/-- The delay after which an effect delivers `atom::connect` to the supervisor,
if it does so at all: none for `send`, the given one for `delayed_send`. -/
def connect_delay : supervisor_effect → Option Nat
  | supervisor_effect.send_connect => some 0
  | supervisor_effect.delayed_send_connect delay => some delay
  | _ => none

/-! ## The rocksdb backend: serialization and the engine -/

/-- A `std::string` or `rocksdb::Slice`: a sequence of bytes. -/
abbrev bytes := List Char

/-- Modelled from the spec: the archives of `util::persist` (`persistables.hh`
is not among the sources) turn an object into bytes and bytes into an object;
`save` is what `save(saver, obj)` appends, `load` what `load(loader, &rval)`
reads back. -/
structure persist (α : Type) where
  save : α → bytes
  load : bytes → α

/-- The overload `to_serial(obj, rval)`: the archive starts from `rval` and the
object is appended. -/
def to_serial_append {α : Type} (p : persist α) (obj : α) (rval : bytes) : bytes :=
  rval ++ p.save obj

/-- The overload `to_serial(obj)`. -/
def to_serial {α : Type} (p : persist α) (obj : α) : bytes :=
  to_serial_append p obj []

/-- The overload `to_serial(obj, keyspace)`. -/
def to_serial_keyspace {α : Type} (p : persist α) (obj : α) (keyspace : Char) : bytes :=
  to_serial_append p obj [keyspace]

/-- The function `from_serial`. -/
def from_serial {α : Type} (p : persist α) (blob : bytes) : α :=
  p.load blob

/-- The assignment `kserial[0] = c`. -/
def set_keyspace (c : Char) : bytes → bytes
  | [] => []
  | _ :: rest => c :: rest

/-- The call `s.remove_prefix(1)` on a slice. -/
def drop_keyspace (s : bytes) : bytes := s.drop 1

/-- Modelled from the spec: `ExpirationTime = {last_modification, expiry_duration?}`
(`expiration_time` is declared outside the sources); times count ticks. -/
structure expiration_time where
  last_modification : Nat
  expiry_duration : Option Nat
deriving DecidableEq

/-- A stored `value`: the item and its optional expiry. -/
structure value (data : Type) where
  item : data
  expiry : Option expiration_time
deriving DecidableEq

/-- A `snapshot`: the sequence number and the entries of a store. -/
structure snapshot (data : Type) where
  sn : Nat
  entries : List (data × value data)
deriving DecidableEq

/-- An `expirable`: a key and its expiry. -/
structure expirable (data : Type) where
  key : data
  expiry : expiration_time
deriving DecidableEq

/-- The `rocksdb::Status` values the backend tells apart. -/
inductive status where
  | ok
  | not_found
  | invalid_argument
  | io_error
deriving DecidableEq

/-- One entry of a `rocksdb::WriteBatch`. -/
inductive batch_op where
  | put (key val : bytes) : batch_op
  | delete (key : bytes) : batch_op
deriving DecidableEq

/-- The rows of a database, kept in the bytewise order of their keys. -/
abbrev rows := List (bytes × bytes)

/-- The row stored under `key`, if any. -/
def rows_get (r : rows) (key : bytes) : Option bytes := map_find r key

/-- What `Delete(key)` leaves. -/
def rows_delete (r : rows) (key : bytes) : rows := map_erase r key

/-- What `Put(key, val)` leaves: the key holds `val`, at its place in key order. -/
def rows_put (r : rows) (key val : bytes) : rows :=
  List.orderedInsert (fun x y => x.1 ≤ y.1) (key, val) (map_erase r key)

/-- What one entry of a write batch does to the rows. -/
def rows_apply (r : rows) : batch_op → rows
  | batch_op.put key val => rows_put r key val
  | batch_op.delete key => rows_delete r key

/-- What `Write(batch)` leaves: the entries applied in order. -/
def rows_write (r : rows) (batch : List batch_op) : rows :=
  batch.foldl rows_apply r

/-- The rows an iterator visits in `for (it->Seek(c); it->Valid() && it->key()[0] == c; it->Next())`:
from the first key not below the one-byte key `c`, as long as the leading byte
is `c`. -/
def rows_scan (r : rows) (c : Char) : rows :=
  (r.dropWhile (fun kv => decide (kv.1 < [c]))).takeWhile (fun kv => kv.1.head? == some c)

/-- What the in-memory structures of the engine can tell `KeyMayExist` about a
key: surely absent, present with the value at hand, or nothing. -/
inductive may_exist where
  | absent
  | cached
  | unknown
deriving DecidableEq

/-- An open `rocksdb::DB`: its path and its rows. -/
structure DB where
  name : String
  contents : rows
deriving DecidableEq

/-- The backend object (`rocksdb_backend::impl`: `db`, `options`, `sn`,
`last_error`, `exact_size_threshold`) together with its environment: the
databases on disk, and what the engine is going to answer to the coming calls
(`faults`: whether a call that returns a status fails; `hints`: what
`KeyMayExist` can tell; `estimates`: what `GetIntProperty` delivers).  A list
that has run out stands for no fault, no hint, no estimate. -/
structure rocksdb_backend where
  db : Option DB
  create_if_missing : Bool
  sn : Nat
  last_error : String
  exact_size_threshold : Nat
  disk : List (String × rows)
  faults : List Bool
  hints : List may_exist
  estimates : List (Option Nat)
deriving DecidableEq

/-- The rows of the open database; none when no database is open. -/
def rocksdb_backend.contents (b : rocksdb_backend) : rows :=
  match b.db with
  | some d => d.contents
  | none => []

/-- Whether the next call that returns a status fails. -/
def rocksdb_backend.take_fault (b : rocksdb_backend) : Bool × rocksdb_backend :=
  match b.faults with
  | [] => (false, b)
  | f :: rest => (f, { b with faults := rest })

/-- What the next `KeyMayExist` can tell. -/
def rocksdb_backend.take_hint (b : rocksdb_backend) : may_exist × rocksdb_backend :=
  match b.hints with
  | [] => (may_exist.unknown, b)
  | h :: rest => (h, { b with hints := rest })

/-- What the next `GetIntProperty` delivers. -/
def rocksdb_backend.take_estimate (b : rocksdb_backend) : Option Nat × rocksdb_backend :=
  match b.estimates with
  | [] => (none, b)
  | e :: rest => (e, { b with estimates := rest })

/-- Modelled from the spec: `impl::require_db` tells whether a database is open
and records an error otherwise. -/
def rocksdb_backend.require_db (b : rocksdb_backend) : Bool × rocksdb_backend :=
  match b.db with
  | some _ => (true, b)
  | none => (false, { b with last_error := "db not open" })

/-- Modelled from the spec: `impl::require_ok` tells whether a status is `ok` and
records the error otherwise. -/
def rocksdb_backend.require_ok (b : rocksdb_backend) (s : status) : Bool × rocksdb_backend :=
  if s = status.ok then (true, b) else (false, { b with last_error := "status not ok" })

/-- The call `db->Write({}, &batch)`: all entries or, on a fault, none. -/
def rocksdb_backend.db_write (b : rocksdb_backend) (batch : List batch_op) :
    status × rocksdb_backend :=
  match b.db with
  | none => (status.io_error, b)
  | some d =>
    let t := b.take_fault
    if t.1 then (status.io_error, t.2)
    else (status.ok, { t.2 with db := some { d with contents := rows_write d.contents batch } })

/-- The call `db->Put({}, key, val)`. -/
def rocksdb_backend.db_put (b : rocksdb_backend) (key val : bytes) : status × rocksdb_backend :=
  b.db_write [batch_op.put key val]

/-- The call `db->Delete({}, key)`. -/
def rocksdb_backend.db_delete (b : rocksdb_backend) (key : bytes) : status × rocksdb_backend :=
  b.db_write [batch_op.delete key]

/-- The call `db->Get(ReadOptions{}, key, &vserial)`: the status and `vserial`. -/
def rocksdb_backend.db_get (b : rocksdb_backend) (key : bytes) :
    (status × bytes) × rocksdb_backend :=
  let t := b.take_fault
  if t.1 then ((status.io_error, []), t.2)
  else
    match rows_get b.contents key with
    | some v => ((status.ok, v), t.2)
    | none => ((status.not_found, []), t.2)

/-- The call `db->KeyMayExist({}, key, &vserial, &value_found)`: the returned
flag, `value_found` and `vserial`.  It returns `false` only for a key that is
absent and sets `value_found` only for a key that is present. -/
def rocksdb_backend.db_key_may_exist (b : rocksdb_backend) (key : bytes) :
    (Bool × Bool × bytes) × rocksdb_backend :=
  let t := b.take_hint
  match rows_get b.contents key, t.1 with
  | none, may_exist.absent => ((false, false, []), t.2)
  | none, _ => ((true, false, []), t.2)
  | some v, may_exist.cached => ((true, true, v), t.2)
  | some _, _ => ((true, false, []), t.2)

/-- The call `it->status()` at the end of a scan. -/
def rocksdb_backend.it_status (b : rocksdb_backend) : status × rocksdb_backend :=
  let t := b.take_fault
  if t.1 then (status.io_error, t.2) else (status.ok, t.2)

/-- The call `pimpl->db.reset()`: the database is closed, its rows stay on disk. -/
def rocksdb_backend.db_reset (b : rocksdb_backend) : rocksdb_backend :=
  match b.db with
  | none => b
  | some d => { b with db := none, disk := (d.name, d.contents) :: map_erase b.disk d.name }

/-- The call `rocksdb::DestroyDB(db_path, Options{})`. -/
def rocksdb_backend.destroy_db (b : rocksdb_backend) (db_path : String) :
    status × rocksdb_backend :=
  let t := b.take_fault
  if t.1 then (status.io_error, t.2)
  else (status.ok, { t.2 with disk := map_erase t.2.disk db_path })

/-- The call `rocksdb::DB::Open(options, db_path, &db)` followed by
`pimpl->db.reset(db)`. -/
def rocksdb_backend.db_open (b : rocksdb_backend) (create_if_missing : Bool)
    (db_path : String) : status × rocksdb_backend :=
  let t := b.take_fault
  if t.1 then (status.io_error, { t.2 with db := none })
  else
    match map_find t.2.disk db_path with
    | some r => (status.ok, { t.2 with db := some ⟨db_path, r⟩ })
    | none =>
      if create_if_missing then (status.ok, { t.2 with db := some ⟨db_path, []⟩ })
      else (status.invalid_argument, { t.2 with db := none })

/-- Modelled from the spec: the version string written at open (`BROKER_VERSION`). -/
def BROKER_VERSION : bytes := "0.0.0".toList

/-! ## The rocksdb backend: operations -/

/-- The write batch that `detail::insert` fills: the value under the `a` key and,
under the `e` key, the expiry, or its deletion when there is none and
`delete_expiry_if_nil` is set. -/
def insert_batch {data : Type} (pd : persist data) (pe : persist expiration_time)
    (k v : data) (delete_expiry_if_nil : Bool) (e : Option expiration_time) : List batch_op :=
  let kserial := to_serial_keyspace pd k 'a'
  let vserial := to_serial pd v
  let batch := [batch_op.put kserial vserial]
  let kserial := set_keyspace 'e' kserial
  match e with
  | some ev => batch ++ [batch_op.put kserial (to_serial pe ev)]
  | none =>
    if delete_expiry_if_nil then batch ++ [batch_op.delete kserial]
    else batch

/-- The function `detail::insert`. -/
def detail_insert {data : Type} (pd : persist data) (pe : persist expiration_time)
    (b : rocksdb_backend) (k v : data) (delete_expiry_if_nil : Bool)
    (e : Option expiration_time) : status × rocksdb_backend :=
  b.db_write (insert_batch pd pe k v delete_expiry_if_nil e)

/-- The function `rocksdb_backend::open`. -/
def rocksdb_backend.open (b : rocksdb_backend) (db_path : String) (create_if_missing : Bool) :
    status × rocksdb_backend :=
  let opened := b.db_open create_if_missing db_path
  let b1 : rocksdb_backend := { opened.2 with create_if_missing := true }
  let checked := b1.require_ok opened.1
  if checked.1 then
    let written := checked.2.db_put "mbroker_version".toList BROKER_VERSION
    (written.1, (written.2.require_ok written.1).2)
  else (opened.1, checked.2)

/-- The function `rocksdb_backend::do_increase_sequence`. -/
def rocksdb_backend.do_increase_sequence (b : rocksdb_backend) : rocksdb_backend :=
  { b with sn := b.sn + 1 }

/-- The function `rocksdb_backend::do_last_error`. -/
def rocksdb_backend.do_last_error (b : rocksdb_backend) : String := b.last_error

/-- The function `rocksdb_backend::do_sequence`. -/
def rocksdb_backend.do_sequence (b : rocksdb_backend) : Nat := b.sn

/-- The function `rocksdb_backend::do_clear`. -/
def rocksdb_backend.do_clear (b : rocksdb_backend) : Bool × rocksdb_backend :=
  let rd := b.require_db
  if !rd.1 then (false, rd.2)
  else
    match rd.2.db with
    | none => (false, rd.2)
    | some d =>
      let db_path := d.name
      let closed := rd.2.db_reset
      let destroyed := closed.destroy_db db_path
      let checked := destroyed.2.require_ok destroyed.1
      if !checked.1 then (false, checked.2)
      else
        let reopened := checked.2.open db_path checked.2.create_if_missing
        reopened.2.require_ok reopened.1

/-- The write batch `do_init` builds from the entries of a snapshot. -/
def init_batch {data : Type} (pd : persist data) (pe : persist expiration_time) :
    List (data × value data) → List batch_op
  | [] => []
  | kv :: rest =>
    let kserial := to_serial_keyspace pd kv.1 'a'
    let vserial := to_serial pd kv.2.item
    match kv.2.expiry with
    | some ev =>
      batch_op.put kserial vserial ::
        batch_op.put (set_keyspace 'e' kserial) (to_serial pe ev) :: init_batch pd pe rest
    | none => batch_op.put kserial vserial :: init_batch pd pe rest

/-- The function `rocksdb_backend::do_init`. -/
def rocksdb_backend.do_init {data : Type} (pd : persist data) (pe : persist expiration_time)
    (b : rocksdb_backend) (sss : snapshot data) : Bool × rocksdb_backend :=
  let cleared := b.do_clear
  if !cleared.1 then (false, cleared.2)
  else
    let batch := init_batch pd pe sss.entries
    let b1 : rocksdb_backend := { cleared.2 with sn := sss.sn }
    let written := b1.db_write batch
    written.2.require_ok written.1

/-- The function `rocksdb_backend::do_insert`. -/
def rocksdb_backend.do_insert {data : Type} (pd : persist data) (pe : persist expiration_time)
    (b : rocksdb_backend) (k v : data) (e : Option expiration_time) :
    Bool × rocksdb_backend :=
  let rd := b.require_db
  if !rd.1 then (false, rd.2)
  else
    let written := detail_insert pd pe rd.2 k v true e
    written.2.require_ok written.1

/-- The function `rocksdb_backend::do_erase(const data& k)`. -/
def rocksdb_backend.do_erase {data : Type} (pd : persist data) (b : rocksdb_backend)
    (k : data) : Bool × rocksdb_backend :=
  let rd := b.require_db
  if !rd.1 then (false, rd.2)
  else
    let kserial := to_serial_keyspace pd k 'a'
    let first := rd.2.db_delete kserial
    let checked := first.2.require_ok first.1
    if !checked.1 then (false, checked.2)
    else
      let kserial := set_keyspace 'e' kserial
      let second := checked.2.db_delete kserial
      second.2.require_ok second.1

/-- The function `rocksdb_backend::do_erase(std::string kserial)`. -/
def rocksdb_backend.do_erase_serial (b : rocksdb_backend) (kserial : bytes) :
    Bool × rocksdb_backend :=
  let rd := b.require_db
  if !rd.1 then (false, rd.2)
  else
    let kserial := set_keyspace 'a' kserial
    let first := rd.2.db_delete kserial
    let checked := first.2.require_ok first.1
    if !checked.1 then (false, checked.2)
    else
      let kserial := set_keyspace 'e' kserial
      let second := checked.2.db_delete kserial
      second.2.require_ok second.1

/-- The outcome of the recurring read sequence of the backend. -/
inductive fetched where
  | absent : fetched
  | failed : fetched
  | found (vserial : bytes) : fetched
deriving DecidableEq

/-- The read sequence that `do_lookup`, `do_lookup_expiry` and `do_expire`
repeat: `KeyMayExist(key, &vserial, &value_found)`; when it returns false the
key is absent; when `value_found` is set `vserial` is the value; otherwise
`Get(key, &vserial)` decides, `NotFound` meaning absent and any other status
that `require_ok` rejects a failure. -/
def rocksdb_backend.fetch (b : rocksdb_backend) (key : bytes) : fetched × rocksdb_backend :=
  let probe := b.db_key_may_exist key
  if !probe.1.1 then (fetched.absent, probe.2)
  else if probe.1.2.1 then (fetched.found probe.1.2.2, probe.2)
  else
    let got := probe.2.db_get key
    if got.1.1 = status.not_found then (fetched.absent, got.2)
    else
      let checked := got.2.require_ok got.1.1
      if !checked.1 then (fetched.failed, checked.2)
      else (fetched.found got.1.2, checked.2)

/-- The function `rocksdb_backend::do_expire`. -/
def rocksdb_backend.do_expire {data : Type} (pd : persist data) (pe : persist expiration_time)
    (b : rocksdb_backend) (k : data) (expiration : expiration_time) :
    Bool × rocksdb_backend :=
  let rd := b.require_db
  if !rd.1 then (false, rd.2)
  else
    let kserial := to_serial_keyspace pd k 'e'
    let r := rd.2.fetch kserial
    match r.1 with
    | fetched.absent => (true, r.2)
    | fetched.failed => (false, r.2)
    | fetched.found vserial =>
      let stored_expiration := from_serial pe vserial
      if stored_expiration = expiration then r.2.do_erase_serial kserial
      else (true, r.2)

/-- The function `rocksdb_backend::do_lookup`. -/
def rocksdb_backend.do_lookup {data : Type} (pd : persist data) (b : rocksdb_backend)
    (k : data) : Option (Option data) × rocksdb_backend :=
  let rd := b.require_db
  if !rd.1 then (none, rd.2)
  else
    let kserial := to_serial_keyspace pd k 'a'
    let r := rd.2.fetch kserial
    match r.1 with
    | fetched.absent => (some none, r.2)
    | fetched.failed => (none, r.2)
    | fetched.found vserial => (some (some (from_serial pd vserial)), r.2)

/-- The function `rocksdb_backend::do_lookup_expiry`. -/
def rocksdb_backend.do_lookup_expiry {data : Type} (pd : persist data)
    (pe : persist expiration_time) (b : rocksdb_backend) (k : data) :
    Option (Option data × Option expiration_time) × rocksdb_backend :=
  let rd := b.require_db
  if !rd.1 then (none, rd.2)
  else
    let kserial := to_serial_keyspace pd k 'a'
    let r := rd.2.fetch kserial
    match r.1 with
    | fetched.absent => (some (none, none), r.2)
    | fetched.failed => (none, r.2)
    | fetched.found vserial =>
      let value := from_serial pd vserial
      let kserial := set_keyspace 'e' kserial
      let r2 := r.2.fetch kserial
      match r2.1 with
      | fetched.absent => (some (some value, none), r2.2)
      | fetched.failed => (none, r2.2)
      | fetched.found eserial => (some (some value, some (from_serial pe eserial)), r2.2)

/-- The function `rocksdb_backend::do_exists`. -/
def rocksdb_backend.do_exists {data : Type} (pd : persist data) (b : rocksdb_backend)
    (k : data) : Option Bool × rocksdb_backend :=
  let rd := b.require_db
  if !rd.1 then (none, rd.2)
  else
    let kserial := to_serial_keyspace pd k 'a'
    let probe := rd.2.db_key_may_exist kserial
    if !probe.1.1 then (some false, probe.2)
    else
      let got := probe.2.db_get kserial
      if got.1.1 = status.not_found then (some false, got.2)
      else
        let checked := got.2.require_ok got.1.1
        if !checked.1 then (none, checked.2)
        else (some true, checked.2)

/-- The function `rocksdb_backend::do_keys`. -/
def rocksdb_backend.do_keys {data : Type} (pd : persist data) (b : rocksdb_backend) :
    Option (List data) × rocksdb_backend :=
  let rd := b.require_db
  if !rd.1 then (none, rd.2)
  else
    let rval := (rows_scan rd.2.contents 'a').map
      (fun kv => from_serial pd (drop_keyspace kv.1))
    let st := rd.2.it_status
    let checked := st.2.require_ok st.1
    if !checked.1 then (none, checked.2)
    else (some rval, checked.2)

/-- The function `rocksdb_backend::do_size`. -/
def rocksdb_backend.do_size (b : rocksdb_backend) : Option Nat × rocksdb_backend :=
  let rd := b.require_db
  if !rd.1 then (none, rd.2)
  else
    let est := rd.2.take_estimate
    let estimated : Bool :=
      match est.1 with
      | some rval => decide (rval > b.exact_size_threshold)
      | none => false
    if estimated then (est.1, est.2)
    else
      let rval := (rows_scan est.2.contents 'a').length
      let st := est.2.it_status
      let checked := st.2.require_ok st.1
      if checked.1 then (some rval, checked.2) else (none, checked.2)

/-- The assignment `expiries[key] = expiry` on the `std::unordered_map` of `do_snap`. -/
def map_assign {κ ν : Type} [DecidableEq κ] (m : List (κ × ν)) (k : κ) (v : ν) : List (κ × ν) :=
  if map_contains m k then m.map (fun kv => if kv.1 = k then (kv.1, v) else kv)
  else m ++ [(k, v)]

/-- The first loop of `do_snap`: the expiries found in the `e` keyspace. -/
def snap_expiries {data : Type} [DecidableEq data] (pd : persist data)
    (pe : persist expiration_time) (r : rows) : List (data × expiration_time) :=
  (rows_scan r 'e').foldl
    (fun expiries kv =>
      map_assign expiries (from_serial pd (drop_keyspace kv.1)) (from_serial pe kv.2)) []

/-- The second loop of `do_snap`: one entry per row of the `a` keyspace, with the
expiry found for its key. -/
def snap_entries {data : Type} [DecidableEq data] (pd : persist data)
    (expiries : List (data × expiration_time)) (r : rows) : List (data × value data) :=
  (rows_scan r 'a').map
    (fun kv =>
      let key := from_serial pd (drop_keyspace kv.1)
      (key, ⟨from_serial pd kv.2, map_find expiries key⟩))

/-- The function `rocksdb_backend::do_snap`. -/
def rocksdb_backend.do_snap {data : Type} [DecidableEq data] (pd : persist data)
    (pe : persist expiration_time) (b : rocksdb_backend) :
    Option (snapshot data) × rocksdb_backend :=
  let rd := b.require_db
  if !rd.1 then (none, rd.2)
  else
    let expiries := snap_expiries pd pe rd.2.contents
    let st := rd.2.it_status
    let checked := st.2.require_ok st.1
    if !checked.1 then (none, checked.2)
    else
      let entries := snap_entries pd expiries checked.2.contents
      let st2 := checked.2.it_status
      let checked2 := st2.2.require_ok st2.1
      if !checked2.1 then (none, checked2.2)
      else (some ⟨b.sn, entries⟩, checked2.2)

/-- The function `rocksdb_backend::do_expiries`. -/
def rocksdb_backend.do_expiries {data : Type} (pd : persist data)
    (pe : persist expiration_time) (b : rocksdb_backend) :
    Option (List (expirable data)) × rocksdb_backend :=
  let rd := b.require_db
  if !rd.1 then (none, rd.2)
  else
    let rval := (rows_scan rd.2.contents 'e').map
      (fun kv => (⟨from_serial pd (drop_keyspace kv.1), from_serial pe kv.2⟩ : expirable data))
    let st := rd.2.it_status
    let checked := st.2.require_ok st.1
    if !checked.1 then (none, checked.2)
    else (some rval, checked.2)

/-! ## The rocksdb backend: what the claims speak about -/

/-- Whether a database is open and reopening creates a missing one, as it is
after `open` succeeded. -/
def rocksdb_backend.opened (b : rocksdb_backend) : Bool :=
  b.db.isSome && b.create_if_missing

/-- Whether the environment lets every coming call succeed. -/
def rocksdb_backend.fault_free (b : rocksdb_backend) : Bool :=
  b.faults.all (fun f => !f)

/-- The value and the expiry stored for key `k`, read off the rows: the `a` row
decoded, with the `e` row decoded, or nothing at all without an `a` row. -/
def rocksdb_backend.entry {data : Type} (pd : persist data) (pe : persist expiration_time)
    (b : rocksdb_backend) (k : data) : Option data × Option expiration_time :=
  match rows_get b.contents (to_serial_keyspace pd k 'a') with
  | none => (none, none)
  | some vserial =>
    (some (from_serial pd vserial),
      (rows_get b.contents (to_serial_keyspace pd k 'e')).map (from_serial pe))

/-- The rows are in strictly ascending key order, as the engine keeps them. -/
def rows_sorted (r : rows) : Prop :=
  List.Sorted (fun x y => x.1 < y.1) r

/-- Every row of the `a` and `e` keyspaces has a key that the backend wrote: the
bytes after the keyspace byte are the serialization of the key they decode to. -/
def well_keyed {data : Type} (pd : persist data) (r : rows) : Prop :=
  ∀ kv ∈ r, (kv.1.head? = some 'a' ∨ kv.1.head? = some 'e') →
    pd.save (pd.load (drop_keyspace kv.1)) = drop_keyspace kv.1

/-- The backend after `n` calls of `init` with the same snapshot. -/
def init_times {data : Type} (pd : persist data) (pe : persist expiration_time)
    (sss : snapshot data) : Nat → rocksdb_backend → rocksdb_backend
  | 0, b => b
  | n + 1, b => init_times pd pe sss n (b.do_init pd pe sss).2

/-- A serialization of natural numbers for the examples: `n` is written as `n`
bytes `x`. -/
def unary : persist Nat := ⟨fun n => List.replicate n 'x', List.length⟩

/-- A serialization of expiration times for the examples: the modification time
in bytes `m`, then, with a duration, a byte `d` and the duration in bytes `x`. -/
def expiry_codec : persist expiration_time :=
  ⟨fun e => List.replicate e.last_modification 'm' ++
      (match e.expiry_duration with
       | none => []
       | some d => 'd' :: List.replicate d 'x'),
   fun s => ⟨(s.takeWhile (fun c => c == 'm')).length,
      match s.dropWhile (fun c => c == 'm') with
      | [] => none
      | _ :: rest => some rest.length⟩⟩

/-- A backend with an open, empty database at path `db`. -/
def sample_backend : rocksdb_backend :=
  ⟨some ⟨"db", []⟩, true, 0, "", 10, [], [], [], []⟩

/-- The sample backend after the inserts `1 ↦ 5` with an expiry and `2 ↦ 7`
without one. -/
def sample_store : rocksdb_backend :=
  ((sample_backend.do_insert unary expiry_codec 1 5 (some ⟨3, some 2⟩)).2.do_insert
    unary expiry_codec 2 7 none).2

/-! ## The rocksdb backend: modifications -/

/-- The enumeration `modification_result::status`. -/
inductive modification_result.status where
  | success
  | invalid
  | failure
deriving DecidableEq

/-- Modelled from the spec: a `modification_result` (declared outside the
sources) is one of `{success, invalid, failure}` with the new expiry. -/
structure modification_result where
  stat : modification_result.status
  new_expiry : Option expiration_time
deriving DecidableEq

/-- Modelled from the spec: what a helper of `util/misc.hh` that updates a value
in place (`increment_data`, `add_data_to_set`, `remove_data_from_set`,
`push_left`, `push_right`) leaves behind: `done v` stands for the return value
true with `v` left in the argument, `refused msg` for the return value false
with `msg` what it wrote to the error string, if it wrote one. -/
inductive updated (data : Type) where
  | done (v : data) : updated data
  | refused (error_msg : Option String) : updated data
deriving DecidableEq

/-- Modelled from the spec: what `util::pop_left` and `util::pop_right` deliver:
`refused msg` stands for no result (the value is not a list), `empty` for a
result without an item (the list is empty) and `item x rest` for the popped item
`x` with `rest` left in the argument. -/
inductive popped (data : Type) where
  | refused (error_msg : Option String) : popped data
  | empty : popped data
  | item (x rest : data) : popped data
deriving DecidableEq

/-- Modelled from the spec: the helpers of `util/misc.hh`, which is not among the
sources, with the arguments the backend passes to them. -/
structure util (data : Type) where
  increment_data : Option data → Int → updated data
  add_data_to_set : Option data → data → updated data
  remove_data_from_set : Option data → data → updated data
  push_left : Option data → List data → updated data
  push_right : Option data → List data → updated data
  pop_left : data → popped data
  pop_right : data → popped data
  update_last_modification : Option expiration_time → Nat → Option expiration_time

/-- What a helper that was given `&pimpl->last_error` leaves in it. -/
def rocksdb_backend.set_error (b : rocksdb_backend) : Option String → rocksdb_backend
  | none => b
  | some msg => { b with last_error := msg }

/-- The steps that `do_increment`, `do_add_to_set`, `do_remove_from_set`,
`do_push_left` and `do_push_right` repeat around their helper: look the key up
with its expiry; a failed lookup is a `failure`; a value the helper refuses is
`invalid`; else the new value is written by `detail::insert` with the updated
expiry, and the outcome of the write decides between `success` and `failure`. -/
def rocksdb_backend.modify {data : Type} (pd : persist data) (pe : persist expiration_time)
    (u : util data) (b : rocksdb_backend) (k : data) (mod_time : Nat)
    (helper : Option data → updated data) : modification_result × rocksdb_backend :=
  let op := b.do_lookup_expiry pd pe k
  match op.1 with
  | none => (⟨modification_result.status.failure, none⟩, op.2)
  | some found =>
    match helper found.1 with
    | updated.refused msg => (⟨modification_result.status.invalid, none⟩, op.2.set_error msg)
    | updated.done v =>
      let new_expiry := u.update_last_modification found.2 mod_time
      let written := detail_insert pd pe op.2 k v false new_expiry
      let checked := written.2.require_ok written.1
      if checked.1 then (⟨modification_result.status.success, new_expiry⟩, checked.2)
      else (⟨modification_result.status.failure, none⟩, checked.2)

/-- The function `rocksdb_backend::do_increment`. -/
def rocksdb_backend.do_increment {data : Type} (pd : persist data)
    (pe : persist expiration_time) (u : util data) (b : rocksdb_backend) (k : data)
    (amount : Int) (mod_time : Nat) : modification_result × rocksdb_backend :=
  b.modify pd pe u k mod_time (fun d => u.increment_data d amount)

/-- The function `rocksdb_backend::do_add_to_set`. -/
def rocksdb_backend.do_add_to_set {data : Type} (pd : persist data)
    (pe : persist expiration_time) (u : util data) (b : rocksdb_backend) (k element : data)
    (mod_time : Nat) : modification_result × rocksdb_backend :=
  b.modify pd pe u k mod_time (fun d => u.add_data_to_set d element)

/-- The function `rocksdb_backend::do_remove_from_set`. -/
def rocksdb_backend.do_remove_from_set {data : Type} (pd : persist data)
    (pe : persist expiration_time) (u : util data) (b : rocksdb_backend) (k element : data)
    (mod_time : Nat) : modification_result × rocksdb_backend :=
  b.modify pd pe u k mod_time (fun d => u.remove_data_from_set d element)

/-- The function `rocksdb_backend::do_push_left`. -/
def rocksdb_backend.do_push_left {data : Type} (pd : persist data)
    (pe : persist expiration_time) (u : util data) (b : rocksdb_backend) (k : data)
    (items : List data) (mod_time : Nat) : modification_result × rocksdb_backend :=
  b.modify pd pe u k mod_time (fun d => u.push_left d items)

/-- The function `rocksdb_backend::do_push_right`. -/
def rocksdb_backend.do_push_right {data : Type} (pd : persist data)
    (pe : persist expiration_time) (u : util data) (b : rocksdb_backend) (k : data)
    (items : List data) (mod_time : Nat) : modification_result × rocksdb_backend :=
  b.modify pd pe u k mod_time (fun d => u.push_right d items)

/-- The steps that `do_pop_left` and `do_pop_right` share: look the key up with
its expiry; a failed lookup is a `failure`; a key without a value is a `success`
without an item; a value the helper refuses is `invalid`; an empty list is a
`success` without an item; else the shortened list is written by
`detail::insert` with the updated expiry and the popped item is returned. -/
def rocksdb_backend.pop {data : Type} (pd : persist data) (pe : persist expiration_time)
    (u : util data) (b : rocksdb_backend) (k : data) (mod_time : Nat)
    (helper : data → popped data) : (modification_result × Option data) × rocksdb_backend :=
  let op := b.do_lookup_expiry pd pe k
  match op.1 with
  | none => ((⟨modification_result.status.failure, none⟩, none), op.2)
  | some found =>
    match found.1 with
    | none => ((⟨modification_result.status.success, none⟩, none), op.2)
    | some v =>
      match helper v with
      | popped.refused msg =>
        ((⟨modification_result.status.invalid, none⟩, none), op.2.set_error msg)
      | popped.empty => ((⟨modification_result.status.success, none⟩, none), op.2)
      | popped.item x rest =>
        let new_expiry := u.update_last_modification found.2 mod_time
        let written := detail_insert pd pe op.2 k rest false new_expiry
        let checked := written.2.require_ok written.1
        if checked.1 then
          ((⟨modification_result.status.success, new_expiry⟩, some x), checked.2)
        else ((⟨modification_result.status.failure, none⟩, none), checked.2)

/-- The function `rocksdb_backend::do_pop_left`. -/
def rocksdb_backend.do_pop_left {data : Type} (pd : persist data)
    (pe : persist expiration_time) (u : util data) (b : rocksdb_backend) (k : data)
    (mod_time : Nat) : (modification_result × Option data) × rocksdb_backend :=
  b.pop pd pe u k mod_time u.pop_left

/-- The function `rocksdb_backend::do_pop_right`. -/
def rocksdb_backend.do_pop_right {data : Type} (pd : persist data)
    (pe : persist expiration_time) (u : util data) (b : rocksdb_backend) (k : data)
    (mod_time : Nat) : (modification_result × Option data) × rocksdb_backend :=
  b.pop pd pe u k mod_time u.pop_right

/-- A call of one of the operations of the backend that write. -/
inductive backend_call (data : Type) where
  | init (sss : snapshot data) : backend_call data
  | insert (k v : data) (e : Option expiration_time) : backend_call data
  | erase (k : data) : backend_call data
  | expire (k : data) (expiration : expiration_time) : backend_call data
  | increment (k : data) (amount : Int) (mod_time : Nat) : backend_call data
  | add_to_set (k element : data) (mod_time : Nat) : backend_call data
  | remove_from_set (k element : data) (mod_time : Nat) : backend_call data
  | push_left (k : data) (items : List data) (mod_time : Nat) : backend_call data
  | push_right (k : data) (items : List data) (mod_time : Nat) : backend_call data
  | pop_left (k : data) (mod_time : Nat) : backend_call data
  | pop_right (k : data) (mod_time : Nat) : backend_call data

/-- Whether a modification did not fail. -/
def modification_result.passed (r : modification_result) : Bool :=
  decide (r.stat ≠ modification_result.status.failure)

/-- The backend carries out a call: whether the call did not fail, and the
backend it leaves. -/
def rocksdb_backend.call {data : Type} (pd : persist data) (pe : persist expiration_time)
    (u : util data) (b : rocksdb_backend) : backend_call data → Bool × rocksdb_backend
  | backend_call.init sss => b.do_init pd pe sss
  | backend_call.insert k v e => b.do_insert pd pe k v e
  | backend_call.erase k => b.do_erase pd k
  | backend_call.expire k expiration => b.do_expire pd pe k expiration
  | backend_call.increment k amount mod_time =>
    ((b.do_increment pd pe u k amount mod_time).1.passed,
      (b.do_increment pd pe u k amount mod_time).2)
  | backend_call.add_to_set k element mod_time =>
    ((b.do_add_to_set pd pe u k element mod_time).1.passed,
      (b.do_add_to_set pd pe u k element mod_time).2)
  | backend_call.remove_from_set k element mod_time =>
    ((b.do_remove_from_set pd pe u k element mod_time).1.passed,
      (b.do_remove_from_set pd pe u k element mod_time).2)
  | backend_call.push_left k items mod_time =>
    ((b.do_push_left pd pe u k items mod_time).1.passed,
      (b.do_push_left pd pe u k items mod_time).2)
  | backend_call.push_right k items mod_time =>
    ((b.do_push_right pd pe u k items mod_time).1.passed,
      (b.do_push_right pd pe u k items mod_time).2)
  | backend_call.pop_left k mod_time =>
    ((b.do_pop_left pd pe u k mod_time).1.1.passed, (b.do_pop_left pd pe u k mod_time).2)
  | backend_call.pop_right k mod_time =>
    ((b.do_pop_right pd pe u k mod_time).1.1.passed, (b.do_pop_right pd pe u k mod_time).2)

/-- The backend after a sequence of calls. -/
def rocksdb_backend.calls {data : Type} (pd : persist data) (pe : persist expiration_time)
    (u : util data) (b : rocksdb_backend) (cs : List (backend_call data)) : rocksdb_backend :=
  cs.foldl (fun s c => (s.call pd pe u c).2) b

/-- Whether a call runs to its end: an `erase` or an `expire`, which delete the
value row and the expiry row one after the other, succeeds or leaves the rows
as they are; every other call writes a single batch. -/
def rocksdb_backend.erase_complete {data : Type} (pd : persist data)
    (pe : persist expiration_time) (u : util data) (b : rocksdb_backend)
    (c : backend_call data) : Bool :=
  match c with
  | backend_call.erase _ =>
    (b.call pd pe u c).1 || decide ((b.call pd pe u c).2.contents = b.contents)
  | backend_call.expire _ _ =>
    (b.call pd pe u c).1 || decide ((b.call pd pe u c).2.contents = b.contents)
  | _ => true

/-- No `erase` and no `expire` of a sequence of calls stops between its two
deletes, as a failing engine write would make it. -/
def rocksdb_backend.erases_complete {data : Type} (pd : persist data)
    (pe : persist expiration_time) (u : util data) :
    rocksdb_backend → List (backend_call data) → Bool
  | _, [] => true
  | b, c :: cs =>
    b.erase_complete pd pe u c &&
      rocksdb_backend.erases_complete pd pe u (b.call pd pe u c).2 cs

/-- Every row of the `e` keyspace has its row of the `a` keyspace. -/
def expiry_has_value (r : rows) : Prop :=
  ∀ s : bytes, rows_get r ('e' :: s) ≠ none → rows_get r ('a' :: s) ≠ none

/-! ## The endpoint -/

/-- The class `peering::impl`; two of them are equal when all four members are,
as `peering::impl::operator==` has it. -/
structure peering.impl where
  endpoint_actor : actor
  peer_actor : actor
  remote : Bool
  remote_tuple : String × Nat
deriving DecidableEq

/-- A `peering`: the handle that holds a `peering::impl`. -/
structure peering where
  pimpl : peering.impl
deriving DecidableEq

/-- The accessor `peering::remote`. -/
def peering.remote (p : peering) : Bool := p.pimpl.remote

/-- Modelled from the spec: the members of `endpoint::impl` that `unpeer` uses
(`endpoint_impl.hh` is not among the sources): the actor of the endpoint and
the set of its peerings. -/
structure endpoint where
  actor : actor
  peers : Finset peering
deriving DecidableEq

/-- A message handed to `caf::anon_send` by `unpeer`: `quit dest` stands for
`(quit_atom)` sent to `dest`, `unpeer dest other` for `(unpeer_atom, other)`
sent to `dest`. -/
inductive anon_send where
  | quit (dest : actor) : anon_send
  | unpeer (dest other : actor) : anon_send
deriving DecidableEq

/-- The function `endpoint::unpeer`: the returned flag, the endpoint it leaves
and the messages it sends.  `valid` stands for `peering::operator bool`, which
is defined outside the sources. -/
def endpoint.unpeer (valid : peering → Bool) (e : endpoint) (p : peering) :
    Bool × endpoint × List anon_send :=
  if !valid p then (false, e, [])
  else if p ∉ e.peers then (false, e, [])
  else
    let e1 : endpoint := { e with peers := e.peers.erase p }
    if p.remote then (true, e1, [anon_send.quit p.pimpl.peer_actor])
    else
      (true, e1, [anon_send.unpeer e.actor p.pimpl.peer_actor,
        anon_send.unpeer p.pimpl.peer_actor e.actor])

/-! ## Concrete inputs -/

/-- A core with handle `1` just started on the filter `["a"]`. -/
def sample_core : core_actor_state := core_actor (some 1) ["a".toList]

/-- The mailbox element of a request sent by `p` through `p * core`: `p` is the
sender and the only forwarding stage. -/
def request_from (p : actor) : mailbox_element := ⟨p, [p], none⟩

/-- The mailbox element of a stream handshake whose previous stage is `p`. -/
def handshake_from (p : actor) : mailbox_element :=
  ⟨p, [], some (stream_msg_content.open_msg p)⟩

/-- The sample core after it handled step #1 from core `7`. -/
def sample_core_pending : core_actor_state :=
  (handle_peer_step1 sample_core (request_from (some 7)) ["x".toList] (some 7)).next

/-- The sample core after it handled step #1 and then step #3 from core `7`: the
handshake with core `7` is complete. -/
def sample_core_connected : core_actor_state :=
  (handle_peer_step3 sample_core_pending (handshake_from (some 7)) ⟨⟨some 7, 5⟩, none⟩
    (some 7)).next

/-- The sample core with a subscription to the master topic of store `kv`
propagated from core `9`. -/
def sample_core_remote_master : core_actor_state :=
  { sample_core with
    state := { sample_core.state with subscriptions := [(master_topic "kv", [some 9])] } }

/-- The sample core after it attached a master for store `kv`. -/
def sample_core_master : core_actor_state :=
  (handle_attach_master sample_core ⟨some 3, [], none⟩ "kv" backend.memory []).next

/-- A backend whose database was just cleared: it holds the version row only. -/
def sample_fresh : rocksdb_backend := (sample_backend.do_clear).2

/-- The freshly cleared backend after the inserts `1 ↦ 5` with an expiry and
`2 ↦ 7` without one. -/
def sample_full : rocksdb_backend :=
  ((sample_fresh.do_insert unary expiry_codec 1 5 (some ⟨3, some 2⟩)).2.do_insert
    unary expiry_codec 2 7 none).2

/-- The backend with two keys whose estimator is going to answer `10`, the
value of `exact_size_threshold`. -/
def sample_store_estimated : rocksdb_backend := { sample_full with estimates := [some 10] }

/-- The backend with two keys whose estimator is going to answer `11`. -/
def sample_store_overestimated : rocksdb_backend :=
  { sample_full with estimates := [some 11] }

/-- The sample store after an `erase` of key `1` whose second delete failed: the
expiry row of key `1` is left without its value row. -/
def sample_dangling : rocksdb_backend :=
  (({ sample_store with faults := [false, true] } : rocksdb_backend).do_erase unary 1).2

/-- Modelled from the spec: a fragment of the data universe for the examples:
counts, strings, and vectors and sets of counts. -/
inductive sample_data where
  | count (n : Nat) : sample_data
  | string (s : List Char) : sample_data
  | vector (xs : List Nat) : sample_data
  | set (xs : List Nat) : sample_data
deriving DecidableEq

/-- The counts of a container written one after the other, each as so many
bytes `x` and a closing `;`. -/
def save_counts : List Nat → bytes
  | [] => []
  | n :: rest => List.replicate n 'x' ++ ';' :: save_counts rest

/-- The counts read back; `n` counts the bytes `x` seen since the last `;`. -/
def load_counts : bytes → Nat → List Nat
  | [], _ => []
  | c :: rest, n => if c = ';' then n :: load_counts rest 0 else load_counts rest (n + 1)

/-- A serialization of the sample data: a tag byte and the content. -/
def sample_codec : persist sample_data :=
  ⟨fun d =>
      match d with
      | sample_data.count n => 'c' :: List.replicate n 'x'
      | sample_data.string s => 's' :: s
      | sample_data.vector xs => 'v' :: save_counts xs
      | sample_data.set xs => 't' :: save_counts xs,
   fun s =>
      match s with
      | [] => sample_data.string []
      | tag :: rest =>
        if tag = 'c' then sample_data.count rest.length
        else if tag = 'v' then sample_data.vector (load_counts rest 0)
        else if tag = 't' then sample_data.set (load_counts rest 0)
        else sample_data.string rest⟩

/-- The counts among the given items, or nothing when an item is not a count. -/
def sample_counts : List sample_data → Option (List Nat)
  | [] => some []
  | sample_data.count n :: rest => (sample_counts rest).map (fun ns => n :: ns)
  | _ :: _ => none

/-- Modelled from the spec: helpers for the sample data: `increment` applies to
counts, the set operations to sets and the list operations to vectors, a key
without a value starts from the empty one, and everything else is refused; a
modification stamps an existing expiry with the modification time. -/
def sample_util : util sample_data where
  increment_data := fun d amount =>
    match d with
    | none => updated.done (sample_data.count amount.toNat)
    | some (sample_data.count n) => updated.done (sample_data.count (n + amount).toNat)
    | some _ => updated.refused (some "attempt to increment non-integral data")
  add_data_to_set := fun d element =>
    match d, element with
    | none, sample_data.count n => updated.done (sample_data.set [n])
    | some (sample_data.set xs), sample_data.count n =>
      updated.done (sample_data.set (if n ∈ xs then xs else n :: xs))
    | _, _ => updated.refused (some "attempt to add to non-set data")
  remove_data_from_set := fun d element =>
    match d, element with
    | none, _ => updated.done (sample_data.set [])
    | some (sample_data.set xs), sample_data.count n =>
      updated.done (sample_data.set (xs.filter (fun x => x != n)))
    | _, _ => updated.refused (some "attempt to remove from non-set data")
  push_left := fun d items =>
    match d, sample_counts items with
    | none, some ns => updated.done (sample_data.vector ns)
    | some (sample_data.vector xs), some ns => updated.done (sample_data.vector (ns ++ xs))
    | _, _ => updated.refused (some "attempt to push to non-vector data")
  push_right := fun d items =>
    match d, sample_counts items with
    | none, some ns => updated.done (sample_data.vector ns)
    | some (sample_data.vector xs), some ns => updated.done (sample_data.vector (xs ++ ns))
    | _, _ => updated.refused (some "attempt to push to non-vector data")
  pop_left := fun d =>
    match d with
    | sample_data.vector [] => popped.empty
    | sample_data.vector (x :: xs) => popped.item (sample_data.count x) (sample_data.vector xs)
    | _ => popped.refused (some "attempt to pop from non-vector data")
  pop_right := fun d =>
    match d with
    | sample_data.vector [] => popped.empty
    | sample_data.vector (x :: xs) =>
      popped.item (sample_data.count ((x :: xs).getLast (List.cons_ne_nil x xs)))
        (sample_data.vector (x :: xs).dropLast)
    | _ => popped.refused (some "attempt to pop from non-vector data")
  update_last_modification := fun e mod_time =>
    e.map (fun x => { x with last_modification := mod_time })

/-- The freshly cleared backend after the inserts of the string `s` under the
key `s`, with an expiry, and of the empty vector under the key `v`. -/
def sample_typed : rocksdb_backend :=
  ((sample_fresh.do_insert sample_codec expiry_codec (sample_data.string "s".toList)
      (sample_data.string "s".toList) (some ⟨3, some 2⟩)).2.do_insert
    sample_codec expiry_codec (sample_data.string "v".toList) (sample_data.vector []) none).2

/-- A sequence of calls on the sample data: three inserts, an increment of a
count and one of a string, a push and a pop on a vector, the expiry of a key
and the erasure of another. -/
def sample_calls : List (backend_call sample_data) :=
  [backend_call.insert (sample_data.string "s".toList) (sample_data.string "s".toList)
      (some ⟨3, some 2⟩),
    backend_call.insert (sample_data.string "v".toList) (sample_data.vector []) none,
    backend_call.insert (sample_data.string "n".toList) (sample_data.count 1) (some ⟨3, some 2⟩),
    backend_call.increment (sample_data.string "n".toList) 1 4,
    backend_call.increment (sample_data.string "s".toList) 1 4,
    backend_call.push_right (sample_data.string "v".toList) [sample_data.count 2] 5,
    backend_call.pop_left (sample_data.string "v".toList) 6,
    backend_call.expire (sample_data.string "s".toList) ⟨3, some 2⟩,
    backend_call.erase (sample_data.string "v".toList)]

/-! ## Facts about `std::unique` after `std::sort` -/

theorem mem_of_mem_std_unique_loop {α : Type} [DecidableEq α] (x : α) :
    ∀ (l : List α) (a : α), x ∈ std_unique_loop a l → x ∈ l := by
  intro l
  induction l with
  | nil => intro a h; simp [std_unique_loop] at h
  | cons y ys ih =>
    intro a h
    unfold std_unique_loop at h
    by_cases hay : a = y
    · rw [if_pos hay] at h
      exact List.mem_cons_of_mem _ (ih a h)
    · rw [if_neg hay] at h
      rcases List.mem_cons.mp h with hx | hx
      · exact hx ▸ List.mem_cons_self _ _
      · exact List.mem_cons_of_mem _ (ih y hx)

theorem mem_std_unique_loop_of_mem {α : Type} [DecidableEq α] (x : α) :
    ∀ (l : List α) (a : α), x ∈ l → x = a ∨ x ∈ std_unique_loop a l := by
  intro l
  induction l with
  | nil => intro a h; simp at h
  | cons y ys ih =>
    intro a h
    unfold std_unique_loop
    by_cases hay : a = y
    · rw [if_pos hay]
      rcases List.mem_cons.mp h with hx | hx
      · exact Or.inl (hx.trans hay.symm)
      · exact ih a hx
    · rw [if_neg hay]
      rcases List.mem_cons.mp h with hx | hx
      · exact Or.inr (hx ▸ List.mem_cons_self _ _)
      · rcases ih y hx with hxy | hmem
        · exact Or.inr (hxy ▸ List.mem_cons_self _ _)
        · exact Or.inr (List.mem_cons_of_mem _ hmem)

theorem mem_std_unique {α : Type} [DecidableEq α] (x : α) (l : List α) :
    x ∈ std_unique l ↔ x ∈ l := by
  cases l with
  | nil => simp [std_unique]
  | cons a t =>
    unfold std_unique
    constructor
    · intro h
      rcases List.mem_cons.mp h with hx | hx
      · exact hx ▸ List.mem_cons_self _ _
      · exact List.mem_cons_of_mem _ (mem_of_mem_std_unique_loop x t a hx)
    · intro h
      rcases List.mem_cons.mp h with hx | hx
      · exact hx ▸ List.mem_cons_self _ _
      · rcases mem_std_unique_loop_of_mem x t a hx with hxa | hmem
        · exact hxa ▸ List.mem_cons_self _ _
        · exact List.mem_cons_of_mem _ hmem

theorem std_unique_loop_strict {α : Type} [LinearOrder α] [DecidableEq α] :
    ∀ (l : List α) (a : α), List.Sorted (fun x y => x ≤ y) (a :: l) →
      List.Sorted (fun x y => x < y) (a :: std_unique_loop a l) := by
  intro l
  induction l with
  | nil => intro a _; simp [std_unique_loop]
  | cons y ys ih =>
    intro a h
    have hle : ∀ b ∈ y :: ys, a ≤ b := List.rel_of_sorted_cons h
    have hys : List.Sorted (fun x y => x ≤ y) (y :: ys) := h.of_cons
    unfold std_unique_loop
    by_cases hay : a = y
    · rw [if_pos hay]
      apply ih a
      exact List.sorted_cons.mpr ⟨fun b hb => hle b (List.mem_cons_of_mem _ hb), hys.of_cons⟩
    · rw [if_neg hay]
      have hlt : a < y := lt_of_le_of_ne (hle y (List.mem_cons_self _ _)) hay
      have hrec := ih y hys
      refine List.sorted_cons.mpr ⟨?_, hrec⟩
      intro b hb
      rcases List.mem_cons.mp hb with hby | hb2
      · exact hby ▸ hlt
      · exact lt_trans hlt (List.rel_of_sorted_cons hrec b hb2)

theorem std_unique_sorted_strict {α : Type} [LinearOrder α] [DecidableEq α] (l : List α)
    (h : List.Sorted (fun x y => x ≤ y) l) : List.Sorted (fun x y => x < y) (std_unique l) := by
  cases l with
  | nil => simp [std_unique]
  | cons a t => exact std_unique_loop_strict t a h

theorem std_sort_sorted {α : Type} [LinearOrder α] (l : List α) :
    List.Sorted (fun x y => x ≤ y) (std_sort l) :=
  List.sorted_insertionSort (fun x y => x ≤ y) l

theorem mem_std_sort {α : Type} [LinearOrder α] (x : α) (l : List α) :
    x ∈ std_sort l ↔ x ∈ l :=
  (List.perm_insertionSort (fun x y => x ≤ y) l).mem_iff

theorem canonical_strict (f xs : filter_type) :
    List.Sorted (fun x y => x < y) (std_unique (std_sort (f ++ xs))) :=
  std_unique_sorted_strict _ (std_sort_sorted _)

theorem add_to_filter_filter (st : core_state) (xs : filter_type) :
    (st.add_to_filter xs).1.filter = std_unique (std_sort (st.filter ++ xs)) := by
  unfold core_state.add_to_filter
  simp only []
  split <;> rfl

theorem sorted_le_nodup_of_strict {l : filter_type} (h : List.Sorted (fun x y => x < y) l) :
    List.Sorted (fun x y => x ≤ y) l ∧ l.Nodup :=
  ⟨h.imp (fun hab => le_of_lt hab), h.imp (fun hab => ne_of_lt hab)⟩

theorem strict_of_sorted_le_nodup {l : filter_type} (h : List.Sorted (fun x y => x ≤ y) l)
    (hn : l.Nodup) : List.Sorted (fun x y => x < y) l :=
  (List.Pairwise.and h hn).imp (fun hab => lt_of_le_of_ne hab.1 hab.2)

theorem spawn_clone_filter (s : core_actor_state) (name : String) (master : actor) :
    (spawn_clone s name master).2.1.state.filter
      = std_unique (std_sort (s.state.filter ++ [clone_topic name])) := by
  unfold spawn_clone
  simp only [add_to_filter_filter]

theorem dispatch_filter (s : core_actor_state) (cme : mailbox_element) (m : core_msg) :
    (dispatch s cme m).1.state.filter = s.state.filter ∨
      ∃ xs, (dispatch s cme m).1.state.filter = std_unique (std_sort (s.state.filter ++ xs)) := by
  cases m with
  | subscribe f => right; exact ⟨f, by simp [dispatch, handle_subscribe, add_to_filter_filter]⟩
  | peer remote_core =>
    left; simp only [dispatch, handle_peer]; split_ifs <;> rfl
  | peer_step1 peer_ts remote_core =>
    left; simp only [dispatch, handle_peer_step1]
    split_ifs <;> try rfl
    split <;> rfl
  | peer_step2 in_ filter remote_core =>
    left; simp only [dispatch, handle_peer_step2]
    split_ifs <;> try rfl
    split <;> rfl
  | peer_step3 in_ remote_core =>
    left; simp only [dispatch, handle_peer_step3]
    split_ifs <;> try rfl
    split <;> try rfl
    split <;> rfl
  | update f =>
    left; simp only [dispatch, handle_update]; split_ifs <;> rfl
  | join filter =>
    simp only [dispatch, handle_join]
    split_ifs
    · left; rfl
    · left; rfl
    · right; exact ⟨filter, by simp [add_to_filter_filter]⟩
  | local_stream in_ =>
    left; simp only [dispatch, handle_local_stream]; split_ifs <;> rfl
  | publish t x => left; rfl
  | attach_master name backend_type opts =>
    simp only [dispatch, handle_attach_master]
    split_ifs <;> (try split) <;>
      first
      | (left; rfl)
      | (right; exact ⟨[master_topic name], by simp [add_to_filter_filter]⟩)
  | attach_clone name =>
    simp only [dispatch, handle_attach_clone]
    split_ifs <;> (try split) <;>
      first
      | (left; rfl)
      | (right; exact ⟨[clone_topic name], by simp only [spawn_clone_filter]⟩)
  | get_master name =>
    left; simp only [dispatch, handle_get_master]; split <;> rfl
  | resolve_master name =>
    left; simp only [dispatch, handle_resolve_master]; split <;> rfl
  | clone_resolved name master =>
    right; exact ⟨[clone_topic name], by simp only [dispatch, handle_clone_resolved]; rw [spawn_clone_filter]⟩
  | master_resolved name master => left; rfl
  | resolve_failed err => left; rfl
  | down => left; rfl

theorem run_filter_strict :
    ∀ (evs : List (mailbox_element × core_msg)) (s : core_actor_state),
      List.Sorted (fun x y => x < y) s.state.filter →
      List.Sorted (fun x y => x < y) (run s evs).state.filter := by
  intro evs
  induction evs with
  | nil => intro s h; exact h
  | cons e rest ih =>
    intro s h
    obtain ⟨cme, m⟩ := e
    unfold run
    apply ih
    rcases dispatch_filter s cme m with heq | ⟨xs, heq⟩
    · rw [heq]; exact h
    · rw [heq]; exact canonical_strict _ _

theorem mem_canonical (f xs : filter_type) (t : topic) :
    t ∈ std_unique (std_sort (f ++ xs)) ↔ t ∈ f ∨ t ∈ xs := by
  rw [mem_std_unique, mem_std_sort, List.mem_append]

/-! ## Facts about the containers and about step #1 -/

theorem map_contains_eq_false_iff {κ ν : Type} [DecidableEq κ] (m : List (κ × ν)) (k : κ) :
    map_contains m k = false ↔ ∀ v, (k, v) ∉ m := by
  unfold map_contains
  rw [List.any_eq_false]
  constructor
  · intro h v hv
    exact h (k, v) hv (by simp)
  · intro h kv hkv hdec
    have hk : kv.1 = k := of_decide_eq_true hdec
    exact h kv.2 (by rw [← hk]; exact hkv)

theorem map_find_eq_none_of_not_contains {κ ν : Type} [DecidableEq κ] (m : List (κ × ν))
    (k : κ) (h : map_contains m k = false) : map_find m k = none := by
  unfold map_find
  unfold map_contains at h
  rw [List.any_eq_false] at h
  rw [Option.map_eq_none', List.find?_eq_none]
  intro kv hkv
  exact h kv hkv

theorem map_count_eq_zero_of_not_contains {κ ν : Type} [DecidableEq κ] (m : List (κ × ν))
    (k : κ) (h : map_contains m k = false) : map_count m k = 0 := by
  unfold map_count
  unfold map_contains at h
  rw [List.any_eq_false] at h
  rw [List.length_eq_zero, List.filter_eq_nil_iff]
  intro kv hkv
  exact h kv hkv

theorem map_contains_emplace {κ ν : Type} [DecidableEq κ] (m : List (κ × ν)) (k : κ) (v : ν) :
    map_contains (map_emplace m k v).1 k = true := by
  unfold map_emplace
  by_cases h : map_contains m k = true
  · rw [if_pos h]; exact h
  · rw [if_neg h]; simp [map_contains]

theorem map_count_emplace_fresh {κ ν : Type} [DecidableEq κ] (m : List (κ × ν)) (k : κ) (v : ν)
    (h : map_contains m k = false) : map_count (map_emplace m k v).1 k = 1 := by
  have h0 := map_count_eq_zero_of_not_contains m k h
  unfold map_emplace
  rw [h]
  unfold map_count at h0 ⊢
  simp [List.filter_append, h0]

/-- A step #1 request for a core that is pending or connected is answered with
`invalid_stream` and changes nothing. -/
theorem step1_repeated (s : core_actor_state) (cme : mailbox_element) (peer_ts : filter_type)
    (A : actor) (h : s.state.has_peer A = true) :
    handle_peer_step1 s cme peer_ts A = ⟨invalid_stream, s, []⟩ := by
  unfold core_state.has_peer at h
  unfold handle_peer_step1
  simp only []
  by_cases hp : cme.sender = none
  · rw [if_pos hp]
  · rw [if_neg hp]
    by_cases h1 : map_contains s.state.pending_peers A = true
    · rw [if_pos h1]
    · rw [if_neg h1]
      have h2 : s.state.connected_peers.contains A = true := by
        rcases Bool.or_eq_true _ _ |>.mp h with h3 | h3
        · exact absurd h3 h1
        · exact h3
      rw [if_pos h2]

theorem step1_fresh (s : core_actor_state) (cme : mailbox_element) (peer_ts : filter_type)
    (A : actor) (hp : cme.sender ≠ none) (h : s.state.has_peer A = false)
    (hg : s.state.governor.has_peer A = false) :
    (handle_peer_step1 s cme peer_ts A).next.state.pending_peers
        = (map_emplace s.state.pending_peers A ⟨s.state.self, s.last_request_id + 1⟩).1 := by
  unfold core_state.has_peer at h
  rw [Bool.or_eq_false_iff] at h
  unfold stream_governor.has_peer at hg
  unfold handle_peer_step1
  simp only [if_neg hp, h.1, h.2, stream_governor.add_peer, map_emplace, hg,
    core_actor_state.make_stream_id]
  simp

theorem step1_known (s : core_actor_state) (cme : mailbox_element) (peer_ts : filter_type)
    (A : actor) (h : s.state.has_peer A = false)
    (hg : s.state.governor.has_peer A = true) :
    (handle_peer_step1 s cme peer_ts A).next.state = s.state ∧
      (handle_peer_step1 s cme peer_ts A).next.streams = s.streams := by
  unfold core_state.has_peer at h
  rw [Bool.or_eq_false_iff] at h
  unfold stream_governor.has_peer at hg
  unfold handle_peer_step1
  simp only [h.1, h.2, stream_governor.add_peer, map_emplace, hg,
    core_actor_state.make_stream_id]
  split_ifs <;> simp

theorem deliver_times_fixed (s : core_actor_state) (cme : mailbox_element) (m : core_msg)
    (h : (dispatch s cme m).1 = s) : ∀ n, deliver_times s cme m n = s := by
  intro n
  induction n with
  | zero => rfl
  | succ k ih => unfold deliver_times; rw [h]; exact ih

theorem deliver_step1_known (cme : mailbox_element) (peer_ts : filter_type) (A : actor) :
    ∀ (n : Nat) (s : core_actor_state), s.state.has_peer A = false →
      s.state.governor.has_peer A = true →
      (deliver_times s cme (core_msg.peer_step1 peer_ts A) n).state = s.state ∧
        (deliver_times s cme (core_msg.peer_step1 peer_ts A) n).streams = s.streams := by
  intro n
  induction n with
  | zero => intro s _ _; exact ⟨rfl, rfl⟩
  | succ k ih =>
    intro s h hg
    have hk := step1_known s cme peer_ts A h hg
    unfold deliver_times
    simp only [dispatch]
    have := ih (handle_peer_step1 s cme peer_ts A).next (by rw [hk.1]; exact h) (by rw [hk.1]; exact hg)
    rw [hk.1, hk.2] at this
    exact this

theorem add_to_filter_connected (st : core_state) (xs : filter_type) :
    (st.add_to_filter xs).1.connected_peers = st.connected_peers := by
  unfold core_state.add_to_filter
  simp only []
  split <;> rfl

theorem spawn_clone_connected (s : core_actor_state) (name : String) (master : actor) :
    (spawn_clone s name master).2.1.state.connected_peers = s.state.connected_peers := by
  unfold spawn_clone
  simp only [add_to_filter_connected]

/-- No handler of the core writes `connected_peers`. -/
theorem dispatch_connected (s : core_actor_state) (cme : mailbox_element) (m : core_msg) :
    (dispatch s cme m).1.state.connected_peers = s.state.connected_peers := by
  cases m with
  | subscribe f => simp [dispatch, handle_subscribe, add_to_filter_connected]
  | peer remote_core => simp only [dispatch, handle_peer]; split_ifs <;> rfl
  | peer_step1 peer_ts remote_core =>
    simp only [dispatch, handle_peer_step1]
    split_ifs <;> try rfl
    split <;> rfl
  | peer_step2 in_ filter remote_core =>
    simp only [dispatch, handle_peer_step2]
    split_ifs <;> try rfl
    split <;> rfl
  | peer_step3 in_ remote_core =>
    simp only [dispatch, handle_peer_step3]
    split_ifs <;> try rfl
    split <;> try rfl
    split <;> rfl
  | update f => simp only [dispatch, handle_update]; split_ifs <;> rfl
  | join filter =>
    simp only [dispatch, handle_join]
    split_ifs <;> first | rfl | simp [add_to_filter_connected]
  | local_stream in_ => simp only [dispatch, handle_local_stream]; split_ifs <;> rfl
  | publish t x => rfl
  | attach_master name backend_type opts =>
    simp only [dispatch, handle_attach_master]
    split_ifs <;> (try split) <;> first | rfl | simp [add_to_filter_connected]
  | attach_clone name =>
    simp only [dispatch, handle_attach_clone]
    split_ifs <;> (try split) <;> first | rfl | simp only [spawn_clone_connected]
  | get_master name => simp only [dispatch, handle_get_master]; split <;> rfl
  | resolve_master name => simp only [dispatch, handle_resolve_master]; split <;> rfl
  | clone_resolved name master =>
    simp only [dispatch, handle_clone_resolved]; rw [spawn_clone_connected]
  | master_resolved name master => rfl
  | resolve_failed err => rfl
  | down => rfl

theorem run_connected :
    ∀ (evs : List (mailbox_element × core_msg)) (s : core_actor_state),
      (run s evs).state.connected_peers = s.state.connected_peers := by
  intro evs
  induction evs with
  | nil => intro s; rfl
  | cons e rest ih =>
    intro s
    obtain ⟨cme, m⟩ := e
    unfold run
    rw [ih, dispatch_connected]

/-- In every state a core reaches from `init`, `connected_peers` is empty. -/
theorem connected_peers_stays_empty (self : actor) (initial_filter : filter_type)
    (evs : List (mailbox_element × core_msg)) :
    (run (core_actor self initial_filter) evs).state.connected_peers = [] := by
  rw [run_connected]; rfl

/-- Step 0 never changes the actor, whatever the request. -/
theorem handle_peer_next (s : core_actor_state) (remote_core : actor) :
    (handle_peer s remote_core).next = s := by
  unfold handle_peer
  simp only []
  split_ifs <;> rfl

/-- Step #2 from a non-anonymous core the governor does not know is accepted,
whatever the pending peers hold. -/
theorem handle_peer_step2_accepts (s : core_actor_state) (cme : mailbox_element)
    (in_ : stream_type) (filter : filter_type) (remote_core : actor)
    (hp : prev_peer_from_handshake cme ≠ none)
    (hg : s.state.governor.has_peer remote_core = false) :
    (handle_peer_step2 s cme in_ filter remote_core).next.state.governor.has_peer remote_core
        = true ∧
      (handle_peer_step2 s cme in_ filter remote_core).out
        = [effect.send_stream_handshake remote_core ⟨s.state.self, s.last_request_id + 1⟩] := by
  unfold handle_peer_step2
  unfold stream_governor.has_peer at hg
  simp only [if_neg hp, stream_governor.has_peer, hg, stream_governor.add_peer, map_emplace,
    core_actor_state.make_stream_id, stream_governor.set_incoming_sid,
    core_actor_state.streams_emplace]
  simp [map_contains]

/-! ## Facts about the master registry -/

theorem map_count_emplace_le {κ ν : Type} [DecidableEq κ] (m : List (κ × ν)) (k k2 : κ) (v : ν)
    (h : map_count m k2 ≤ 1) : map_count (map_emplace m k v).1 k2 ≤ 1 := by
  unfold map_emplace
  by_cases hc : map_contains m k = true
  · rw [if_pos hc]; exact h
  · rw [if_neg hc]
    have hcf : map_contains m k = false := by simpa using hc
    by_cases hk : k = k2
    · subst hk
      have h0 := map_count_eq_zero_of_not_contains m k hcf
      unfold map_count at h0 ⊢
      simp [List.filter_append, h0]
    · unfold map_count at h ⊢
      simp [List.filter_append, hk, h]

theorem add_to_filter_masters (st : core_state) (xs : filter_type) :
    (st.add_to_filter xs).1.masters = st.masters := by
  unfold core_state.add_to_filter
  simp only []
  split <;> rfl

theorem spawn_clone_masters (s : core_actor_state) (name : String) (master : actor) :
    (spawn_clone s name master).2.1.state.masters = s.state.masters := by
  unfold spawn_clone
  simp only [add_to_filter_masters]

/-- Every handler leaves `masters` alone or performs one `emplace` on it. -/
theorem dispatch_masters (s : core_actor_state) (cme : mailbox_element) (m : core_msg) :
    (dispatch s cme m).1.state.masters = s.state.masters ∨
      ∃ name v, (dispatch s cme m).1.state.masters = (map_emplace s.state.masters name v).1 := by
  cases m with
  | subscribe f => left; simp [dispatch, handle_subscribe, add_to_filter_masters]
  | peer remote_core => left; simp only [dispatch, handle_peer]; split_ifs <;> rfl
  | peer_step1 peer_ts remote_core =>
    left; simp only [dispatch, handle_peer_step1]
    split_ifs <;> try rfl
    split <;> rfl
  | peer_step2 in_ filter remote_core =>
    left; simp only [dispatch, handle_peer_step2]
    split_ifs <;> try rfl
    split <;> rfl
  | peer_step3 in_ remote_core =>
    left; simp only [dispatch, handle_peer_step3]
    split_ifs <;> try rfl
    split <;> try rfl
    split <;> rfl
  | update f => left; simp only [dispatch, handle_update]; split_ifs <;> rfl
  | join filter =>
    left; simp only [dispatch, handle_join]
    split_ifs <;> first | rfl | simp [add_to_filter_masters]
  | local_stream in_ => left; simp only [dispatch, handle_local_stream]; split_ifs <;> rfl
  | publish t x => left; rfl
  | attach_master name backend_type opts =>
    simp only [dispatch, handle_attach_master]
    split_ifs <;> (try split) <;>
      first
      | (left; rfl)
      | (right; exact ⟨name, some s.next_actor_id, by simp [add_to_filter_masters]⟩)
  | attach_clone name =>
    left; simp only [dispatch, handle_attach_clone]
    split_ifs <;> (try split) <;> first | rfl | simp only [spawn_clone_masters]
  | get_master name => left; simp only [dispatch, handle_get_master]; split <;> rfl
  | resolve_master name => left; simp only [dispatch, handle_resolve_master]; split <;> rfl
  | clone_resolved name master =>
    right
    exact ⟨moved_from_string, master,
      by simp only [dispatch, handle_clone_resolved]; rw [spawn_clone_masters]⟩
  | master_resolved name master => right; exact ⟨name, master, rfl⟩
  | resolve_failed err => left; rfl
  | down => left; rfl

theorem run_masters_unique (nm : String) :
    ∀ (evs : List (mailbox_element × core_msg)) (s : core_actor_state),
      map_count s.state.masters nm ≤ 1 → map_count (run s evs).state.masters nm ≤ 1 := by
  intro evs
  induction evs with
  | nil => intro s h; exact h
  | cons e rest ih =>
    intro s h
    obtain ⟨cme, m⟩ := e
    unfold run
    apply ih
    rcases dispatch_masters s cme m with heq | ⟨name, v, heq⟩
    · rw [heq]; exact h
    · rw [heq]; exact map_count_emplace_le _ _ _ _ h

/-! ## Facts about the engine and the reads of the backend -/

theorem rows_get_delete_same (r : rows) (key : bytes) : rows_get (rows_delete r key) key = none := by
  unfold rows_get rows_delete map_find map_erase
  rw [Option.map_eq_none', List.find?_eq_none]
  intro kv hkv
  have := (List.mem_filter.mp hkv).2
  simpa using this

theorem rows_get_delete_other (r : rows) (key key2 : bytes) (h : key2 ≠ key) :
    rows_get (rows_delete r key) key2 = rows_get r key2 := by
  unfold rows_get rows_delete map_find map_erase
  rw [List.find?_filter]
  congr 2
  funext kv
  by_cases hk2 : kv.1 = key2
  · have hk : ¬ kv.1 = key := fun h2 => h (hk2.symm.trans h2)
    simp [hk2, h]
  · simp [hk2]

theorem find_orderedInsert_other (l : rows) (kv : bytes × bytes) (key2 : bytes)
    (h : kv.1 ≠ key2) :
    (List.orderedInsert (fun x y => x.1 ≤ y.1) kv l).find? (fun x => decide (x.1 = key2))
      = l.find? (fun x => decide (x.1 = key2)) := by
  induction l with
  | nil => simp [List.find?_cons, h]
  | cons a rest ih =>
    simp only [List.orderedInsert]
    split_ifs with hle
    · simp [List.find?_cons, h]
    · by_cases ha : a.1 = key2
      · simp [List.find?_cons, ha]
      · simp [List.find?_cons, ha, ih]

theorem find_orderedInsert_same (l : rows) (kv : bytes × bytes)
    (h : ∀ x ∈ l, x.1 ≠ kv.1) :
    (List.orderedInsert (fun x y => x.1 ≤ y.1) kv l).find? (fun x => decide (x.1 = kv.1))
      = some kv := by
  induction l with
  | nil => simp [List.find?_cons]
  | cons a rest ih =>
    simp only [List.orderedInsert]
    split_ifs with hle
    · simp [List.find?_cons]
    · have ha : a.1 ≠ kv.1 := h a (List.mem_cons_self _ _)
      rw [List.find?_cons]
      simp only [ha, decide_False]
      exact ih (fun x hx => h x (List.mem_cons_of_mem _ hx))

theorem rows_get_put_same (r : rows) (key val : bytes) :
    rows_get (rows_put r key val) key = some val := by
  unfold rows_get rows_put map_find
  rw [find_orderedInsert_same (map_erase r key) (key, val)]
  · rfl
  · intro x hx
    unfold map_erase at hx
    have := (List.mem_filter.mp hx).2
    simpa using this

theorem rows_get_put_other (r : rows) (key val key2 : bytes) (h : key2 ≠ key) :
    rows_get (rows_put r key val) key2 = rows_get r key2 := by
  have h1 := rows_get_delete_other r key key2 h
  unfold rows_get rows_delete map_find at h1
  unfold rows_get rows_put map_find
  rw [find_orderedInsert_other (map_erase r key) (key, val) key2 (fun h2 => h h2.symm)]
  exact h1

/-- What `fetch` reports and leaves: unless the `Get` failed, the row as it is;
only the environment's script and `last_error` change, and of the faults at
most the first is used up, a failure using up a fault that was set. -/
theorem fetch_cases (b : rocksdb_backend) (key : bytes) :
    ((b.fetch key).2.db = b.db ∧ (b.fetch key).2.sn = b.sn ∧
      (b.fetch key).2.create_if_missing = b.create_if_missing ∧
      (b.fetch key).2.disk = b.disk ∧
      (b.fetch key).2.exact_size_threshold = b.exact_size_threshold) ∧
    (((b.fetch key).1 = fetched.failed ∧ b.faults.head?.getD false = true ∧
        (b.fetch key).2.faults = b.faults.tail) ∨
      ((b.fetch key).1 = (match rows_get b.contents key with
          | none => fetched.absent
          | some v => fetched.found v) ∧
        ((b.fetch key).2.faults = b.faults ∨
          (b.faults.head?.getD false = false ∧ (b.fetch key).2.faults = b.faults.tail)))) := by
  obtain ⟨db, cim, sn, le, thr, disk, faults, hints, est⟩ := b
  have hc : ∀ (f : List Bool) (h : List may_exist) (l : String),
      (rocksdb_backend.mk db cim sn l thr disk f h est).contents
        = (rocksdb_backend.mk db cim sn le thr disk faults hints est).contents := fun _ _ _ => rfl
  generalize hg : rows_get (rocksdb_backend.mk db cim sn le thr disk faults hints est).contents key = g
  simp only [rocksdb_backend.fetch, rocksdb_backend.db_key_may_exist, rocksdb_backend.db_get,
    rocksdb_backend.take_hint, rocksdb_backend.take_fault, rocksdb_backend.require_ok]
  rcases g with _ | v <;> rcases hints with _ | ⟨h, hs⟩ <;> rcases faults with _ | ⟨f, fs⟩ <;>
    (try cases h) <;> (try cases f) <;> simp [hc, hg]

theorem contents_eq_of_db {b c : rocksdb_backend} (h : c.db = b.db) : c.contents = b.contents := by
  unfold rocksdb_backend.contents
  rw [h]

theorem fault_free_tail (l : List Bool) (h : l.all (fun f => !f) = true) :
    l.tail.all (fun f => !f) = true := by
  cases l with
  | nil => rfl
  | cons a rest => simp at h ⊢; exact h.2

theorem fault_free_head (l : List Bool) (h : l.all (fun f => !f) = true) :
    l.head?.getD false = false := by
  cases l with
  | nil => rfl
  | cons a rest => simp at h ⊢; exact h.1

/-- With no fault to come, `fetch` reports the row and no fault is to come after it. -/
theorem fetch_fault_free (b : rocksdb_backend) (key : bytes) (hf : b.fault_free = true) :
    (b.fetch key).1 = (match rows_get b.contents key with
        | none => fetched.absent
        | some v => fetched.found v) ∧ (b.fetch key).2.fault_free = true := by
  unfold rocksdb_backend.fault_free at hf ⊢
  have h0 := fault_free_head _ hf
  have ht := fault_free_tail _ hf
  rcases (fetch_cases b key).2 with ⟨_, h2, _⟩ | ⟨h1, h2 | ⟨_, h2⟩⟩
  · rw [h0] at h2; exact absurd h2 (by decide)
  · exact ⟨h1, by rw [h2]; exact hf⟩
  · exact ⟨h1, by rw [h2]; exact ht⟩

theorem require_db_open (b : rocksdb_backend) (h : b.db.isSome = true) :
    b.require_db = (true, b) := by
  unfold rocksdb_backend.require_db
  cases hd : b.db with
  | none => rw [hd] at h; exact absurd h (by decide)
  | some d => rfl

theorem require_db_closed (b : rocksdb_backend) (h : b.db = none) :
    (b.require_db).1 = false := by
  unfold rocksdb_backend.require_db
  rw [h]

/-- Whatever `do_lookup_expiry` answers is the stored entry. -/
theorem lookup_expiry_cases {data : Type} (pd : persist data) (pe : persist expiration_time)
    (b : rocksdb_backend) (k : data) :
    (b.do_lookup_expiry pd pe k).1 = none ∨
      (b.do_lookup_expiry pd pe k).1 = some (b.entry pd pe k) := by
  cases hd : b.db with
  | none =>
    left
    unfold rocksdb_backend.do_lookup_expiry
    simp [require_db_closed b hd]
  | some d =>
    have hopen : b.db.isSome = true := by rw [hd]; rfl
    unfold rocksdb_backend.do_lookup_expiry rocksdb_backend.entry
    simp only [require_db_open b hopen, set_keyspace, to_serial_keyspace, to_serial_append,
      List.singleton_append, Bool.not_true, Bool.false_eq_true, if_false]
    have h1 := fetch_cases b ('a' :: pd.save k)
    have h2 := fetch_cases (b.fetch ('a' :: pd.save k)).2 ('e' :: pd.save k)
    rw [contents_eq_of_db h1.1.1] at h2
    generalize b.fetch ('a' :: pd.save k) = r1 at h1 h2 ⊢
    obtain ⟨res1, b1⟩ := r1
    generalize b1.fetch ('e' :: pd.save k) = r2 at h2 ⊢
    obtain ⟨res2, b2⟩ := r2
    simp only at h1 h2 ⊢
    rcases h1.2 with ⟨e1, _⟩ | ⟨e1, _⟩
    · subst e1; left; rfl
    · rcases h2.2 with ⟨e2, _⟩ | ⟨e2, _⟩
      · subst e2
        cases hg : rows_get b.contents ('a' :: pd.save k) <;> rw [hg] at e1 <;> subst e1 <;> simp
      · cases hg : rows_get b.contents ('a' :: pd.save k) <;> rw [hg] at e1 <;> subst e1 <;>
          cases hg2 : rows_get b.contents ('e' :: pd.save k) <;> rw [hg2] at e2 <;> subst e2 <;>
          simp [from_serial]

/-- With a database open and no fault to come, `do_lookup_expiry` answers with
the stored entry. -/
theorem lookup_expiry_fault_free {data : Type} (pd : persist data)
    (pe : persist expiration_time) (b : rocksdb_backend) (k : data)
    (hopen : b.db.isSome = true) (hf : b.fault_free = true) :
    (b.do_lookup_expiry pd pe k).1 = some (b.entry pd pe k) := by
  unfold rocksdb_backend.do_lookup_expiry rocksdb_backend.entry
  simp only [require_db_open b hopen, set_keyspace, to_serial_keyspace, to_serial_append,
    List.singleton_append, Bool.not_true, Bool.false_eq_true, if_false]
  have h1 := fetch_fault_free b ('a' :: pd.save k) hf
  have h2 := fetch_fault_free (b.fetch ('a' :: pd.save k)).2 ('e' :: pd.save k) h1.2
  rw [contents_eq_of_db (fetch_cases b ('a' :: pd.save k)).1.1] at h2
  rw [h1.1, h2.1]
  cases hg : rows_get b.contents ('a' :: pd.save k) <;>
    cases hg2 : rows_get b.contents ('e' :: pd.save k) <;> simp [from_serial]

/-- What `Write` does: either it fails and leaves the database as it is, or it
succeeds, on an open database and without a fault, and applies the batch. -/
theorem db_write_cases (b : rocksdb_backend) (batch : List batch_op) :
    ((b.db_write batch).2.sn = b.sn ∧
      (b.db_write batch).2.create_if_missing = b.create_if_missing ∧
      (b.db_write batch).2.disk = b.disk ∧
      (b.db_write batch).2.exact_size_threshold = b.exact_size_threshold ∧
      (b.db_write batch).2.last_error = b.last_error ∧
      (b.db_write batch).2.hints = b.hints) ∧
    (((b.db_write batch).1 = status.io_error ∧ (b.db_write batch).2.db = b.db ∧
        ((b.db_write batch).2.faults = b.faults ∨
          (b.db_write batch).2.faults = b.faults.tail)) ∨
      ((b.db_write batch).1 = status.ok ∧ b.db.isSome = true ∧
        (b.db_write batch).2.db.isSome = true ∧
        (b.db_write batch).2.contents = rows_write b.contents batch ∧
        (b.db_write batch).2.db.map DB.name = b.db.map DB.name ∧
        b.faults.head?.getD false = false ∧
        (b.db_write batch).2.faults = b.faults.tail)) := by
  obtain ⟨db, cim, sn, le, thr, disk, faults, hints, est⟩ := b
  simp only [rocksdb_backend.db_write, rocksdb_backend.take_fault, rocksdb_backend.contents]
  rcases db with _ | d <;> rcases faults with _ | ⟨f, fs⟩ <;> (try cases f) <;> simp

theorem require_ok_cases (b : rocksdb_backend) (s : status) :
    ((b.require_ok s).1 = true ∧ s = status.ok ∧ (b.require_ok s).2 = b) ∨
      ((b.require_ok s).1 = false ∧ s ≠ status.ok ∧
        (b.require_ok s).2 = { b with last_error := "status not ok" }) := by
  unfold rocksdb_backend.require_ok
  by_cases h : s = status.ok
  · left; simp [h]
  · right; simp [h]

/-- A successful `do_insert` found a database open and wrote its batch, nothing else. -/
theorem do_insert_ok {data : Type} (pd : persist data) (pe : persist expiration_time)
    (b : rocksdb_backend) (k v : data) (e : Option expiration_time)
    (hok : (b.do_insert pd pe k v e).1 = true) :
    b.db.isSome = true ∧ (b.do_insert pd pe k v e).2.db.isSome = true ∧
      (b.do_insert pd pe k v e).2.sn = b.sn ∧
      (b.do_insert pd pe k v e).2.contents
        = rows_write b.contents (insert_batch pd pe k v true e) := by
  cases hd : b.db with
  | none =>
    unfold rocksdb_backend.do_insert at hok
    simp [require_db_closed b hd] at hok
  | some d =>
    have hopen : b.db.isSome = true := by rw [hd]; rfl
    unfold rocksdb_backend.do_insert detail_insert at hok ⊢
    simp only [require_db_open b hopen, Bool.not_true, Bool.false_eq_true, if_false] at hok ⊢
    have hw := db_write_cases b (insert_batch pd pe k v true e)
    generalize b.db_write _ = w at hok hw ⊢
    obtain ⟨st, b1⟩ := w
    simp only at hok hw ⊢
    rcases require_ok_cases b1 st with ⟨_, hs, hb⟩ | ⟨hf, _, _⟩
    · rw [hb]
      rcases hw.2 with ⟨hio, _⟩ | ⟨_, _, h3, h4, _⟩
      · rw [hs] at hio; exact absurd hio (by decide)
      · exact ⟨rfl, h3, hw.1.1, h4⟩
    · rw [hf] at hok; exact absurd hok (by decide)

theorem save_injective {α : Type} (p : persist α) (h : ∀ x, p.load (p.save x) = x)
    {x y : α} (hxy : p.save x = p.save y) : x = y := by
  rw [← h x, ← h y, hxy]

theorem rows_get_insert_batch_a {data : Type} (pd : persist data)
    (pe : persist expiration_time) (r : rows) (k v : data) (e : Option expiration_time) :
    rows_get (rows_write r (insert_batch pd pe k v true e)) ('a' :: pd.save k)
      = some (pd.save v) := by
  have hne : ('a' :: pd.save k) ≠ ('e' :: pd.save k) := by simp
  cases e with
  | none =>
    simp only [insert_batch, rows_write, to_serial_keyspace, to_serial, to_serial_append,
      set_keyspace, List.singleton_append, List.nil_append, if_true, List.foldl, rows_apply]
    rw [rows_get_delete_other _ _ _ hne, rows_get_put_same]
  | some ev =>
    simp only [insert_batch, rows_write, to_serial_keyspace, to_serial, to_serial_append,
      set_keyspace, List.singleton_append, List.nil_append, List.foldl, rows_apply]
    rw [rows_get_put_other _ _ _ _ hne, rows_get_put_same]

theorem rows_get_insert_batch_e {data : Type} (pd : persist data)
    (pe : persist expiration_time) (r : rows) (k v : data) (e : Option expiration_time) :
    rows_get (rows_write r (insert_batch pd pe k v true e)) ('e' :: pd.save k)
      = e.map pe.save := by
  cases e with
  | none =>
    simp only [insert_batch, rows_write, to_serial_keyspace, to_serial, to_serial_append,
      set_keyspace, List.singleton_append, List.nil_append, if_true, List.foldl, rows_apply]
    rw [rows_get_delete_same]; rfl
  | some ev =>
    simp only [insert_batch, rows_write, to_serial_keyspace, to_serial, to_serial_append,
      set_keyspace, List.singleton_append, List.nil_append, List.foldl, rows_apply]
    rw [rows_get_put_same]; rfl

theorem rows_get_insert_batch_other {data : Type} (pd : persist data)
    (pe : persist expiration_time) (r : rows) (k v : data) (e : Option expiration_time)
    (key : bytes) (ha : key ≠ 'a' :: pd.save k) (hb : key ≠ 'e' :: pd.save k) :
    rows_get (rows_write r (insert_batch pd pe k v true e)) key = rows_get r key := by
  cases e with
  | none =>
    simp only [insert_batch, rows_write, to_serial_keyspace, to_serial, to_serial_append,
      set_keyspace, List.singleton_append, List.nil_append, if_true, List.foldl, rows_apply]
    rw [rows_get_delete_other _ _ _ hb, rows_get_put_other _ _ _ _ ha]
  | some ev =>
    simp only [insert_batch, rows_write, to_serial_keyspace, to_serial, to_serial_append,
      set_keyspace, List.singleton_append, List.nil_append, List.foldl, rows_apply]
    rw [rows_get_put_other _ _ _ _ hb, rows_get_put_other _ _ _ _ ha]

theorem db_delete_eq (b : rocksdb_backend) (key : bytes) :
    b.db_delete key = b.db_write [batch_op.delete key] := rfl

theorem fault_free_of_faults {b c : rocksdb_backend} (hb : b.fault_free = true)
    (h : c.faults = b.faults ∨ c.faults = b.faults.tail) : c.fault_free = true := by
  unfold rocksdb_backend.fault_free at hb ⊢
  rcases h with h | h
  · rw [h]; exact hb
  · rw [h]; exact fault_free_tail _ hb

/-- With no fault to come, a `Write` on an open database succeeds and applies its batch. -/
theorem db_write_fault_free (b : rocksdb_backend) (batch : List batch_op)
    (hopen : b.db.isSome = true) (hf : b.fault_free = true) :
    (b.db_write batch).1 = status.ok ∧ (b.db_write batch).2.db.isSome = true ∧
      (b.db_write batch).2.contents = rows_write b.contents batch ∧
      (b.db_write batch).2.fault_free = true ∧ (b.db_write batch).2.sn = b.sn ∧
      (b.db_write batch).2.create_if_missing = b.create_if_missing ∧
      (b.db_write batch).2.db.map DB.name = b.db.map DB.name ∧
      (b.db_write batch).2.disk = b.disk := by
  have hw := db_write_cases b batch
  have h0 : b.faults.head?.getD false = false := fault_free_head _ hf
  obtain ⟨d, hd⟩ := Option.isSome_iff_exists.mp hopen
  rcases hw.2 with ⟨h1, _, _⟩ | ⟨h1, _, h3, h4, h5, _, h7⟩
  · exfalso
    revert h1
    unfold rocksdb_backend.db_write
    rw [hd]
    obtain ⟨db, cim, sn, le, thr, disk, faults, hints, est⟩ := b
    simp only [rocksdb_backend.take_fault] at h0 ⊢
    rcases faults with _ | ⟨f, fs⟩
    · simp
    · simp at h0; simp [h0]
  · exact ⟨h1, h3, h4, fault_free_of_faults hf (Or.inr h7), hw.1.1, hw.1.2.1, h5, hw.1.2.2.1⟩

/-- The outcomes of the two deletes of `do_erase(std::string)`: both done, none
done, or only the value row removed. -/
theorem do_erase_serial_cases (b : rocksdb_backend) (s : bytes) :
    (b.do_erase_serial ('e' :: s)).2.sn = b.sn ∧
    (((b.do_erase_serial ('e' :: s)).1 = true ∧
        (b.do_erase_serial ('e' :: s)).2.contents
          = rows_delete (rows_delete b.contents ('a' :: s)) ('e' :: s)) ∨
      ((b.do_erase_serial ('e' :: s)).1 = false ∧
        ((b.do_erase_serial ('e' :: s)).2.db = b.db ∨
          (b.do_erase_serial ('e' :: s)).2.contents = rows_delete b.contents ('a' :: s)))) := by
  cases hd : b.db with
  | none =>
    unfold rocksdb_backend.do_erase_serial rocksdb_backend.require_db
    simp [hd]
  | some d =>
    have hopen : b.db.isSome = true := by rw [hd]; rfl
    unfold rocksdb_backend.do_erase_serial
    simp only [require_db_open b hopen, Bool.not_true, Bool.false_eq_true, if_false,
      set_keyspace, db_delete_eq]
    have hw1 := db_write_cases b [batch_op.delete ('a' :: s)]
    generalize b.db_write [batch_op.delete ('a' :: s)] = w1 at hw1 ⊢
    obtain ⟨st1, b1⟩ := w1
    simp only at hw1 ⊢
    rcases require_ok_cases b1 st1 with ⟨hr1, hs1, hb1⟩ | ⟨hr1, hs1, hb1⟩
    · simp only [hr1, hb1, Bool.not_true, Bool.false_eq_true, if_false]
      have hw2 := db_write_cases b1 [batch_op.delete ('e' :: s)]
      generalize b1.db_write [batch_op.delete ('e' :: s)] = w2 at hw2 ⊢
      obtain ⟨st2, b2⟩ := w2
      simp only at hw2 ⊢
      rcases hw1.2 with ⟨hio, _⟩ | ⟨_, _, _, hc1, _⟩
      · rw [hs1] at hio; exact absurd hio (by decide)
      · rcases require_ok_cases b2 st2 with ⟨hr2, hs2, hb2⟩ | ⟨hr2, hs2, hb2⟩
        · rw [hr2, hb2]
          rcases hw2.2 with ⟨hio, _⟩ | ⟨_, _, _, hc2, _⟩
          · rw [hs2] at hio; exact absurd hio (by decide)
          · refine ⟨hw2.1.1.trans hw1.1.1, Or.inl ⟨rfl, ?_⟩⟩
            rw [hc2, hc1]; rfl
        · rw [hr2, hb2]
          rcases hw2.2 with ⟨_, hdb, _⟩ | ⟨hok, _⟩
          · refine ⟨hw2.1.1.trans hw1.1.1, Or.inr ⟨rfl, Or.inr ?_⟩⟩
            have : b2.contents = b1.contents := contents_eq_of_db hdb
            have h3 : ({ b2 with last_error := "status not ok" } : rocksdb_backend).contents
                = b2.contents := rfl
            rw [h3, this, hc1]; rfl
          · exact absurd hok hs2
    · simp only [hr1, hb1, Bool.not_false, if_true]
      rcases hw1.2 with ⟨_, hdb, _⟩ | ⟨hok, _⟩
      · exact ⟨hw1.1.1, Or.inr ⟨trivial, Or.inl (hdb.trans hd)⟩⟩
      · exact absurd hok hs1

/-- With a database open and no fault to come, `do_erase(std::string)` removes
both rows and reports success. -/
theorem do_erase_serial_fault_free (b : rocksdb_backend) (s : bytes)
    (hopen : b.db.isSome = true) (hf : b.fault_free = true) :
    (b.do_erase_serial ('e' :: s)).1 = true ∧
      (b.do_erase_serial ('e' :: s)).2.contents
        = rows_delete (rows_delete b.contents ('a' :: s)) ('e' :: s) := by
  unfold rocksdb_backend.do_erase_serial
  simp only [require_db_open b hopen, Bool.not_true, Bool.false_eq_true, if_false,
    set_keyspace, db_delete_eq]
  obtain ⟨h1, h2, h3, h4, _⟩ := db_write_fault_free b [batch_op.delete ('a' :: s)] hopen hf
  generalize b.db_write [batch_op.delete ('a' :: s)] = w1 at h1 h2 h3 h4 ⊢
  obtain ⟨st1, b1⟩ := w1
  simp only at h1 h2 h3 h4 ⊢
  subst h1
  simp only [rocksdb_backend.require_ok, if_true, Bool.not_true, Bool.false_eq_true, if_false]
  obtain ⟨g1, g2, g3, g4, _⟩ := db_write_fault_free b1 [batch_op.delete ('e' :: s)] h2 h4
  generalize b1.db_write [batch_op.delete ('e' :: s)] = w2 at g1 g2 g3 g4 ⊢
  obtain ⟨st2, b2⟩ := w2
  simp only at g1 g2 g3 g4 ⊢
  subst g1
  simp only [if_true]
  exact ⟨trivial, by rw [g3, h3]; rfl⟩

theorem entry_after_erase {data : Type} (pd : persist data) (pe : persist expiration_time)
    (hd : ∀ x, pd.load (pd.save x) = x) (b c : rocksdb_backend) (k : data)
    (hc : c.contents = rows_delete (rows_delete b.contents ('a' :: pd.save k)) ('e' :: pd.save k)) :
    c.entry pd pe k = (none, none) ∧
      rows_get c.contents (to_serial_keyspace pd k 'e') = none ∧
      ∀ k2, k2 ≠ k → c.entry pd pe k2 = b.entry pd pe k2 := by
  have hae : ('a' :: pd.save k) ≠ ('e' :: pd.save k) := by simp
  refine ⟨?_, ?_, ?_⟩
  · unfold rocksdb_backend.entry
    simp only [to_serial_keyspace, to_serial_append, List.singleton_append, hc]
    rw [rows_get_delete_other _ _ _ hae, rows_get_delete_same]
  · simp only [to_serial_keyspace, to_serial_append, List.singleton_append, hc]
    rw [rows_get_delete_same]
  · intro k2 hk2
    have hs : pd.save k2 ≠ pd.save k := fun h => hk2 (save_injective pd hd h)
    unfold rocksdb_backend.entry
    simp only [to_serial_keyspace, to_serial_append, List.singleton_append, hc]
    rw [rows_get_delete_other _ _ ('a' :: pd.save k2) (by simp),
      rows_get_delete_other _ _ ('a' :: pd.save k2) (by simp [hs]),
      rows_get_delete_other _ _ ('e' :: pd.save k2) (by simp [hs]),
      rows_get_delete_other _ _ ('e' :: pd.save k2) (by simp)]

/-- An `expire` whose expiration is not the stored one changes nothing. -/
theorem do_expire_other {data : Type} (pd : persist data) (pe : persist expiration_time)
    (b : rocksdb_backend) (k : data) (x : expiration_time)
    (hx : (rows_get b.contents (to_serial_keyspace pd k 'e')).map (from_serial pe) ≠ some x) :
    (b.do_expire pd pe k x).2.db = b.db ∧ (b.do_expire pd pe k x).2.sn = b.sn ∧
      (b.db.isSome = true → b.fault_free = true → (b.do_expire pd pe k x).1 = true) := by
  cases hdb : b.db with
  | none =>
    unfold rocksdb_backend.do_expire rocksdb_backend.require_db
    simp [hdb]
  | some d =>
    have hopen : b.db.isSome = true := by rw [hdb]; rfl
    unfold rocksdb_backend.do_expire
    simp only [require_db_open b hopen, Bool.not_true, Bool.false_eq_true, if_false]
    have hfc := fetch_cases b (to_serial_keyspace pd k 'e')
    have hff := fetch_fault_free b (to_serial_keyspace pd k 'e')
    generalize b.fetch (to_serial_keyspace pd k 'e') = r at hfc hff ⊢
    obtain ⟨res, b1⟩ := r
    simp only at hfc hff ⊢
    rw [← hdb]
    cases hg : rows_get b.contents (to_serial_keyspace pd k 'e') with
    | none =>
      rw [hg] at hfc hff
      rcases hfc.2 with ⟨e1, _⟩ | ⟨e1, _⟩
      · subst e1
        exact ⟨hfc.1.1, hfc.1.2.1, fun _ hf => absurd (hff hf).1 (by simp)⟩
      · subst e1
        exact ⟨hfc.1.1, hfc.1.2.1, fun _ _ => rfl⟩
    | some vs =>
      rw [hg] at hfc hff hx
      have hne : ¬ from_serial pe vs = x := fun h => hx (by simp [h])
      rcases hfc.2 with ⟨e1, _⟩ | ⟨e1, _⟩
      · subst e1
        exact ⟨hfc.1.1, hfc.1.2.1, fun _ hf => absurd (hff hf).1 (by simp)⟩
      · subst e1
        simp only [hne, if_false]
        exact ⟨hfc.1.1, hfc.1.2.1, fun _ _ => trivial⟩

/-- An `expire` with the stored expiration removes the value and the expiry. -/
theorem do_expire_same {data : Type} (pd : persist data) (pe : persist expiration_time)
    (b : rocksdb_backend) (k : data) (x : expiration_time)
    (hopen : b.db.isSome = true) (hf : b.fault_free = true)
    (hx : (rows_get b.contents (to_serial_keyspace pd k 'e')).map (from_serial pe) = some x) :
    (b.do_expire pd pe k x).1 = true ∧
      (b.do_expire pd pe k x).2.contents
        = rows_delete (rows_delete b.contents ('a' :: pd.save k)) ('e' :: pd.save k) := by
  unfold rocksdb_backend.do_expire
  simp only [require_db_open b hopen, Bool.not_true, Bool.false_eq_true, if_false]
  have hfc := fetch_cases b (to_serial_keyspace pd k 'e')
  have hff := fetch_fault_free b (to_serial_keyspace pd k 'e') hf
  generalize b.fetch (to_serial_keyspace pd k 'e') = r at hfc hff ⊢
  obtain ⟨res, b1⟩ := r
  simp only at hfc hff ⊢
  cases hg : rows_get b.contents (to_serial_keyspace pd k 'e') with
  | none => rw [hg] at hx; exact absurd hx (by simp)
  | some vs =>
    rw [hg] at hff hx
    have he : from_serial pe vs = x := by simpa using hx
    obtain ⟨e1, hf1⟩ := hff
    subst e1
    simp only [he, if_true]
    have hopen1 : b1.db.isSome = true := by rw [hfc.1.1]; exact hopen
    have := do_erase_serial_fault_free b1 (pd.save k) hopen1 hf1
    rw [contents_eq_of_db hfc.1.1] at this
    exact this


theorem do_erase_eq {data : Type} (pd : persist data) (b : rocksdb_backend) (k : data) :
    b.do_erase pd k = b.do_erase_serial ('e' :: pd.save k) := by
  unfold rocksdb_backend.do_erase rocksdb_backend.do_erase_serial
  simp only [to_serial_keyspace, to_serial_append, set_keyspace, List.singleton_append]

theorem rows_delete_absent (r : rows) (key : bytes) (h : rows_get r key = none) :
    rows_delete r key = r := by
  unfold rows_get map_find at h
  rw [Option.map_eq_none', List.find?_eq_none] at h
  unfold rows_delete map_erase
  rw [List.filter_eq_self]
  intro kv hkv
  have := h kv hkv
  simpa using this

theorem rows_get_ne_none_of_mem (r : rows) (kv : bytes × bytes) (h : kv ∈ r) :
    rows_get r kv.1 ≠ none := by
  unfold rows_get map_find
  rw [Ne, Option.map_eq_none', List.find?_eq_none]
  intro hall
  have := hall kv h
  simp at this

theorem mem_of_mem_rows_scan (r : rows) (c : Char) (kv : bytes × bytes)
    (h : kv ∈ rows_scan r c) : kv ∈ r ∧ kv.1.head? = some c := by
  unfold rows_scan at h
  constructor
  · exact (List.dropWhile_suffix _).subset ((List.takeWhile_prefix _).subset h)
  · have := List.mem_takeWhile_imp h
    simpa using this

theorem db_eq_of_contents {b c : rocksdb_backend} (h1 : c.db.isSome = true)
    (h2 : c.db.map DB.name = b.db.map DB.name) (h3 : c.contents = b.contents) : c.db = b.db := by
  unfold rocksdb_backend.contents at h3
  cases hc : c.db with
  | none => rw [hc] at h1; exact absurd h1 (by decide)
  | some dc =>
    cases hb : b.db with
    | none => rw [hc, hb] at h2; exact absurd h2 (by simp)
    | some db =>
      rw [hc, hb] at h2 h3
      simp only [Option.map_some', Option.some.injEq] at h2 h3
      obtain ⟨n1, c1⟩ := dc
      obtain ⟨n2, c2⟩ := db
      simp only at h2 h3
      rw [h2, h3]

/-- Whatever `do_lookup` answers is the decoded value row. -/
theorem do_lookup_cases {data : Type} (pd : persist data) (b : rocksdb_backend) (k : data) :
    ((b.do_lookup pd k).1 = none ∨
      (b.do_lookup pd k).1
        = some ((rows_get b.contents (to_serial_keyspace pd k 'a')).map (from_serial pd))) ∧
    (b.db.isSome = true → b.fault_free = true →
      (b.do_lookup pd k).1
        = some ((rows_get b.contents (to_serial_keyspace pd k 'a')).map (from_serial pd))) := by
  cases hdb : b.db with
  | none =>
    unfold rocksdb_backend.do_lookup rocksdb_backend.require_db
    simp [hdb]
  | some d =>
    have hopen : b.db.isSome = true := by rw [hdb]; rfl
    unfold rocksdb_backend.do_lookup
    simp only [require_db_open b hopen, Bool.not_true, Bool.false_eq_true, if_false]
    have hfc := fetch_cases b (to_serial_keyspace pd k 'a')
    have hff := fetch_fault_free b (to_serial_keyspace pd k 'a')
    generalize b.fetch (to_serial_keyspace pd k 'a') = r at hfc hff ⊢
    obtain ⟨res, b1⟩ := r
    simp only at hfc hff ⊢
    constructor
    · rcases hfc.2 with ⟨e1, _⟩ | ⟨e1, _⟩
      · subst e1; left; rfl
      · right
        cases hg : rows_get b.contents (to_serial_keyspace pd k 'a') <;> rw [hg] at e1 <;>
          subst e1 <;> rfl
    · intro _ hf
      have e1 := (hff hf).1
      cases hg : rows_get b.contents (to_serial_keyspace pd k 'a') <;> rw [hg] at e1 <;>
        subst e1 <;> rfl

/-- Whatever `do_exists` answers tells whether the value row is there. -/
theorem do_exists_cases {data : Type} (pd : persist data) (b : rocksdb_backend) (k : data) :
    ((b.do_exists pd k).1 = none ∨
      (b.do_exists pd k).1
        = some (rows_get b.contents (to_serial_keyspace pd k 'a')).isSome) ∧
    (b.db.isSome = true → b.fault_free = true →
      (b.do_exists pd k).1
        = some (rows_get b.contents (to_serial_keyspace pd k 'a')).isSome) := by
  obtain ⟨db, cim, sn, le, thr, disk, faults, hints, est⟩ := b
  have hc : ∀ (f : List Bool) (h : List may_exist) (l : String),
      (rocksdb_backend.mk db cim sn l thr disk f h est).contents
        = (rocksdb_backend.mk db cim sn le thr disk faults hints est).contents := fun _ _ _ => rfl
  generalize hg : rows_get (rocksdb_backend.mk db cim sn le thr disk faults hints est).contents
    (to_serial_keyspace pd k 'a') = g
  simp only [rocksdb_backend.do_exists, rocksdb_backend.require_db,
    rocksdb_backend.db_key_may_exist, rocksdb_backend.db_get,
    rocksdb_backend.take_hint, rocksdb_backend.take_fault, rocksdb_backend.require_ok,
    rocksdb_backend.fault_free]
  rcases db with _ | d
  · simp
  · rcases g with _ | v <;> rcases hints with _ | ⟨h, hs⟩ <;> rcases faults with _ | ⟨f, fs⟩ <;>
      (try cases h) <;> (try cases f) <;> simp [hc, hg]

/-- What a scan with its status check yields: the mapped rows, unless the
iterator reports an error. -/
theorem it_status_cases (b : rocksdb_backend) :
    ((b.it_status).2.db = b.db ∧ (b.it_status).2.sn = b.sn ∧
      (b.it_status).2.faults = b.faults.tail ∧
      (b.it_status).2.create_if_missing = b.create_if_missing ∧
      (b.it_status).2.disk = b.disk) ∧
    ((b.it_status).1 = status.ok ∨ (b.it_status).1 = status.io_error) ∧
    (b.fault_free = true → (b.it_status).1 = status.ok) := by
  obtain ⟨db, cim, sn, le, thr, disk, faults, hints, est⟩ := b
  simp only [rocksdb_backend.it_status, rocksdb_backend.take_fault, rocksdb_backend.fault_free]
  rcases faults with _ | ⟨f, fs⟩ <;> (try cases f) <;> simp

/-- Whatever `do_keys` answers is the decoded scan of the `a` keyspace. -/
theorem do_keys_cases {data : Type} (pd : persist data) (b : rocksdb_backend) :
    ((b.do_keys pd).1 = none ∨
      (b.do_keys pd).1 = some ((rows_scan b.contents 'a').map
        (fun kv => from_serial pd (drop_keyspace kv.1)))) ∧
    (b.db.isSome = true → b.fault_free = true →
      (b.do_keys pd).1 = some ((rows_scan b.contents 'a').map
        (fun kv => from_serial pd (drop_keyspace kv.1)))) := by
  cases hdb : b.db with
  | none =>
    unfold rocksdb_backend.do_keys rocksdb_backend.require_db
    simp [hdb]
  | some d =>
    have hopen : b.db.isSome = true := by rw [hdb]; rfl
    unfold rocksdb_backend.do_keys
    simp only [require_db_open b hopen, Bool.not_true, Bool.false_eq_true, if_false]
    have hs := it_status_cases b
    generalize b.it_status = r at hs ⊢
    obtain ⟨st, b1⟩ := r
    simp only at hs ⊢
    rcases require_ok_cases b1 st with ⟨hr, hst, _⟩ | ⟨hr, hst, _⟩
    · simp [hr]
    · simp only [hr, Bool.not_false, if_true, true_or, true_and]
      intro _ hf
      exact absurd (hs.2.2 hf) hst

/-- Whatever `do_expiries` answers is the decoded scan of the `e` keyspace. -/
theorem do_expiries_cases {data : Type} (pd : persist data) (pe : persist expiration_time)
    (b : rocksdb_backend) :
    ((b.do_expiries pd pe).1 = none ∨
      (b.do_expiries pd pe).1 = some ((rows_scan b.contents 'e').map
        (fun kv => (⟨from_serial pd (drop_keyspace kv.1), from_serial pe kv.2⟩ :
          expirable data)))) ∧
    (b.db.isSome = true → b.fault_free = true →
      (b.do_expiries pd pe).1 = some ((rows_scan b.contents 'e').map
        (fun kv => (⟨from_serial pd (drop_keyspace kv.1), from_serial pe kv.2⟩ :
          expirable data)))) := by
  cases hdb : b.db with
  | none =>
    unfold rocksdb_backend.do_expiries rocksdb_backend.require_db
    simp [hdb]
  | some d =>
    have hopen : b.db.isSome = true := by rw [hdb]; rfl
    unfold rocksdb_backend.do_expiries
    simp only [require_db_open b hopen, Bool.not_true, Bool.false_eq_true, if_false]
    have hs := it_status_cases b
    generalize b.it_status = r at hs ⊢
    obtain ⟨st, b1⟩ := r
    simp only at hs ⊢
    rcases require_ok_cases b1 st with ⟨hr, hst, _⟩ | ⟨hr, hst, _⟩
    · simp [hr]
    · simp only [hr, Bool.not_false, if_true, true_or, true_and]
      intro _ hf
      exact absurd (hs.2.2 hf) hst

/-- No row of a keyspace scan decodes to a key whose row is absent, when the
keys of the rows are serializations. -/
theorem not_mem_scan_of_absent {data : Type} (pd : persist data) (r : rows) (c : Char)
    (hc : c = 'a' ∨ c = 'e') (hw : well_keyed pd r) (k : data)
    (habs : rows_get r (c :: pd.save k) = none) :
    ∀ kv ∈ rows_scan r c, from_serial pd (drop_keyspace kv.1) ≠ k := by
  intro kv hkv heq
  obtain ⟨hmem, hhead⟩ := mem_of_mem_rows_scan r c kv hkv
  have hwk := hw kv hmem (by rcases hc with rfl | rfl <;> simp [hhead])
  unfold from_serial at heq
  rw [heq] at hwk
  have hkey : kv.1 = c :: pd.save k := by
    obtain ⟨key, val⟩ := kv
    cases key with
    | nil => simp at hhead
    | cons a rest =>
      simp only [List.head?_cons, Option.some.injEq] at hhead
      simp only [drop_keyspace, List.drop_succ_cons, List.drop_zero] at hwk
      rw [hhead, hwk]
  exact rows_get_ne_none_of_mem r kv hmem (by rw [hkey]; exact habs)

/-- A successful `do_erase(std::string)` found a database open and removed both rows. -/
theorem do_erase_serial_ok (b : rocksdb_backend) (s : bytes)
    (hok : (b.do_erase_serial ('e' :: s)).1 = true) :
    b.db.isSome = true ∧ (b.do_erase_serial ('e' :: s)).2.db.isSome = true ∧
      (b.do_erase_serial ('e' :: s)).2.db.map DB.name = b.db.map DB.name ∧
      (b.do_erase_serial ('e' :: s)).2.sn = b.sn ∧
      (b.do_erase_serial ('e' :: s)).2.contents
        = rows_delete (rows_delete b.contents ('a' :: s)) ('e' :: s) := by
  cases hd : b.db with
  | none =>
    unfold rocksdb_backend.do_erase_serial at hok
    simp [require_db_closed b hd] at hok
  | some d =>
    have hopen : b.db.isSome = true := by rw [hd]; rfl
    unfold rocksdb_backend.do_erase_serial at hok ⊢
    simp only [require_db_open b hopen, Bool.not_true, Bool.false_eq_true, if_false,
      set_keyspace, db_delete_eq] at hok ⊢
    have hw1 := db_write_cases b [batch_op.delete ('a' :: s)]
    generalize b.db_write [batch_op.delete ('a' :: s)] = w1 at hw1 hok ⊢
    obtain ⟨st1, b1⟩ := w1
    simp only at hw1 hok ⊢
    rcases require_ok_cases b1 st1 with ⟨hr1, hs1, hb1⟩ | ⟨hr1, hs1, hb1⟩
    · simp only [hr1, hb1, Bool.not_true, Bool.false_eq_true, if_false] at hok ⊢
      have hw2 := db_write_cases b1 [batch_op.delete ('e' :: s)]
      generalize b1.db_write [batch_op.delete ('e' :: s)] = w2 at hw2 hok ⊢
      obtain ⟨st2, b2⟩ := w2
      simp only at hw2 hok ⊢
      rcases hw1.2 with ⟨hio, _⟩ | ⟨_, _, _, hc1, hn1, _⟩
      · rw [hs1] at hio; exact absurd hio (by decide)
      · rcases require_ok_cases b2 st2 with ⟨hr2, hs2, hb2⟩ | ⟨hr2, hs2, hb2⟩
        · rw [hb2]
          rcases hw2.2 with ⟨hio, _⟩ | ⟨_, _, ho2, hc2, hn2, _⟩
          · rw [hs2] at hio; exact absurd hio (by decide)
          · refine ⟨rfl, ho2, ?_, hw2.1.1.trans hw1.1.1, ?_⟩
            · rw [hn2, hn1, hd]
            · rw [hc2, hc1]; rfl
        · rw [hr2] at hok; exact absurd hok (by decide)
    · simp only [hr1, Bool.not_false, if_true] at hok
      exact absurd hok (by decide)

theorem well_keyed_delete {data : Type} (pd : persist data) (r : rows) (key : bytes)
    (h : well_keyed pd r) : well_keyed pd (rows_delete r key) := by
  intro kv hkv
  unfold rows_delete map_erase at hkv
  exact h kv (List.mem_filter.mp hkv).1

/-! ## Facts about rows in key order -/

theorem takeWhile_eq_filter_of_pairwise {α : Type} (R : α → α → Prop) (p : α → Bool) :
    ∀ (l : List α), l.Pairwise R → (∀ a b, R a b → p b = true → p a = true) →
      l.takeWhile p = l.filter p := by
  intro l
  induction l with
  | nil => intro _ _; rfl
  | cons a t ih =>
    intro hpw hcl
    rw [List.pairwise_cons] at hpw
    by_cases hpa : p a = true
    · rw [List.takeWhile_cons_of_pos hpa, List.filter_cons_of_pos hpa, ih hpw.2 hcl]
    · rw [List.takeWhile_cons_of_neg hpa, List.filter_cons_of_neg hpa]
      symm
      rw [List.filter_eq_nil_iff]
      intro b hb hpb
      exact hpa (hcl a b (hpw.1 b hb) hpb)

theorem dropWhile_eq_filter_of_pairwise {α : Type} (R : α → α → Prop) (p : α → Bool) :
    ∀ (l : List α), l.Pairwise R → (∀ a b, R a b → p b = true → p a = true) →
      l.dropWhile p = l.filter (fun x => !p x) := by
  intro l
  induction l with
  | nil => intro _ _; rfl
  | cons a t ih =>
    intro hpw hcl
    rw [List.pairwise_cons] at hpw
    by_cases hpa : p a = true
    · rw [List.dropWhile_cons_of_pos hpa, List.filter_cons_of_neg (by simp [hpa]), ih hpw.2 hcl]
    · rw [List.dropWhile_cons_of_neg hpa, List.filter_cons_of_pos (by simp [hpa])]
      congr 1
      symm
      rw [List.filter_eq_self]
      intro b hb
      by_cases hpb : p b = true
      · exact absurd (hcl a b (hpw.1 b hb) hpb) hpa
      · simp [hpb]

theorem lt_singleton_iff (key : bytes) (c : Char) :
    key < [c] ↔ key = [] ∨ ∃ h t, key = h :: t ∧ h < c := by
  constructor
  · intro h
    cases key with
    | nil => left; rfl
    | cons a t =>
      right
      refine ⟨a, t, rfl, ?_⟩
      cases h with
      | cons h2 => exact absurd h2 (List.Lex.not_nil_right _ _)
      | rel h2 => exact h2
  · rintro (rfl | ⟨a, t, rfl, h⟩)
    · exact List.nil_lt_cons _ _
    · exact List.Lex.rel h

theorem head_eq_of_between (a b : bytes) (c : Char) (hab : a < b) (hb : b.head? = some c)
    (ha : ¬ a < [c]) : a.head? = some c := by
  cases a with
  | nil => exact absurd (List.nil_lt_cons _ _) ha
  | cons x t =>
    cases b with
    | nil => simp at hb
    | cons y u =>
      simp only [List.head?_cons, Option.some.injEq] at hb ⊢
      subst hb
      have h1 : x ≤ y := List.head_le_of_lt hab
      have h2 : ¬ x < y := fun h => ha (List.Lex.rel h)
      exact le_antisymm h1 (not_lt.mp h2)

theorem not_lt_singleton_of_head (a : bytes) (c : Char) (h : a.head? = some c) : ¬ a < [c] := by
  intro hlt
  rcases (lt_singleton_iff a c).mp hlt with rfl | ⟨x, t, rfl, hx⟩
  · simp at h
  · simp only [List.head?_cons, Option.some.injEq] at h
    exact absurd hx (by rw [h]; exact lt_irrefl c)

/-- On rows in key order the keyspace scan visits exactly the rows whose key
starts with the keyspace byte. -/
theorem rows_scan_eq_filter (r : rows) (c : Char) (hs : rows_sorted r) :
    rows_scan r c = r.filter (fun kv => kv.1.head? == some c) := by
  unfold rows_scan
  unfold rows_sorted List.Sorted at hs
  rw [dropWhile_eq_filter_of_pairwise (fun x y : bytes × bytes => x.1 < y.1) _ r hs
    (fun a b hab hb => by
      simp only [decide_eq_true_eq] at hb ⊢
      exact lt_trans hab hb)]
  rw [takeWhile_eq_filter_of_pairwise (fun x y : bytes × bytes => x.1 < y.1 ∧ ¬ x.1 < [c]) _ _
    ?_ (fun a b hab hb => by
      simp only [beq_iff_eq] at hb ⊢
      exact head_eq_of_between a.1 b.1 c hab.1 hb hab.2)]
  · rw [List.filter_filter]
    congr 1
    funext kv
    by_cases hh : kv.1.head? = some c
    · simp [hh, not_lt_singleton_of_head kv.1 c hh]
    · simp [hh]
  · have h1 := List.Pairwise.filter (fun kv : bytes × bytes => !decide (kv.1 < [c])) hs
    refine List.Pairwise.imp_of_mem ?_ h1
    intro a b ha _ hab
    refine ⟨hab, ?_⟩
    have := (List.mem_filter.mp ha).2
    simpa using this


theorem rows_sorted_delete (r : rows) (key : bytes) (h : rows_sorted r) :
    rows_sorted (rows_delete r key) := by
  unfold rows_sorted List.Sorted rows_delete map_erase at *
  exact List.Pairwise.filter _ h

theorem sorted_orderedInsert_fresh (kv : bytes × bytes) :
    ∀ (l : rows), rows_sorted l → (∀ x ∈ l, x.1 ≠ kv.1) →
      rows_sorted (List.orderedInsert (fun x y => x.1 ≤ y.1) kv l) := by
  intro l
  induction l with
  | nil => intro _ _; simp [rows_sorted]
  | cons a t ih =>
    intro hs hne
    unfold rows_sorted at hs ⊢
    have hs' := List.sorted_cons.mp hs
    simp only [List.orderedInsert]
    split_ifs with hle
    · refine List.sorted_cons.mpr ⟨?_, hs⟩
      have hlt : kv.1 < a.1 := lt_of_le_of_ne hle (fun h => hne a (List.mem_cons_self _ _) h.symm)
      intro b hb
      rcases List.mem_cons.mp hb with rfl | hb
      · exact hlt
      · exact lt_trans hlt (hs'.1 b hb)
    · refine List.sorted_cons.mpr ⟨?_, ih hs'.2 (fun x hx => hne x (List.mem_cons_of_mem _ hx))⟩
      intro b hb
      rcases (List.mem_orderedInsert _).mp hb with rfl | hb
      · exact not_le.mp hle
      · exact hs'.1 b hb

theorem rows_sorted_put (r : rows) (key val : bytes) (h : rows_sorted r) :
    rows_sorted (rows_put r key val) := by
  unfold rows_put
  apply sorted_orderedInsert_fresh
  · exact rows_sorted_delete r key h
  · intro x hx
    unfold map_erase at hx
    have := (List.mem_filter.mp hx).2
    simpa using this

theorem rows_sorted_write (batch : List batch_op) :
    ∀ (r : rows), rows_sorted r → rows_sorted (rows_write r batch) := by
  induction batch with
  | nil => intro r h; exact h
  | cons op rest ih =>
    intro r h
    unfold rows_write
    rw [List.foldl_cons]
    apply ih
    cases op with
    | put key val => exact rows_sorted_put r key val h
    | delete key => exact rows_sorted_delete r key h

/-- In rows in key order, a row is present exactly when its key leads to its value. -/
theorem mem_iff_rows_get (r : rows) (hs : rows_sorted r) (kv : bytes × bytes) :
    kv ∈ r ↔ rows_get r kv.1 = some kv.2 := by
  induction r with
  | nil => simp [rows_get, map_find]
  | cons a t ih =>
    unfold rows_sorted at hs
    have hs' := List.sorted_cons.mp hs
    unfold rows_get map_find
    rw [List.find?_cons]
    by_cases hk : a.1 = kv.1
    · simp only [hk, decide_True, Option.map_some', Option.some.injEq, List.mem_cons]
      constructor
      · rintro (rfl | hmem)
        · rfl
        · have := hs'.1 kv hmem
          rw [hk] at this
          exact absurd this (lt_irrefl _)
      · intro h
        left
        exact Prod.ext hk.symm h.symm
    · simp only [hk, decide_False, List.mem_cons]
      have ih' := ih hs'.2
      unfold rows_get map_find at ih'
      rw [← ih']
      constructor
      · rintro (rfl | hmem)
        · exact absurd rfl hk
        · exact hmem
      · intro h; exact Or.inr h

/-- Rows in key order are determined by the rows they hold. -/
theorem rows_eq_of_mem_iff (r1 r2 : rows) (h1 : rows_sorted r1) (h2 : rows_sorted r2)
    (h : ∀ kv, kv ∈ r1 ↔ kv ∈ r2) : r1 = r2 := by
  unfold rows_sorted at h1 h2
  have hn1 : r1.Nodup := by
    refine List.Pairwise.imp ?_ h1
    intro a b hab heq
    rw [heq] at hab
    exact lt_irrefl _ hab
  have hn2 : r2.Nodup := by
    refine List.Pairwise.imp ?_ h2
    intro a b hab heq
    rw [heq] at hab
    exact lt_irrefl _ hab
  have hperm : r1.Perm r2 := (List.perm_ext_iff_of_nodup hn1 hn2).mpr h
  haveI : IsAntisymm (bytes × bytes) (fun x y => x.1 < y.1) :=
    ⟨fun a b hab hba => absurd hab (lt_asymm hba)⟩
  exact List.eq_of_perm_of_sorted hperm h1 h2

/-! ## Facts about snapshots -/

theorem map_find_assign {κ ν : Type} [DecidableEq κ] (m : List (κ × ν)) (k k2 : κ) (v : ν) :
    map_find (map_assign m k v) k2 = if k = k2 then some v else map_find m k2 := by
  unfold map_assign
  by_cases hc : map_contains m k = true
  · rw [if_pos hc]
    unfold map_find
    rw [List.find?_map]
    have hcomp : ((fun kv : κ × ν => decide (kv.1 = k2)) ∘
        fun kv => if kv.1 = k then (kv.1, v) else kv) = fun kv => decide (kv.1 = k2) := by
      funext kv
      simp only [Function.comp]
      split_ifs <;> rfl
    rw [hcomp]
    cases hf : List.find? (fun kv : κ × ν => decide (kv.1 = k2)) m with
    | none =>
      by_cases hk : k = k2
      · exfalso
        subst hk
        unfold map_contains at hc
        obtain ⟨x, hx, hxk⟩ := List.any_eq_true.mp hc
        rw [List.find?_eq_none] at hf
        exact hf x hx hxk
      · simp [hk]
    | some kv =>
      have hkv : kv.1 = k2 := by
        have := List.find?_some hf
        simpa using this
      by_cases hk : k = k2
      · simp [hk, hkv]
      · have : ¬ kv.1 = k := fun h => hk (h.symm.trans hkv)
        simp [hk, this]
  · rw [if_neg hc]
    unfold map_find
    rw [List.find?_append]
    by_cases hk : k = k2
    · have hcf : map_contains m k = false := by simpa using hc
      have hnone : List.find? (fun kv => decide (kv.1 = k2)) m = none := by
        have := map_find_eq_none_of_not_contains m k hcf
        unfold map_find at this
        rw [← hk]
        simpa using this
      simp [hnone, hk]
    · cases hf : List.find? (fun kv => decide (kv.1 = k2)) m <;> simp [hk]

theorem map_find_foldl_assign_none {α κ ν : Type} [DecidableEq κ] (f : α → κ) (g : α → ν)
    (k : κ) : ∀ (l : List α) (m0 : List (κ × ν)), (∀ x ∈ l, f x ≠ k) →
      map_find (l.foldl (fun m x => map_assign m (f x) (g x)) m0) k = map_find m0 k := by
  intro l
  induction l with
  | nil => intro m0 _; rfl
  | cons a t ih =>
    intro m0 h
    rw [List.foldl_cons, ih _ (fun x hx => h x (List.mem_cons_of_mem _ hx)), map_find_assign,
      if_neg (h a (List.mem_cons_self _ _))]

theorem map_find_foldl_assign_some {α κ ν : Type} [DecidableEq κ] (f : α → κ) (g : α → ν)
    (k : κ) (y : α) : ∀ (l : List α) (m0 : List (κ × ν)), y ∈ l → f y = k →
      (∀ x ∈ l, f x = k → x = y) →
      map_find (l.foldl (fun m x => map_assign m (f x) (g x)) m0) k = some (g y) := by
  intro l
  induction l with
  | nil => intro m0 h; simp at h
  | cons a t ih =>
    intro m0 hy hfy huniq
    rw [List.foldl_cons]
    by_cases hyt : y ∈ t
    · exact ih _ hyt hfy (fun x hx => huniq x (List.mem_cons_of_mem _ hx))
    · have hya : y = a := by
        rcases List.mem_cons.mp hy with h | h
        · exact h
        · exact absurd h hyt
      subst hya
      rw [map_find_foldl_assign_none f g k t _ (fun x hx hfx => hyt (by
        rw [← huniq x (List.mem_cons_of_mem _ hx) hfx]; exact hx)), map_find_assign, if_pos hfy]

theorem key_of_well_keyed {data : Type} (pd : persist data) (r : rows) (hw : well_keyed pd r)
    (c : Char) (hc : c = 'a' ∨ c = 'e') (kv : bytes × bytes) (hmem : kv ∈ r)
    (hhead : kv.1.head? = some c) :
    kv.1 = c :: pd.save (from_serial pd (drop_keyspace kv.1)) := by
  have hwk := hw kv hmem (by rcases hc with rfl | rfl <;> simp [hhead])
  obtain ⟨key, val⟩ := kv
  cases key with
  | nil => simp at hhead
  | cons a rest =>
    simp only [List.head?_cons, Option.some.injEq] at hhead
    simp only [drop_keyspace, List.drop_succ_cons, List.drop_zero, from_serial] at hwk ⊢
    rw [hhead, hwk]

/-- The expiry `do_snap` finds for a key is the decoded `e` row of the key. -/
theorem map_find_snap_expiries {data : Type} [DecidableEq data] (pd : persist data)
    (pe : persist expiration_time) (hd : ∀ x, pd.load (pd.save x) = x) (r : rows)
    (hs : rows_sorted r) (hw : well_keyed pd r) (k : data) :
    map_find (snap_expiries pd pe r) k
      = (rows_get r ('e' :: pd.save k)).map (from_serial pe) := by
  unfold snap_expiries
  cases hg : rows_get r ('e' :: pd.save k) with
  | none =>
    rw [map_find_foldl_assign_none (fun kv : bytes × bytes => from_serial pd (drop_keyspace kv.1))
      (fun kv => from_serial pe kv.2) k _ []
      (not_mem_scan_of_absent pd r 'e' (Or.inr rfl) hw k hg)]
    rfl
  | some vs =>
    have hmem : (('e' :: pd.save k, vs) : bytes × bytes) ∈ r :=
      (mem_iff_rows_get r hs _).mpr hg
    have hscan : (('e' :: pd.save k, vs) : bytes × bytes) ∈ rows_scan r 'e' := by
      rw [rows_scan_eq_filter r 'e' hs]
      exact List.mem_filter.mpr ⟨hmem, by simp⟩
    rw [map_find_foldl_assign_some (fun kv : bytes × bytes => from_serial pd (drop_keyspace kv.1))
      (fun kv => from_serial pe kv.2) k ('e' :: pd.save k, vs) _ [] hscan
      (by simp [drop_keyspace, from_serial, hd])]
    · rfl
    · intro x hx hfx
      obtain ⟨hxr, hxh⟩ := mem_of_mem_rows_scan r 'e' x hx
      have hkey := key_of_well_keyed pd r hw 'e' (Or.inr rfl) x hxr hxh
      have hfx2 : from_serial pd (drop_keyspace x.1) = k := hfx
      rw [hfx2] at hkey
      have hgx := (mem_iff_rows_get r hs x).mp hxr
      rw [hkey, hg] at hgx
      exact Prod.ext hkey (Option.some.inj hgx).symm


theorem rows_write_cons (r : rows) (op : batch_op) (rest : List batch_op) :
    rows_write r (op :: rest) = rows_write (rows_apply r op) rest := rfl


theorem init_batch_cons {data : Type} (pd : persist data) (pe : persist expiration_time)
    (r : rows) (e : data × value data) (rest : List (data × value data)) :
    rows_write r (init_batch pd pe (e :: rest))
      = rows_write
          (match e.2.expiry with
           | some ev => rows_put (rows_put r ('a' :: pd.save e.1) (pd.save e.2.item))
               ('e' :: pd.save e.1) (pe.save ev)
           | none => rows_put r ('a' :: pd.save e.1) (pd.save e.2.item))
          (init_batch pd pe rest) := by
  have hb : init_batch pd pe (e :: rest)
      = (match e.2.expiry with
         | some ev =>
           batch_op.put ('a' :: pd.save e.1) (pd.save e.2.item) ::
             batch_op.put ('e' :: pd.save e.1) (pe.save ev) :: init_batch pd pe rest
         | none => batch_op.put ('a' :: pd.save e.1) (pd.save e.2.item) :: init_batch pd pe rest) :=
    rfl
  rw [hb]
  cases he : e.2.expiry <;> simp only [rows_write_cons, rows_apply]

/-- A key that no entry of the snapshot serializes to keeps its row through the
batch of `do_init`. -/
theorem rows_get_init_other {data : Type} (pd : persist data) (pe : persist expiration_time)
    (key : bytes) : ∀ (es : List (data × value data)) (r : rows),
      (∀ e ∈ es, key ≠ 'a' :: pd.save e.1 ∧ key ≠ 'e' :: pd.save e.1) →
      rows_get (rows_write r (init_batch pd pe es)) key = rows_get r key := by
  intro es
  induction es with
  | nil => intro r _; rfl
  | cons e rest ih =>
    intro r h
    rw [init_batch_cons, ih _ (fun x hx => h x (List.mem_cons_of_mem _ hx))]
    obtain ⟨h1, h2⟩ := h e (List.mem_cons_self _ _)
    cases he : e.2.expiry with
    | none => simp only []; rw [rows_get_put_other _ _ _ _ h1]
    | some ev => simp only []; rw [rows_get_put_other _ _ _ _ h2, rows_get_put_other _ _ _ _ h1]

/-- Every row the batch of `do_init` leaves was there before or is the
serialization of an entry of the snapshot. -/
theorem rows_get_init_sound {data : Type} (pd : persist data) (pe : persist expiration_time)
    (key val : bytes) : ∀ (es : List (data × value data)) (r : rows),
      rows_get (rows_write r (init_batch pd pe es)) key = some val →
      rows_get r key = some val ∨
        ∃ e ∈ es, (key = 'a' :: pd.save e.1 ∧ val = pd.save e.2.item) ∨
          (∃ x, e.2.expiry = some x ∧ key = 'e' :: pd.save e.1 ∧ val = pe.save x) := by
  intro es
  induction es with
  | nil => intro r h; exact Or.inl h
  | cons e rest ih =>
    intro r h
    rw [init_batch_cons] at h
    rcases ih _ h with h1 | ⟨e2, he2, h2⟩
    · by_cases ha : key = 'a' :: pd.save e.1
      · right
        refine ⟨e, List.mem_cons_self _ _, Or.inl ⟨ha, ?_⟩⟩
        have hne : ('a' :: pd.save e.1) ≠ ('e' :: pd.save e.1) := by simp
        cases he : e.2.expiry with
        | none =>
          rw [he] at h1
          simp only [] at h1
          rw [ha, rows_get_put_same] at h1
          exact (Option.some.inj h1).symm
        | some ev =>
          rw [he] at h1
          simp only [] at h1
          rw [ha, rows_get_put_other _ _ _ _ hne, rows_get_put_same] at h1
          exact (Option.some.inj h1).symm
      · cases he : e.2.expiry with
        | none =>
          rw [he] at h1
          simp only [] at h1
          rw [rows_get_put_other _ _ _ _ ha] at h1
          exact Or.inl h1
        | some ev =>
          rw [he] at h1
          simp only [] at h1
          by_cases hb : key = 'e' :: pd.save e.1
          · right
            refine ⟨e, List.mem_cons_self _ _, Or.inr ⟨ev, he, hb, ?_⟩⟩
            rw [hb, rows_get_put_same] at h1
            exact (Option.some.inj h1).symm
          · rw [rows_get_put_other _ _ _ _ hb, rows_get_put_other _ _ _ _ ha] at h1
            exact Or.inl h1
    · exact Or.inr ⟨e2, List.mem_cons_of_mem _ he2, h2⟩

/-- An entry whose key no other entry has leaves its value under the `a` key
and its expiry, if it has one, under the `e` key. -/
theorem rows_get_init_complete {data : Type} (pd : persist data)
    (pe : persist expiration_time) (hd : ∀ x, pd.load (pd.save x) = x)
    (e : data × value data) : ∀ (es : List (data × value data)) (r : rows), e ∈ es →
      (∀ x ∈ es, x.1 = e.1 → x = e) →
      rows_get (rows_write r (init_batch pd pe es)) ('a' :: pd.save e.1)
          = some (pd.save e.2.item) ∧
        (∀ x, e.2.expiry = some x →
          rows_get (rows_write r (init_batch pd pe es)) ('e' :: pd.save e.1)
            = some (pe.save x)) ∧
        (e.2.expiry = none →
          rows_get (rows_write r (init_batch pd pe es)) ('e' :: pd.save e.1)
            = rows_get r ('e' :: pd.save e.1)) := by
  intro es
  induction es with
  | nil => intro r h; simp at h
  | cons a rest ih =>
    intro r hmem huniq
    rw [init_batch_cons]
    have hae : ('a' :: pd.save e.1) ≠ ('e' :: pd.save e.1) := by simp
    have hea : ('e' :: pd.save e.1) ≠ ('a' :: pd.save a.1) := by simp
    by_cases het : e ∈ rest
    · obtain ⟨h1, h2, h3⟩ := ih
        (match a.2.expiry with
           | some ev => rows_put (rows_put r ('a' :: pd.save a.1) (pd.save a.2.item))
               ('e' :: pd.save a.1) (pe.save ev)
           | none => rows_put r ('a' :: pd.save a.1) (pd.save a.2.item))
        het (fun x hx => huniq x (List.mem_cons_of_mem _ hx))
      refine ⟨h1, h2, ?_⟩
      intro hnone
      rw [h3 hnone]
      by_cases hq : a = e
      · rw [hq, hnone]
        simp only []
        rw [rows_get_put_other _ _ _ _ (Ne.symm hae)]
      · have hk : a.1 ≠ e.1 := fun h => hq (huniq a (List.mem_cons_self _ _) h)
        have hs : pd.save a.1 ≠ pd.save e.1 := fun h => hk (save_injective pd hd h)
        have hee : ('e' :: pd.save e.1) ≠ ('e' :: pd.save a.1) := by simp [Ne.symm hs]
        cases ha : a.2.expiry with
        | none => simp only []; rw [rows_get_put_other _ _ _ _ hea]
        | some ev =>
          simp only []
          rw [rows_get_put_other _ _ _ _ hee, rows_get_put_other _ _ _ _ hea]
    · have hq : e = a := by
        rcases List.mem_cons.mp hmem with h | h
        · exact h
        · exact absurd h het
      subst hq
      have hother : ∀ x ∈ rest, ∀ (c : Char),
          (c :: pd.save e.1) ≠ 'a' :: pd.save x.1 ∧ (c :: pd.save e.1) ≠ 'e' :: pd.save x.1 := by
        intro x hx c
        have hk : x.1 ≠ e.1 := fun h => het (by
          rw [← huniq x (List.mem_cons_of_mem _ hx) h]; exact hx)
        have hs : pd.save e.1 ≠ pd.save x.1 := fun h => hk (save_injective pd hd h.symm)
        constructor <;> simp [hs]
      rw [rows_get_init_other pd pe _ rest _ (fun x hx => hother x hx 'a'),
        rows_get_init_other pd pe _ rest _ (fun x hx => hother x hx 'e')]
      cases he : e.2.expiry with
      | none =>
        simp only []
        refine ⟨rows_get_put_same _ _ _, fun x hx => absurd hx (by simp), fun _ => ?_⟩
        rw [rows_get_put_other _ _ _ _ (Ne.symm hae)]
      | some ev =>
        simp only []
        refine ⟨?_, fun x hx => ?_, fun h => absurd h (by simp)⟩
        · rw [rows_get_put_other _ _ _ _ hae, rows_get_put_same]
        · rw [rows_get_put_same, Option.some.inj hx]


theorem map_find_erase_same {κ ν : Type} [DecidableEq κ] (m : List (κ × ν)) (k : κ) :
    map_find (map_erase m k) k = none := by
  unfold map_find map_erase
  rw [Option.map_eq_none', List.find?_eq_none]
  intro kv hkv
  have := (List.mem_filter.mp hkv).2
  simpa using this

/-- With a database open and no fault to come, `do_clear` leaves an open
database that holds the version row only. -/
theorem do_clear_fault_free (b : rocksdb_backend) (hopen : b.opened = true)
    (hf : b.fault_free = true) :
    (b.do_clear).1 = true ∧
      (b.do_clear).2.contents = rows_put [] "mbroker_version".toList BROKER_VERSION ∧
      (b.do_clear).2.opened = true ∧ (b.do_clear).2.fault_free = true ∧
      (b.do_clear).2.sn = b.sn := by
  obtain ⟨db, cim, sn, le, thr, disk, faults, hints, est⟩ := b
  simp only [rocksdb_backend.opened, rocksdb_backend.fault_free, Bool.and_eq_true] at hopen hf
  obtain ⟨ho, hc⟩ := hopen
  subst hc
  rcases db with _ | d
  · simp at ho
  · have hdisk : map_find (map_erase ((d.name, d.contents) :: map_erase disk d.name) d.name)
        d.name = none := map_find_erase_same _ _
    rcases faults with _ | ⟨f1, _ | ⟨f2, _ | ⟨f3, fs⟩⟩⟩ <;> simp at hf <;>
      simp [rocksdb_backend.do_clear, rocksdb_backend.require_db, rocksdb_backend.db_reset,
        rocksdb_backend.destroy_db, rocksdb_backend.take_fault, rocksdb_backend.require_ok,
        rocksdb_backend.open, rocksdb_backend.db_open, rocksdb_backend.db_put,
        rocksdb_backend.db_write, rocksdb_backend.contents, rocksdb_backend.opened,
        rocksdb_backend.fault_free, hdisk, hf, rows_write, rows_apply]

theorem rows_get_version_row (key : bytes) (val : bytes)
    (h : rows_get (rows_put [] "mbroker_version".toList BROKER_VERSION) key = some val) :
    key = "mbroker_version".toList := by
  by_contra hne
  rw [rows_get_put_other _ _ _ _ hne] at h
  simp [rows_get, map_find] at h

theorem rows_sorted_nil : rows_sorted [] := by
  simp [rows_sorted]

theorem snap_entries_eq {data : Type} [DecidableEq data] (pd : persist data)
    (expiries : List (data × expiration_time)) (r : rows) (hs : rows_sorted r) :
    snap_entries pd expiries r
      = (r.filter (fun kv => kv.1.head? == some 'a')).map
          (fun kv => (from_serial pd (drop_keyspace kv.1),
            (⟨from_serial pd kv.2, map_find expiries (from_serial pd (drop_keyspace kv.1))⟩ :
              value data))) := by
  unfold snap_entries
  rw [rows_scan_eq_filter r 'a' hs]

/-- The core of the snapshot round trip: the rows that `do_init` writes from the
entries `do_snap` read yield the same entries again. -/
theorem snap_entries_init {data : Type} [DecidableEq data] (pd : persist data)
    (pe : persist expiration_time) (hd : ∀ x, pd.load (pd.save x) = x)
    (he : ∀ x, pe.load (pe.save x) = x) (r : rows) (hs : rows_sorted r)
    (hw : well_keyed pd r) :
    snap_entries pd
        (snap_expiries pd pe
          (rows_write (rows_put [] "mbroker_version".toList BROKER_VERSION)
            (init_batch pd pe (snap_entries pd (snap_expiries pd pe r) r))))
        (rows_write (rows_put [] "mbroker_version".toList BROKER_VERSION)
          (init_batch pd pe (snap_entries pd (snap_expiries pd pe r) r)))
      = snap_entries pd (snap_expiries pd pe r) r := by
  generalize hes : snap_entries pd (snap_expiries pd pe r) r = es
  generalize hr2 : rows_write (rows_put [] "mbroker_version".toList BROKER_VERSION)
    (init_batch pd pe es) = r2
  have hs0 : rows_sorted (rows_put [] "mbroker_version".toList BROKER_VERSION) :=
    rows_sorted_put _ _ _ rows_sorted_nil
  have hs2 : rows_sorted r2 := by rw [← hr2]; exact rows_sorted_write _ _ hs0
  -- the value rows of `r` and what they decode to
  have hes' := hes
  rw [snap_entries_eq pd _ r hs] at hes'
  have hkey : ∀ kv ∈ r.filter (fun kv => kv.1.head? == some 'a'),
      kv.1 = 'a' :: pd.save (from_serial pd (drop_keyspace kv.1)) := by
    intro kv hkv
    obtain ⟨h1, h2⟩ := List.mem_filter.mp hkv
    exact key_of_well_keyed pd r hw 'a' (Or.inl rfl) kv h1 (by simpa using h2)
  have huniq : ∀ e ∈ es, ∀ x ∈ es, x.1 = e.1 → x = e := by
    intro e hemem x hxmem hxe
    rw [← hes'] at hemem hxmem
    obtain ⟨kv0, hkv0, rfl⟩ := List.mem_map.mp hemem
    obtain ⟨kv1, hkv1, rfl⟩ := List.mem_map.mp hxmem
    simp only at hxe
    have hk : kv1.1 = kv0.1 := by rw [hkey kv1 hkv1, hkey kv0 hkv0, hxe]
    have h0 := (mem_iff_rows_get r hs kv0).mp (List.mem_filter.mp hkv0).1
    have h1 := (mem_iff_rows_get r hs kv1).mp (List.mem_filter.mp hkv1).1
    rw [hk, h0] at h1
    have : kv1 = kv0 := Prod.ext hk (Option.some.inj h1).symm
    rw [this]
  -- the rows written are well keyed
  have hw2 : well_keyed pd r2 := by
    intro kv hkv hhead
    have hg := (mem_iff_rows_get r2 hs2 kv).mp hkv
    rw [← hr2] at hg
    rcases rows_get_init_sound pd pe kv.1 kv.2 es _ hg with h0 | ⟨e, _, h | ⟨x, _, h, _⟩⟩
    · have := rows_get_version_row _ _ h0
      rw [this] at hhead
      simp at hhead
    · rw [h.1]; simp [drop_keyspace, hd]
    · rw [h]; simp [drop_keyspace, hd]
  -- the value rows written are the value rows of `r`, re-encoded
  have hA : r2.filter (fun kv => kv.1.head? == some 'a')
      = (r.filter (fun kv => kv.1.head? == some 'a')).map
          (fun kv => (kv.1, pd.save (from_serial pd kv.2))) := by
    apply rows_eq_of_mem_iff
    · unfold rows_sorted List.Sorted at hs2 ⊢
      exact List.Pairwise.filter _ hs2
    · unfold rows_sorted List.Sorted at hs ⊢
      rw [List.pairwise_map]
      exact List.Pairwise.filter _ hs
    · intro kv
      constructor
      · intro hkv
        obtain ⟨hmem, hhead⟩ := List.mem_filter.mp hkv
        have hhead' : kv.1.head? = some 'a' := by simpa using hhead
        have hg := (mem_iff_rows_get r2 hs2 kv).mp hmem
        rw [← hr2] at hg
        rcases rows_get_init_sound pd pe kv.1 kv.2 es _ hg with h0 | ⟨e, hemem, h | ⟨x, _, h, _⟩⟩
        · have := rows_get_version_row _ _ h0
          rw [this] at hhead'
          simp at hhead'
        · rw [← hes'] at hemem
          obtain ⟨kv0, hkv0, rfl⟩ := List.mem_map.mp hemem
          simp only at h
          refine List.mem_map.mpr ⟨kv0, hkv0, ?_⟩
          exact Prod.ext (by rw [h.1]; exact hkey kv0 hkv0) h.2.symm
        · rw [h] at hhead'
          simp at hhead'
      · intro hkv
        obtain ⟨kv0, hkv0, rfl⟩ := List.mem_map.mp hkv
        have hemem : (from_serial pd (drop_keyspace kv0.1),
            (⟨from_serial pd kv0.2,
              map_find (snap_expiries pd pe r) (from_serial pd (drop_keyspace kv0.1))⟩ :
              value data)) ∈ es := by
          rw [← hes']
          exact List.mem_map.mpr ⟨kv0, hkv0, rfl⟩
        obtain ⟨g1, _, _⟩ := rows_get_init_complete pd pe hd _ es
          (rows_put [] "mbroker_version".toList BROKER_VERSION) hemem (huniq _ hemem)
        simp only at g1
        rw [hr2, ← hkey kv0 hkv0] at g1
        refine List.mem_filter.mpr ⟨(mem_iff_rows_get r2 hs2 _).mpr g1, ?_⟩
        exact (List.mem_filter.mp hkv0).2
  rw [snap_entries_eq pd _ r2 hs2, hA, List.map_map, ← hes']
  apply List.map_congr_left
  intro kv0 hkv0
  have hemem : (from_serial pd (drop_keyspace kv0.1),
      (⟨from_serial pd kv0.2,
        map_find (snap_expiries pd pe r) (from_serial pd (drop_keyspace kv0.1))⟩ :
        value data)) ∈ es := by
    rw [← hes']
    exact List.mem_map.mpr ⟨kv0, hkv0, rfl⟩
  obtain ⟨_, g2, g3⟩ := rows_get_init_complete pd pe hd _ es
    (rows_put [] "mbroker_version".toList BROKER_VERSION) hemem (huniq _ hemem)
  simp only at g2 g3
  rw [hr2] at g2 g3
  simp only [Function.comp, from_serial, hd]
  congr 2
  rw [map_find_snap_expiries pd pe hd r2 hs2 hw2]
  cases hx : map_find (snap_expiries pd pe r) (pd.load (drop_keyspace kv0.1)) with
  | none =>
    have := g3 hx
    simp only [from_serial] at this
    rw [this, rows_get_put_other _ _ _ _ (by simp)]
    simp [rows_get, map_find]
  | some x =>
    have := g2 x hx
    simp only [from_serial] at this
    rw [this]
    simp [from_serial, he]

/-- With a database open and no fault to come, `do_init` replaces the rows by
the version row and the rows of the snapshot, and takes over its sequence number. -/
theorem do_init_fault_free {data : Type} (pd : persist data) (pe : persist expiration_time)
    (b : rocksdb_backend) (sss : snapshot data) (hopen : b.opened = true)
    (hf : b.fault_free = true) :
    (b.do_init pd pe sss).1 = true ∧
      (b.do_init pd pe sss).2.contents
        = rows_write (rows_put [] "mbroker_version".toList BROKER_VERSION)
            (init_batch pd pe sss.entries) ∧
      (b.do_init pd pe sss).2.opened = true ∧ (b.do_init pd pe sss).2.fault_free = true ∧
      (b.do_init pd pe sss).2.sn = sss.sn := by
  obtain ⟨h1, h2, h3, h4, _⟩ := do_clear_fault_free b hopen hf
  unfold rocksdb_backend.do_init
  generalize b.do_clear = c at h1 h2 h3 h4 ⊢
  obtain ⟨ok, b1⟩ := c
  simp only at h1 h2 h3 h4 ⊢
  subst h1
  simp only [Bool.not_true, Bool.false_eq_true, if_false]
  have ho : ({ b1 with sn := sss.sn } : rocksdb_backend).db.isSome = true := by
    unfold rocksdb_backend.opened at h3
    simp only [Bool.and_eq_true] at h3
    exact h3.1
  obtain ⟨g1, g2, g3, g4, g5, g6, _⟩ := db_write_fault_free
    ({ b1 with sn := sss.sn } : rocksdb_backend) (init_batch pd pe sss.entries) ho h4
  generalize ({ b1 with sn := sss.sn } : rocksdb_backend).db_write
    (init_batch pd pe sss.entries) = w at g1 g2 g3 g4 g5 g6 ⊢
  obtain ⟨st, b2⟩ := w
  simp only at g1 g2 g3 g4 g5 g6 ⊢
  subst g1
  simp only [rocksdb_backend.require_ok, if_true]
  refine ⟨trivial, ?_, ?_, g4, g5⟩
  · rw [g3]
    show rows_write b1.contents _ = _
    rw [h2]
  · unfold rocksdb_backend.opened at h3 ⊢
    simp only [Bool.and_eq_true] at h3 ⊢
    exact ⟨g2, g6.trans h3.2⟩

/-- With a database open and no fault to come, `do_snap` delivers the sequence
number and the entries read off the rows, and changes neither. -/
theorem do_snap_fault_free {data : Type} [DecidableEq data] (pd : persist data)
    (pe : persist expiration_time) (b : rocksdb_backend) (hopen : b.opened = true)
    (hf : b.fault_free = true) :
    (b.do_snap pd pe).1
        = some ⟨b.sn, snap_entries pd (snap_expiries pd pe b.contents) b.contents⟩ ∧
      (b.do_snap pd pe).2.opened = true ∧ (b.do_snap pd pe).2.fault_free = true ∧
      (b.do_snap pd pe).2.contents = b.contents := by
  obtain ⟨db, cim, sn, le, thr, disk, faults, hints, est⟩ := b
  simp only [rocksdb_backend.opened, rocksdb_backend.fault_free, Bool.and_eq_true] at hopen hf
  obtain ⟨ho, hc⟩ := hopen
  subst hc
  rcases db with _ | d
  · simp at ho
  · rcases faults with _ | ⟨f1, _ | ⟨f2, fs⟩⟩ <;> simp at hf <;>
      simp [rocksdb_backend.do_snap, rocksdb_backend.require_db, rocksdb_backend.it_status,
        rocksdb_backend.take_fault, rocksdb_backend.require_ok, rocksdb_backend.contents,
        rocksdb_backend.opened, rocksdb_backend.fault_free, hf]

theorem init_times_fault_free {data : Type} (pd : persist data) (pe : persist expiration_time)
    (sss : snapshot data) : ∀ (n : Nat) (b : rocksdb_backend), b.opened = true →
      b.fault_free = true →
      (init_times pd pe sss (n + 1) b).contents
          = rows_write (rows_put [] "mbroker_version".toList BROKER_VERSION)
              (init_batch pd pe sss.entries) ∧
        (init_times pd pe sss (n + 1) b).opened = true ∧
        (init_times pd pe sss (n + 1) b).fault_free = true ∧
        (init_times pd pe sss (n + 1) b).sn = sss.sn := by
  intro n
  induction n with
  | zero =>
    intro b ho hf
    obtain ⟨_, h2, h3, h4, h5⟩ := do_init_fault_free pd pe b sss ho hf
    exact ⟨h2, h3, h4, h5⟩
  | succ k ih =>
    intro b ho hf
    obtain ⟨_, _, h3, h4, _⟩ := do_init_fault_free pd pe b sss ho hf
    exact ih (b.do_init pd pe sss).2 h3 h4

theorem unary_round_trip (x : Nat) : unary.load (unary.save x) = x := by
  simp [unary]

theorem takeWhile_replicate_append (n : Nat) (t : List Char)
    (ht : t.head? ≠ some 'm') :
    (List.replicate n 'm' ++ t).takeWhile (fun c => c == 'm') = List.replicate n 'm' ∧
      (List.replicate n 'm' ++ t).dropWhile (fun c => c == 'm') = t := by
  induction n with
  | zero =>
    cases t with
    | nil => simp
    | cons a rest =>
      have : ¬ a = 'm' := fun h => ht (by simp [h])
      simp [List.takeWhile_cons, List.dropWhile_cons, this]
  | succ k ih =>
    simp [List.replicate_succ, List.takeWhile_cons, List.dropWhile_cons, ih.1, ih.2]

theorem expiry_codec_round_trip (x : expiration_time) :
    expiry_codec.load (expiry_codec.save x) = x := by
  obtain ⟨m, d⟩ := x
  cases d with
  | none =>
    have h := takeWhile_replicate_append m [] (by simp)
    simp only [List.append_nil] at h
    simp [expiry_codec, h.1, h.2]
  | some d =>
    have h := takeWhile_replicate_append m ('d' :: List.replicate d 'x') (by simp)
    simp [expiry_codec, h.1, h.2]

/-- The function `do_expire` never touches the sequence number. -/
theorem do_expire_sn {data : Type} (pd : persist data) (pe : persist expiration_time)
    (b : rocksdb_backend) (k : data) (x : expiration_time) :
    (b.do_expire pd pe k x).2.sn = b.sn := by
  cases hdb : b.db with
  | none =>
    unfold rocksdb_backend.do_expire rocksdb_backend.require_db
    simp [hdb]
  | some d =>
    have hopen : b.db.isSome = true := by rw [hdb]; rfl
    unfold rocksdb_backend.do_expire
    simp only [require_db_open b hopen, Bool.not_true, Bool.false_eq_true, if_false,
      to_serial_keyspace, to_serial_append, List.singleton_append]
    have hfc := fetch_cases b ('e' :: pd.save k)
    generalize b.fetch ('e' :: pd.save k) = r at hfc ⊢
    obtain ⟨res, b1⟩ := r
    simp only at hfc ⊢
    cases res with
    | absent => exact hfc.1.2.1
    | failed => exact hfc.1.2.1
    | found vs =>
      simp only []
      split_ifs
      · exact (do_erase_serial_cases b1 (pd.save k)).1.trans hfc.1.2.1
      · exact hfc.1.2.1

/-! ## Facts about the modifications and the scans of the backend -/

/-- A lookup writes nothing: database and sequence number are what they were, a
lookup that answers found the database open, and no fault to come stays so. -/
theorem lookup_expiry_state {data : Type} (pd : persist data) (pe : persist expiration_time)
    (b : rocksdb_backend) (k : data) :
    (b.do_lookup_expiry pd pe k).2.db = b.db ∧ (b.do_lookup_expiry pd pe k).2.sn = b.sn ∧
      ((b.do_lookup_expiry pd pe k).1 ≠ none → b.db.isSome = true) ∧
      (b.fault_free = true → (b.do_lookup_expiry pd pe k).2.fault_free = true) := by
  cases hd : b.db with
  | none =>
    obtain ⟨db, cim, sn, le, thr, disk, faults, hints, est⟩ := b
    simp only at hd
    subst hd
    simp [rocksdb_backend.do_lookup_expiry, rocksdb_backend.require_db,
      rocksdb_backend.fault_free]
  | some d =>
    have hopen : b.db.isSome = true := by rw [hd]; rfl
    unfold rocksdb_backend.do_lookup_expiry
    simp only [require_db_open b hopen, set_keyspace, to_serial_keyspace, to_serial_append,
      List.singleton_append, Bool.not_true, Bool.false_eq_true, if_false]
    have h1 := fetch_cases b ('a' :: pd.save k)
    have h2 := fetch_cases (b.fetch ('a' :: pd.save k)).2 ('e' :: pd.save k)
    generalize b.fetch ('a' :: pd.save k) = r1 at h1 h2 ⊢
    obtain ⟨res1, b1⟩ := r1
    generalize b1.fetch ('e' :: pd.save k) = r2 at h2 ⊢
    obtain ⟨res2, b2⟩ := r2
    simp only at h1 h2 ⊢
    have hf1 : b.fault_free = true → b1.fault_free = true := by
      intro hf
      rcases h1.2 with ⟨_, _, e⟩ | ⟨_, e | ⟨_, e⟩⟩
      · exact fault_free_of_faults hf (Or.inr e)
      · exact fault_free_of_faults hf (Or.inl e)
      · exact fault_free_of_faults hf (Or.inr e)
    have hf2 : b1.fault_free = true → b2.fault_free = true := by
      intro hf
      rcases h2.2 with ⟨_, _, e⟩ | ⟨_, e | ⟨_, e⟩⟩
      · exact fault_free_of_faults hf (Or.inr e)
      · exact fault_free_of_faults hf (Or.inl e)
      · exact fault_free_of_faults hf (Or.inr e)
    have hdb1 : b1.db = some d := h1.1.1.trans hd
    have hdb2 : b2.db = some d := h2.1.1.trans hdb1
    have hsn2 : b2.sn = b.sn := h2.1.2.1.trans h1.1.2.1
    cases res1 with
    | absent => exact ⟨hdb1, h1.1.2.1, fun _ => rfl, hf1⟩
    | failed => exact ⟨hdb1, h1.1.2.1, fun _ => rfl, hf1⟩
    | found vs =>
      cases res2 with
      | absent => exact ⟨hdb2, hsn2, fun _ => rfl, fun hf => hf2 (hf1 hf)⟩
      | failed => exact ⟨hdb2, hsn2, fun _ => rfl, fun hf => hf2 (hf1 hf)⟩
      | found es => exact ⟨hdb2, hsn2, fun _ => rfl, fun hf => hf2 (hf1 hf)⟩

theorem set_error_state (b : rocksdb_backend) (msg : Option String) :
    (b.set_error msg).db = b.db ∧ (b.set_error msg).sn = b.sn ∧
      (b.set_error msg).faults = b.faults := by
  cases msg <;> exact ⟨rfl, rfl, rfl⟩

/-- What the write of a modification does after a lookup that answered: it
fails, with a fault, and leaves the database as it is, or it applies the batch
of `detail::insert`. -/
theorem insert_after_lookup {data : Type} (pd : persist data) (pe : persist expiration_time)
    (b1 : rocksdb_backend) (k v : data) (e : Option expiration_time)
    (hopen : b1.db.isSome = true) :
    (((detail_insert pd pe b1 k v false e).2.require_ok (detail_insert pd pe b1 k v false e).1).1
          = false ∧
        ((detail_insert pd pe b1 k v false e).2.require_ok
          (detail_insert pd pe b1 k v false e).1).2.db = b1.db ∧
        b1.fault_free ≠ true) ∨
      (((detail_insert pd pe b1 k v false e).2.require_ok
          (detail_insert pd pe b1 k v false e).1).1 = true ∧
        ((detail_insert pd pe b1 k v false e).2.require_ok
          (detail_insert pd pe b1 k v false e).1).2.contents
          = rows_write b1.contents (insert_batch pd pe k v false e)) := by
  unfold detail_insert
  have hw := db_write_cases b1 (insert_batch pd pe k v false e)
  have hwf := db_write_fault_free b1 (insert_batch pd pe k v false e) hopen
  generalize b1.db_write (insert_batch pd pe k v false e) = w at hw hwf ⊢
  obtain ⟨st, b2⟩ := w
  simp only at hw hwf ⊢
  rcases hw.2 with ⟨hst, hdb, _⟩ | ⟨hst, _, _, hc, _⟩
  · left
    subst hst
    refine ⟨by simp [rocksdb_backend.require_ok], by simpa [rocksdb_backend.require_ok] using hdb,
      fun hf => ?_⟩
    exact absurd (hwf hf).1 (by simp)
  · right
    subst hst
    exact ⟨by simp [rocksdb_backend.require_ok], by simpa [rocksdb_backend.require_ok] using hc⟩

/-- The outcomes of the steps around a helper that updates in place: a
`failure`, which needs a closed database or a fault and leaves the database as
it is; `invalid`, for a stored value the helper refuses, which leaves the
database as it is; or a `success`, for a value `v` the helper delivers, which
applies the batch of `detail::insert` for `v` and the updated expiry. -/
theorem modify_cases {data : Type} (pd : persist data) (pe : persist expiration_time)
    (u : util data) (b : rocksdb_backend) (k : data) (mod_time : Nat)
    (helper : Option data → updated data) :
    (b.modify pd pe u k mod_time helper).2.sn = b.sn ∧
    (((b.modify pd pe u k mod_time helper).1 = ⟨modification_result.status.failure, none⟩ ∧
        (b.modify pd pe u k mod_time helper).2.db = b.db ∧
        ¬ (b.db.isSome = true ∧ b.fault_free = true)) ∨
      (∃ msg, helper (b.entry pd pe k).1 = updated.refused msg ∧
        (b.modify pd pe u k mod_time helper).1 = ⟨modification_result.status.invalid, none⟩ ∧
        (b.modify pd pe u k mod_time helper).2.db = b.db) ∨
      (∃ v, helper (b.entry pd pe k).1 = updated.done v ∧
        (b.modify pd pe u k mod_time helper).1
          = ⟨modification_result.status.success,
              u.update_last_modification (b.entry pd pe k).2 mod_time⟩ ∧
        (b.modify pd pe u k mod_time helper).2.contents
          = rows_write b.contents (insert_batch pd pe k v false
              (u.update_last_modification (b.entry pd pe k).2 mod_time)))) := by
  unfold rocksdb_backend.modify
  have hl := lookup_expiry_cases pd pe b k
  have hs := lookup_expiry_state pd pe b k
  have hlf := lookup_expiry_fault_free pd pe b k
  generalize b.do_lookup_expiry pd pe k = op at hl hs hlf ⊢
  obtain ⟨res, b1⟩ := op
  simp only at hl hs hlf ⊢
  obtain ⟨hdb, hsn, hopen, hff⟩ := hs
  cases res with
  | none =>
    refine ⟨hsn, Or.inl ⟨rfl, hdb, fun h => ?_⟩⟩
    exact absurd (hlf h.1 h.2) (by simp)
  | some found =>
    have hfound : found = b.entry pd pe k := by
      rcases hl with h | h
      · exact absurd h (by simp)
      · exact Option.some.inj h
    subst hfound
    have ho1 : b1.db.isSome = true := by rw [hdb]; exact hopen (by simp)
    cases hh : helper (b.entry pd pe k).1 with
    | refused msg =>
      simp only [hh]
      obtain ⟨e1, e2, _⟩ := set_error_state b1 msg
      refine ⟨e2.trans hsn, Or.inr (Or.inl ⟨msg, ?_, ?_, e1.trans hdb⟩)⟩ <;>
        first | rfl | trivial
    | done v =>
      simp only [hh]
      have hw := db_write_cases b1 (insert_batch pd pe k v false
        (u.update_last_modification (b.entry pd pe k).2 mod_time))
      have hi := insert_after_lookup pd pe b1 k v
        (u.update_last_modification (b.entry pd pe k).2 mod_time) ho1
      unfold detail_insert at hi ⊢
      generalize b1.db_write (insert_batch pd pe k v false
        (u.update_last_modification (b.entry pd pe k).2 mod_time)) = w at hw hi ⊢
      obtain ⟨st, b2⟩ := w
      simp only at hw hi ⊢
      have hsn2 : (b2.require_ok st).2.sn = b.sn := by
        rcases require_ok_cases b2 st with ⟨_, _, e⟩ | ⟨_, _, e⟩
        · rw [e]; exact hw.1.1.trans hsn
        · rw [e]; exact hw.1.1.trans hsn
      rcases hi with ⟨h1, h2, h3⟩ | ⟨h1, h2⟩
      · rw [h1]
        simp only [Bool.false_eq_true, if_false]
        exact ⟨hsn2, Or.inl ⟨by first | rfl | trivial, h2.trans hdb, fun h => h3 (hff h.2)⟩⟩
      · rw [h1]
        simp only [if_true]
        refine ⟨hsn2, Or.inr (Or.inr ⟨v, rfl, trivial, ?_⟩)⟩
        rw [h2, contents_eq_of_db hdb]

/-- The outcomes of the steps of a pop: a `failure`, which needs a closed
database or a fault and leaves the database as it is; a `success` without an
item, for a key without a value and for a value the helper finds empty, and
`invalid`, for a value the helper refuses, all of which leave the database as
it is; or a `success` with the item the helper popped, which applies the batch
of `detail::insert` for the rest and the updated expiry. -/
theorem pop_cases {data : Type} (pd : persist data) (pe : persist expiration_time)
    (u : util data) (b : rocksdb_backend) (k : data) (mod_time : Nat)
    (helper : data → popped data) :
    (b.pop pd pe u k mod_time helper).2.sn = b.sn ∧
    (((b.pop pd pe u k mod_time helper).1 = (⟨modification_result.status.failure, none⟩, none) ∧
        (b.pop pd pe u k mod_time helper).2.db = b.db ∧
        ¬ (b.db.isSome = true ∧ b.fault_free = true)) ∨
      ((b.entry pd pe k).1 = none ∧
        (b.pop pd pe u k mod_time helper).1
          = (⟨modification_result.status.success, none⟩, none) ∧
        (b.pop pd pe u k mod_time helper).2.db = b.db) ∨
      (∃ v msg, (b.entry pd pe k).1 = some v ∧ helper v = popped.refused msg ∧
        (b.pop pd pe u k mod_time helper).1
          = (⟨modification_result.status.invalid, none⟩, none) ∧
        (b.pop pd pe u k mod_time helper).2.db = b.db) ∨
      (∃ v, (b.entry pd pe k).1 = some v ∧ helper v = popped.empty ∧
        (b.pop pd pe u k mod_time helper).1
          = (⟨modification_result.status.success, none⟩, none) ∧
        (b.pop pd pe u k mod_time helper).2.db = b.db) ∨
      (∃ v x rest, (b.entry pd pe k).1 = some v ∧ helper v = popped.item x rest ∧
        (b.pop pd pe u k mod_time helper).1
          = (⟨modification_result.status.success,
              u.update_last_modification (b.entry pd pe k).2 mod_time⟩, some x) ∧
        (b.pop pd pe u k mod_time helper).2.contents
          = rows_write b.contents (insert_batch pd pe k rest false
              (u.update_last_modification (b.entry pd pe k).2 mod_time)))) := by
  unfold rocksdb_backend.pop
  have hl := lookup_expiry_cases pd pe b k
  have hs := lookup_expiry_state pd pe b k
  have hlf := lookup_expiry_fault_free pd pe b k
  generalize b.do_lookup_expiry pd pe k = op at hl hs hlf ⊢
  obtain ⟨res, b1⟩ := op
  simp only at hl hs hlf ⊢
  obtain ⟨hdb, hsn, hopen, hff⟩ := hs
  cases res with
  | none =>
    refine ⟨hsn, Or.inl ⟨rfl, hdb, fun h => ?_⟩⟩
    exact absurd (hlf h.1 h.2) (by simp)
  | some found =>
    have hfound : found = b.entry pd pe k := by
      rcases hl with h | h
      · exact absurd h (by simp)
      · exact Option.some.inj h
    subst hfound
    have ho1 : b1.db.isSome = true := by rw [hdb]; exact hopen (by simp)
    cases hv : (b.entry pd pe k).1 with
    | none =>
      simp only [hv]
      exact ⟨hsn, Or.inr (Or.inl ⟨trivial, trivial, hdb⟩)⟩
    | some v =>
      simp only [hv]
      cases hh : helper v with
      | refused msg =>
        simp only [hh]
        obtain ⟨e1, e2, _⟩ := set_error_state b1 msg
        exact ⟨e2.trans hsn, Or.inr (Or.inr (Or.inl ⟨v, msg, rfl, hh, trivial, e1.trans hdb⟩))⟩
      | empty =>
        simp only [hh]
        exact ⟨hsn, Or.inr (Or.inr (Or.inr (Or.inl ⟨v, rfl, hh, trivial, hdb⟩)))⟩
      | item x rest =>
        simp only [hh]
        have hw := db_write_cases b1 (insert_batch pd pe k rest false
          (u.update_last_modification (b.entry pd pe k).2 mod_time))
        have hi := insert_after_lookup pd pe b1 k rest
          (u.update_last_modification (b.entry pd pe k).2 mod_time) ho1
        unfold detail_insert at hi ⊢
        generalize b1.db_write (insert_batch pd pe k rest false
          (u.update_last_modification (b.entry pd pe k).2 mod_time)) = w at hw hi ⊢
        obtain ⟨st, b2⟩ := w
        simp only at hw hi ⊢
        have hsn2 : (b2.require_ok st).2.sn = b.sn := by
          rcases require_ok_cases b2 st with ⟨_, _, e⟩ | ⟨_, _, e⟩
          · rw [e]; exact hw.1.1.trans hsn
          · rw [e]; exact hw.1.1.trans hsn
        rcases hi with ⟨h1, h2, h3⟩ | ⟨h1, h2⟩
        · rw [h1]
          simp only [Bool.false_eq_true, if_false]
          exact ⟨hsn2, Or.inl ⟨trivial, h2.trans hdb, fun h => h3 (hff h.2)⟩⟩
        · rw [h1]
          simp only [if_true]
          refine ⟨hsn2, Or.inr (Or.inr (Or.inr (Or.inr ⟨v, x, rest, rfl, hh, rfl, ?_⟩)))⟩
          rw [h2, contents_eq_of_db hdb]

/-- A pop for a key without a value, or with a value the helper finds empty,
writes nothing and, unless the lookup fails, is a `success` without an item. -/
theorem pop_without_item {data : Type} (pd : persist data) (pe : persist expiration_time)
    (u : util data) (b : rocksdb_backend) (k : data) (mod_time : Nat)
    (helper : data → popped data)
    (hk : (b.entry pd pe k).1 = none ∨
      ∃ v, (b.entry pd pe k).1 = some v ∧ helper v = popped.empty) :
    ((b.pop pd pe u k mod_time helper).1 = (⟨modification_result.status.success, none⟩, none) ∨
        (b.pop pd pe u k mod_time helper).1
          = (⟨modification_result.status.failure, none⟩, none)) ∧
      (b.db.isSome = true → b.fault_free = true →
        (b.pop pd pe u k mod_time helper).1
          = (⟨modification_result.status.success, none⟩, none)) ∧
      (b.pop pd pe u k mod_time helper).2.db = b.db ∧
      (b.pop pd pe u k mod_time helper).2.sn = b.sn := by
  obtain ⟨hsn, hc⟩ := pop_cases pd pe u b k mod_time helper
  rcases hc with ⟨h1, h2, h3⟩ | ⟨_, h1, h2⟩ | ⟨v, msg, hv, hh, _, _⟩ | ⟨v, _, _, h1, h2⟩ |
      ⟨v, x, rest, hv, hh, _, _⟩
  · exact ⟨Or.inr h1, fun ho hf => absurd ⟨ho, hf⟩ h3, h2, hsn⟩
  · exact ⟨Or.inl h1, fun _ _ => h1, h2, hsn⟩
  · rcases hk with hk | ⟨w, hw, hw2⟩
    · rw [hk] at hv; exact absurd hv (by simp)
    · rw [hw] at hv; cases hv; rw [hw2] at hh; exact absurd hh (by simp)
  · exact ⟨Or.inl h1, fun _ _ => h1, h2, hsn⟩
  · rcases hk with hk | ⟨w, hw, hw2⟩
    · rw [hk] at hv; exact absurd hv (by simp)
    · rw [hw] at hv; cases hv; rw [hw2] at hh; exact absurd hh (by simp)

/-- What `do_clear` leaves: the rows as they were (no database was open), no
rows at all, or the version row only; and the version row only when it succeeds. -/
theorem do_clear_cases (b : rocksdb_backend) :
    ((b.do_clear).2.contents = b.contents ∨ (b.do_clear).2.contents = [] ∨
        (b.do_clear).2.contents = rows_put [] "mbroker_version".toList BROKER_VERSION) ∧
      ((b.do_clear).1 = true →
        (b.do_clear).2.contents = rows_put [] "mbroker_version".toList BROKER_VERSION) := by
  obtain ⟨db, cim, sn, le, thr, disk, faults, hints, est⟩ := b
  rcases db with _ | d
  · simp [rocksdb_backend.do_clear, rocksdb_backend.require_db, rocksdb_backend.contents]
  · have hdisk : map_find (map_erase ((d.name, d.contents) :: map_erase disk d.name) d.name)
        d.name = none := map_find_erase_same _ _
    rcases faults with _ | ⟨f1, _ | ⟨f2, _ | ⟨f3, fs⟩⟩⟩ <;> (try cases f1) <;> (try cases f2) <;>
      (try cases f3) <;> cases cim <;>
      simp [rocksdb_backend.do_clear, rocksdb_backend.require_db, rocksdb_backend.db_reset,
        rocksdb_backend.destroy_db, rocksdb_backend.take_fault, rocksdb_backend.require_ok,
        rocksdb_backend.open, rocksdb_backend.db_open, rocksdb_backend.db_put,
        rocksdb_backend.db_write, rocksdb_backend.contents, hdisk, rows_write, rows_apply]

/-- A successful `open` at a path without a database leaves the version row only. -/
theorem open_fresh (b : rocksdb_backend) (db_path : String) (create_if_missing : Bool)
    (hfresh : map_find b.disk db_path = none)
    (hok : (b.open db_path create_if_missing).1 = status.ok) :
    (b.open db_path create_if_missing).2.contents
      = rows_put [] "mbroker_version".toList BROKER_VERSION := by
  obtain ⟨db, cim, sn, le, thr, disk, faults, hints, est⟩ := b
  simp only at hfresh
  revert hok
  rcases faults with _ | ⟨f1, _ | ⟨f2, fs⟩⟩ <;> (try cases f1) <;> (try cases f2) <;>
    cases create_if_missing <;>
    simp [rocksdb_backend.require_ok,
      rocksdb_backend.open, rocksdb_backend.db_open, rocksdb_backend.db_put,
      rocksdb_backend.db_write, rocksdb_backend.contents, rocksdb_backend.take_fault,
      hfresh, rows_write, rows_apply]

theorem expiry_has_value_nil : expiry_has_value [] := by
  intro s h
  exact absurd rfl h

theorem expiry_has_value_put_a (r : rows) (s v : bytes) (h : expiry_has_value r) :
    expiry_has_value (rows_put r ('a' :: s) v) := by
  intro t ht
  rw [rows_get_put_other _ _ _ _ (by simp)] at ht
  by_cases hts : t = s
  · subst hts; rw [rows_get_put_same]; simp
  · rw [rows_get_put_other _ _ _ _ (by simpa using hts)]; exact h t ht

theorem expiry_has_value_put_e (r : rows) (s v : bytes) (h : expiry_has_value r)
    (ha : rows_get r ('a' :: s) ≠ none) : expiry_has_value (rows_put r ('e' :: s) v) := by
  intro t ht
  rw [rows_get_put_other _ _ _ _ (by simp)]
  by_cases hts : t = s
  · subst hts; exact ha
  · rw [rows_get_put_other _ _ _ _ (by simpa using hts)] at ht; exact h t ht

theorem expiry_has_value_put_m (r : rows) (key v : bytes) (h : expiry_has_value r)
    (hkey : key.head? = some 'm') : expiry_has_value (rows_put r key v) := by
  intro t ht
  have h1 : 'e' :: t ≠ key := by intro he; rw [← he] at hkey; simp at hkey
  have h2 : 'a' :: t ≠ key := by intro he; rw [← he] at hkey; simp at hkey
  rw [rows_get_put_other _ _ _ _ h1] at ht
  rw [rows_get_put_other _ _ _ _ h2]
  exact h t ht

theorem expiry_has_value_delete_e (r : rows) (s : bytes) (h : expiry_has_value r) :
    expiry_has_value (rows_delete r ('e' :: s)) := by
  intro t ht
  rw [rows_get_delete_other _ _ _ (by simp)]
  by_cases hts : t = s
  · subst hts; rw [rows_get_delete_same] at ht; exact absurd rfl ht
  · rw [rows_get_delete_other _ _ _ (by simpa using hts)] at ht; exact h t ht

theorem expiry_has_value_delete_pair (r : rows) (s : bytes) (h : expiry_has_value r) :
    expiry_has_value (rows_delete (rows_delete r ('a' :: s)) ('e' :: s)) := by
  intro t ht
  by_cases hts : t = s
  · subst hts; rw [rows_get_delete_same] at ht; exact absurd rfl ht
  · rw [rows_get_delete_other _ _ _ (by simpa using hts),
      rows_get_delete_other _ _ _ (by simp)] at ht
    rw [rows_get_delete_other _ _ _ (by simp),
      rows_get_delete_other _ _ _ (by simpa using hts)]
    exact h t ht

/-- The batch of `detail::insert` keeps every expiry row with its value row. -/
theorem expiry_has_value_insert {data : Type} (pd : persist data)
    (pe : persist expiration_time) (r : rows) (k v : data) (d : Bool)
    (e : Option expiration_time) (h : expiry_has_value r) :
    expiry_has_value (rows_write r (insert_batch pd pe k v d e)) := by
  have ha := expiry_has_value_put_a r (pd.save k) (pd.save v) h
  have hg : rows_get (rows_put r ('a' :: pd.save k) (pd.save v)) ('a' :: pd.save k) ≠ none := by
    rw [rows_get_put_same]; simp
  cases e with
  | some ev =>
    simpa [insert_batch, rows_write, rows_apply, to_serial_keyspace, to_serial_append,
      to_serial, set_keyspace] using expiry_has_value_put_e _ (pd.save k) (pe.save ev) ha hg
  | none =>
    cases d with
    | true =>
      simpa [insert_batch, rows_write, rows_apply, to_serial_keyspace, to_serial_append,
        to_serial, set_keyspace] using expiry_has_value_delete_e _ (pd.save k) ha
    | false =>
      simpa [insert_batch, rows_write, rows_apply, to_serial_keyspace, to_serial_append,
        to_serial, set_keyspace] using ha

/-- The batch of `do_init` keeps every expiry row with its value row. -/
theorem expiry_has_value_init {data : Type} (pd : persist data)
    (pe : persist expiration_time) : ∀ (es : List (data × value data)) (r : rows),
      expiry_has_value r → expiry_has_value (rows_write r (init_batch pd pe es)) := by
  intro es
  induction es with
  | nil => intro r h; simpa [init_batch, rows_write] using h
  | cons e rest ih =>
    intro r h
    rw [init_batch_cons]
    apply ih
    have ha := expiry_has_value_put_a r (pd.save e.1) (pd.save e.2.item) h
    cases he : e.2.expiry with
    | none => simpa using ha
    | some ev =>
      simp only []
      exact expiry_has_value_put_e _ _ _ ha (by rw [rows_get_put_same]; simp)

theorem expiry_has_value_version :
    expiry_has_value (rows_put [] "mbroker_version".toList BROKER_VERSION) :=
  expiry_has_value_put_m [] _ _ expiry_has_value_nil (by decide)

theorem rows_sorted_version :
    rows_sorted (rows_put [] "mbroker_version".toList BROKER_VERSION) :=
  rows_sorted_put [] _ _ rows_sorted_nil

/-- What a checked `Write` leaves: the rows as they were, or the batch applied. -/
theorem db_write_checked (b : rocksdb_backend) (batch : List batch_op) :
    ((b.db_write batch).2.require_ok (b.db_write batch).1).2.contents = b.contents ∨
      ((b.db_write batch).2.require_ok (b.db_write batch).1).2.contents
        = rows_write b.contents batch := by
  have hw := db_write_cases b batch
  generalize b.db_write batch = w at hw ⊢
  obtain ⟨st, b2⟩ := w
  simp only at hw ⊢
  have hc : (b2.require_ok st).2.contents = b2.contents := by
    rcases require_ok_cases b2 st with ⟨_, _, e⟩ | ⟨_, _, e⟩
    · rw [e]
    · rw [e]; rfl
  rw [hc]
  rcases hw.2 with ⟨_, hdb, _⟩ | ⟨_, _, _, h, _⟩
  · exact Or.inl (contents_eq_of_db hdb)
  · exact Or.inr h

/-- The batch of `detail::insert` keeps the rows in key order and every expiry
row with its value row. -/
theorem kept_insert {data : Type} (pd : persist data) (pe : persist expiration_time)
    (r : rows) (k v : data) (d : Bool) (e : Option expiration_time)
    (h : rows_sorted r ∧ expiry_has_value r) :
    rows_sorted (rows_write r (insert_batch pd pe k v d e)) ∧
      expiry_has_value (rows_write r (insert_batch pd pe k v d e)) :=
  ⟨rows_sorted_write _ _ h.1, expiry_has_value_insert pd pe r k v d e h.2⟩

theorem do_insert_kept {data : Type} (pd : persist data) (pe : persist expiration_time)
    (b : rocksdb_backend) (k v : data) (e : Option expiration_time)
    (h : rows_sorted b.contents ∧ expiry_has_value b.contents) :
    rows_sorted (b.do_insert pd pe k v e).2.contents ∧
      expiry_has_value (b.do_insert pd pe k v e).2.contents := by
  cases hd : b.db with
  | none =>
    have : (b.do_insert pd pe k v e).2.contents = b.contents := by
      obtain ⟨db, cim, sn, le, thr, disk, faults, hints, est⟩ := b
      simp only at hd
      subst hd
      simp [rocksdb_backend.do_insert, rocksdb_backend.require_db, rocksdb_backend.contents]
    rw [this]; exact h
  | some d =>
    have hopen : b.db.isSome = true := by rw [hd]; rfl
    unfold rocksdb_backend.do_insert detail_insert
    simp only [require_db_open b hopen, Bool.not_true, Bool.false_eq_true, if_false]
    rcases db_write_checked b (insert_batch pd pe k v true e) with hc | hc
    · rw [hc]; exact h
    · rw [hc]; exact kept_insert pd pe _ k v true e h

theorem modify_kept {data : Type} (pd : persist data) (pe : persist expiration_time)
    (u : util data) (b : rocksdb_backend) (k : data) (mod_time : Nat)
    (helper : Option data → updated data)
    (h : rows_sorted b.contents ∧ expiry_has_value b.contents) :
    rows_sorted (b.modify pd pe u k mod_time helper).2.contents ∧
      expiry_has_value (b.modify pd pe u k mod_time helper).2.contents := by
  rcases (modify_cases pd pe u b k mod_time helper).2 with ⟨_, hdb, _⟩ | ⟨_, _, _, hdb⟩ |
      ⟨v, _, _, hc⟩
  · rw [contents_eq_of_db hdb]; exact h
  · rw [contents_eq_of_db hdb]; exact h
  · rw [hc]; exact kept_insert pd pe _ k v false _ h

theorem pop_kept {data : Type} (pd : persist data) (pe : persist expiration_time)
    (u : util data) (b : rocksdb_backend) (k : data) (mod_time : Nat)
    (helper : data → popped data)
    (h : rows_sorted b.contents ∧ expiry_has_value b.contents) :
    rows_sorted (b.pop pd pe u k mod_time helper).2.contents ∧
      expiry_has_value (b.pop pd pe u k mod_time helper).2.contents := by
  rcases (pop_cases pd pe u b k mod_time helper).2 with ⟨_, hdb, _⟩ | ⟨_, _, hdb⟩ |
      ⟨_, _, _, _, _, hdb⟩ | ⟨_, _, _, _, hdb⟩ | ⟨v, x, rest, _, _, _, hc⟩
  · rw [contents_eq_of_db hdb]; exact h
  · rw [contents_eq_of_db hdb]; exact h
  · rw [contents_eq_of_db hdb]; exact h
  · rw [contents_eq_of_db hdb]; exact h
  · rw [hc]; exact kept_insert pd pe _ k rest false _ h

theorem do_init_kept {data : Type} (pd : persist data) (pe : persist expiration_time)
    (b : rocksdb_backend) (sss : snapshot data)
    (h : rows_sorted b.contents ∧ expiry_has_value b.contents) :
    rows_sorted (b.do_init pd pe sss).2.contents ∧
      expiry_has_value (b.do_init pd pe sss).2.contents := by
  have hcl : rows_sorted (b.do_clear).2.contents ∧ expiry_has_value (b.do_clear).2.contents := by
    rcases (do_clear_cases b).1 with e | e | e <;> rw [e]
    · exact h
    · exact ⟨rows_sorted_nil, expiry_has_value_nil⟩
    · exact ⟨rows_sorted_version, expiry_has_value_version⟩
  unfold rocksdb_backend.do_init
  generalize b.do_clear = c at hcl ⊢
  obtain ⟨ok, b1⟩ := c
  simp only at hcl ⊢
  cases ok with
  | false => simpa using hcl
  | true =>
    simp only [Bool.not_true, Bool.false_eq_true, if_false]
    have hb1 : ({ b1 with sn := sss.sn } : rocksdb_backend).contents = b1.contents := rfl
    rcases db_write_checked ({ b1 with sn := sss.sn } : rocksdb_backend)
      (init_batch pd pe sss.entries) with hc | hc
    · rw [hc, hb1]; exact hcl
    · rw [hc, hb1]
      exact ⟨rows_sorted_write _ _ hcl.1, expiry_has_value_init pd pe _ _ hcl.2⟩

/-- What `do_erase(kserial)` leaves, when it succeeded or left the rows as they
were, keeps the rows in key order and every expiry row with its value row. -/
theorem do_erase_serial_kept (b : rocksdb_backend) (s : bytes)
    (h : rows_sorted b.contents ∧ expiry_has_value b.contents)
    (hok : (b.do_erase_serial ('e' :: s)).1 = true ∨
      (b.do_erase_serial ('e' :: s)).2.contents = b.contents) :
    rows_sorted (b.do_erase_serial ('e' :: s)).2.contents ∧
      expiry_has_value (b.do_erase_serial ('e' :: s)).2.contents := by
  rcases hok with hok | hok
  · rcases (do_erase_serial_cases b s).2 with ⟨_, hc⟩ | ⟨hf, _⟩
    · rw [hc]
      exact ⟨rows_sorted_delete _ _ (rows_sorted_delete _ _ h.1),
        expiry_has_value_delete_pair _ _ h.2⟩
    · rw [hok] at hf; exact absurd hf (by simp)
  · rw [hok]; exact h

theorem do_expire_kept {data : Type} (pd : persist data) (pe : persist expiration_time)
    (b : rocksdb_backend) (k : data) (x : expiration_time)
    (h : rows_sorted b.contents ∧ expiry_has_value b.contents)
    (hok : (b.do_expire pd pe k x).1 = true ∨ (b.do_expire pd pe k x).2.contents = b.contents) :
    rows_sorted (b.do_expire pd pe k x).2.contents ∧
      expiry_has_value (b.do_expire pd pe k x).2.contents := by
  rcases hok with hok | hok
  swap
  · rw [hok]; exact h
  · revert hok
    cases hdb : b.db with
    | none =>
      unfold rocksdb_backend.do_expire
      simp [require_db_closed b hdb]
    | some d =>
      have hopen : b.db.isSome = true := by rw [hdb]; rfl
      unfold rocksdb_backend.do_expire
      simp only [require_db_open b hopen, Bool.not_true, Bool.false_eq_true, if_false,
        to_serial_keyspace, to_serial_append, List.singleton_append]
      have hfc := fetch_cases b ('e' :: pd.save k)
      generalize b.fetch ('e' :: pd.save k) = r at hfc ⊢
      obtain ⟨res, b1⟩ := r
      simp only at hfc ⊢
      have h1 : rows_sorted b1.contents ∧ expiry_has_value b1.contents := by
        rw [contents_eq_of_db hfc.1.1]; exact h
      cases res with
      | absent => intro _; exact h1
      | failed => intro _; exact h1
      | found vs =>
        simp only []
        by_cases he : from_serial pe vs = x
        · simp only [he, if_true]
          intro hok
          exact do_erase_serial_kept b1 (pd.save k) h1 (Or.inl hok)
        · simp only [he, if_false]
          intro _; exact h1

/-- A call that runs to its end keeps the rows in key order and every expiry
row with its value row. -/
theorem call_kept {data : Type} (pd : persist data) (pe : persist expiration_time)
    (u : util data) (b : rocksdb_backend) (c : backend_call data)
    (h : rows_sorted b.contents ∧ expiry_has_value b.contents)
    (hc : b.erase_complete pd pe u c = true) :
    rows_sorted (b.call pd pe u c).2.contents ∧
      expiry_has_value (b.call pd pe u c).2.contents := by
  cases c with
  | init sss => exact do_init_kept pd pe b sss h
  | insert k v e => exact do_insert_kept pd pe b k v e h
  | erase k =>
    simp only [rocksdb_backend.erase_complete, rocksdb_backend.call, Bool.or_eq_true,
      decide_eq_true_eq] at hc ⊢
    rw [do_erase_eq] at hc ⊢
    exact do_erase_serial_kept b (pd.save k) h hc
  | expire k x =>
    simp only [rocksdb_backend.erase_complete, rocksdb_backend.call, Bool.or_eq_true,
      decide_eq_true_eq] at hc ⊢
    exact do_expire_kept pd pe b k x h hc
  | increment k amount mod_time => exact modify_kept pd pe u b k mod_time _ h
  | add_to_set k element mod_time => exact modify_kept pd pe u b k mod_time _ h
  | remove_from_set k element mod_time => exact modify_kept pd pe u b k mod_time _ h
  | push_left k items mod_time => exact modify_kept pd pe u b k mod_time _ h
  | push_right k items mod_time => exact modify_kept pd pe u b k mod_time _ h
  | pop_left k mod_time => exact pop_kept pd pe u b k mod_time _ h
  | pop_right k mod_time => exact pop_kept pd pe u b k mod_time _ h

theorem calls_kept {data : Type} (pd : persist data) (pe : persist expiration_time)
    (u : util data) : ∀ (cs : List (backend_call data)) (b : rocksdb_backend),
      rows_sorted b.contents ∧ expiry_has_value b.contents →
      b.erases_complete pd pe u cs = true →
      rows_sorted (b.calls pd pe u cs).contents ∧
        expiry_has_value (b.calls pd pe u cs).contents := by
  intro cs
  induction cs with
  | nil => intro b h _; exact h
  | cons c rest ih =>
    intro b h hc
    simp only [rocksdb_backend.erases_complete, Bool.and_eq_true] at hc
    exact ih _ (call_kept pd pe u b c h hc.1) hc.2

/-- With the rows in key order and every expiry row with its value row, every key
of an expiry row is the key of a value row. -/
theorem expiry_keys_in_keys {data : Type} (pd : persist data) (pe : persist expiration_time)
    (r : rows) (hs : rows_sorted r) (hv : expiry_has_value r) :
    ∀ x ∈ (rows_scan r 'e').map
        (fun kv => (⟨from_serial pd (drop_keyspace kv.1), from_serial pe kv.2⟩ : expirable data)),
      x.key ∈ (rows_scan r 'a').map (fun kv => from_serial pd (drop_keyspace kv.1)) := by
  intro x hx
  obtain ⟨kv, hkv, rfl⟩ := List.mem_map.mp hx
  obtain ⟨hmem, hhead⟩ := mem_of_mem_rows_scan r 'e' kv hkv
  obtain ⟨key, val⟩ := kv
  cases key with
  | nil => simp at hhead
  | cons c s =>
    simp only [List.head?_cons, Option.some.injEq] at hhead
    subst hhead
    have h1 := hv s (rows_get_ne_none_of_mem r _ hmem)
    obtain ⟨v, hv2⟩ := Option.ne_none_iff_exists'.mp h1
    rw [rows_scan_eq_filter r 'a' hs, List.mem_map]
    refine ⟨('a' :: s, v), ?_, ?_⟩
    · rw [List.mem_filter]
      exact ⟨(mem_iff_rows_get r hs _).mpr hv2, by simp⟩
    · simp [drop_keyspace]

/-- What `do_size` does on an open database: an estimate above the threshold
is returned as it is, with only the estimator asked; otherwise the rows of the
`a` keyspace are counted and the status of the iterator decides whether the
count is returned. -/
theorem do_size_cases (b : rocksdb_backend) (hopen : b.db.isSome = true) :
    (∀ n, (b.take_estimate).1 = some n → b.exact_size_threshold < n →
      b.do_size = (some n, (b.take_estimate).2)) ∧
    (((b.take_estimate).1 = none ∨
        ∃ n, (b.take_estimate).1 = some n ∧ n ≤ b.exact_size_threshold) →
      ((b.do_size).1 = none ∨ (b.do_size).1 = some (rows_scan b.contents 'a').length) ∧
      (b.do_size).2.faults = b.faults.tail ∧
      (b.fault_free = true → (b.do_size).1 = some (rows_scan b.contents 'a').length)) := by
  obtain ⟨db, cim, sn, le, thr, disk, faults, hints, est⟩ := b
  cases db with
  | none => simp at hopen
  | some d =>
    constructor
    · intro n hn hlt
      rcases est with _ | ⟨e, rest⟩
      · simp [rocksdb_backend.take_estimate] at hn
      · simp only [rocksdb_backend.take_estimate] at hn
        subst hn
        simp only [rocksdb_backend.take_estimate] at hlt ⊢
        simp [rocksdb_backend.do_size, rocksdb_backend.require_db,
          rocksdb_backend.take_estimate, hlt]
    · intro h
      have hest : ∀ n, (match est with | [] => none | e :: _ => e) = some n → ¬ thr < n := by
        intro n hn
        rcases h with h | ⟨m, hm, hle⟩
        · rcases est with _ | ⟨e, rest⟩
          · simp at hn
          · simp [rocksdb_backend.take_estimate] at h hn; rw [h] at hn; simp at hn
        · rcases est with _ | ⟨e, rest⟩
          · simp at hn
          · simp [rocksdb_backend.take_estimate] at hm hle hn
            rw [hm] at hn; cases hn; omega
      rcases est with _ | ⟨e, rest⟩ <;> rcases faults with _ | ⟨f, frest⟩ <;>
        (try cases f) <;> (try rcases e with _ | n) <;>
        (try have hn := hest _ rfl) <;>
        simp_all [rocksdb_backend.do_size, rocksdb_backend.require_db,
          rocksdb_backend.take_estimate, rocksdb_backend.it_status,
          rocksdb_backend.take_fault, rocksdb_backend.require_ok,
          rocksdb_backend.contents, rocksdb_backend.fault_free] <;>
        simp [show ¬ thr < n from by omega]

/-- Whatever `do_snap` answers is the sequence number with the entries read off
the rows, and it answers when the database is open and no engine call fails. -/
theorem do_snap_cases {data : Type} [DecidableEq data] (pd : persist data)
    (pe : persist expiration_time) (b : rocksdb_backend) :
    ((b.do_snap pd pe).1 = none ∨
      (b.do_snap pd pe).1
        = some ⟨b.sn, snap_entries pd (snap_expiries pd pe b.contents) b.contents⟩) ∧
    (b.db.isSome = true → b.fault_free = true →
      (b.do_snap pd pe).1
        = some ⟨b.sn, snap_entries pd (snap_expiries pd pe b.contents) b.contents⟩) := by
  obtain ⟨db, cim, sn, le, thr, disk, faults, hints, est⟩ := b
  rcases db with _ | d
  · simp [rocksdb_backend.do_snap, rocksdb_backend.require_db]
  · rcases faults with _ | ⟨f1, _ | ⟨f2, fs⟩⟩ <;> (try cases f1) <;> (try cases f2) <;>
      simp [rocksdb_backend.do_snap, rocksdb_backend.require_db, rocksdb_backend.it_status,
        rocksdb_backend.take_fault, rocksdb_backend.require_ok, rocksdb_backend.contents,
        rocksdb_backend.fault_free]

/-! ## The filter -/

/-- C1: whatever the prior filter and whatever the topics `xs`, the filter that
`add_to_filter(xs)` leaves is sorted in ascending order and has no duplicate topic. -/
theorem add_to_filter_sorted_unique (st : core_state) (xs : filter_type) :
    List.Sorted (fun a b => a ≤ b) (st.add_to_filter xs).1.filter ∧
      (st.add_to_filter xs).1.filter.Nodup := by
  rw [add_to_filter_filter]
  exact sorted_le_nodup_of_strict (canonical_strict st.filter xs)

/-- C2 (as stated, refuted): `init` stores the initial filter as it is given, so
a core started on the filter `["b", "a"]` still holds the descending `["b", "a"]`
after an anonymous join and a clone attachment without peers, and a core started
on `["a", "a"]` holds a duplicate. -/
theorem filter_canonical_counterexample :
    ¬ List.Sorted (fun a b => a ≤ b)
        (run (core_actor (some 1) ["b".toList, "a".toList])
          [(⟨none, [], none⟩, core_msg.join ["c".toList]),
           (⟨some 5, [], none⟩, core_msg.attach_clone "kv")]).state.filter ∧
      ¬ (run (core_actor (some 1) ["a".toList, "a".toList]) []).state.filter.Nodup := by
  decide

/-- C2 (amended): started by `init` on a sorted, duplicate-free initial filter,
the core's filter is sorted and duplicate-free after every sequence of handled
messages, subscribe, join, attach-master and attach-clone requests among them. -/
theorem filter_canonical_reachable (self : actor) (initial_filter : filter_type)
    (evs : List (mailbox_element × core_msg))
    (hs : List.Sorted (fun a b => a ≤ b) initial_filter) (hn : initial_filter.Nodup) :
    List.Sorted (fun a b => a ≤ b) (run (core_actor self initial_filter) evs).state.filter ∧
      (run (core_actor self initial_filter) evs).state.filter.Nodup := by
  apply sorted_le_nodup_of_strict
  apply run_filter_strict
  exact strict_of_sorted_le_nodup hs hn

/-- C2 (amended), at a concrete run: initial filter `["a", "c"]`, then a
subscription to `["d", "b", "a"]` and the attachment of the master of `kv`. -/
theorem filter_canonical_reachable_witness :
    (List.Sorted (fun a b => a ≤ b) ["a".toList, "c".toList] ∧
        ["a".toList, "c".toList].Nodup) ∧
      List.Sorted (fun a b => a ≤ b)
        (run (core_actor (some 1) ["a".toList, "c".toList])
          [(⟨some 2, [], none⟩, core_msg.subscribe ["d".toList, "b".toList, "a".toList]),
           (⟨some 2, [], none⟩, core_msg.attach_master "kv" backend.memory [])]).state.filter ∧
      (run (core_actor (some 1) ["a".toList, "c".toList])
          [(⟨some 2, [], none⟩, core_msg.subscribe ["d".toList, "b".toList, "a".toList]),
           (⟨some 2, [], none⟩, core_msg.attach_master "kv" backend.memory [])]).state.filter.Nodup :=
  ⟨⟨by decide, by decide⟩,
    filter_canonical_reachable (some 1) ["a".toList, "c".toList]
      [(⟨some 2, [], none⟩, core_msg.subscribe ["d".toList, "b".toList, "a".toList]),
       (⟨some 2, [], none⟩, core_msg.attach_master "kv" backend.memory [])]
      (by decide) (by decide)⟩

/-- C9: the topics of the filter after `add_to_filter(xs)` are exactly the topics
of the filter before together with the topics of `xs`; and no handled message,
subscribe, join and the store attachments included, removes a topic from the
core's filter. -/
theorem add_to_filter_union (st : core_state) (xs : filter_type) (t : topic)
    (s : core_actor_state) (cme : mailbox_element) (m : core_msg) :
    (t ∈ (st.add_to_filter xs).1.filter ↔ t ∈ st.filter ∨ t ∈ xs) ∧
      (t ∈ s.state.filter → t ∈ (dispatch s cme m).1.state.filter) := by
  constructor
  · rw [add_to_filter_filter]; exact mem_canonical _ _ _
  · intro h
    rcases dispatch_filter s cme m with heq | ⟨ys, heq⟩
    · rw [heq]; exact h
    · rw [heq]; exact (mem_canonical _ _ _).mpr (Or.inl h)

/-- C10: `add_to_filter(xs)` sends one update carrying the resulting filter to
every peer the governor holds (the loop of `update_filter_on_peers`) when the
size of the filter after the call differs from the size before, and sends
nothing when the size is the same; the governor's peers are not touched. -/
theorem add_to_filter_broadcast (st : core_state) (xs : filter_type) :
    ((st.add_to_filter xs).1.filter.length ≠ st.filter.length →
        (st.add_to_filter xs).2 = st.governor.peers.map
          (fun kvp => effect.send_update kvp.1 (st.add_to_filter xs).1.filter)) ∧
      ((st.add_to_filter xs).1.filter.length = st.filter.length →
        (st.add_to_filter xs).2 = []) ∧
      (st.add_to_filter xs).1.governor = st.governor := by
  unfold core_state.add_to_filter
  simp only []
  by_cases h : st.filter.length ≠ (std_unique (std_sort (st.filter ++ xs))).length
  · rw [if_pos h]
    exact ⟨fun _ => rfl, fun h2 => absurd h2.symm h, rfl⟩
  · rw [if_neg h]
    exact ⟨fun h2 => absurd (Ne.symm h2) h, fun _ => rfl, rfl⟩

/-! ## The peering handshake -/

/-- C3 (the code at the failing input): core `1`, holding no record of core `2`,
handles the local request `peer(2)`; it sends `PEER_INIT` with its filter and
its handle to core `2`, but its state is the one before the request, with no
pending record, so `has_peer(2)` is still false. -/
theorem peer_request_leaves_no_record :
    (handle_peer sample_core (some 2)).out
        = [effect.send_peer (some 2) (some 1) ["a".toList] (some 1)] ∧
      (handle_peer sample_core (some 2)).next = sample_core ∧
      (handle_peer sample_core (some 2)).next.state.pending_peers = [] ∧
      (handle_peer sample_core (some 2)).next.state.has_peer (some 2) = false := by
  decide

/-- C4 (the code at the failing input): the core holds a pending entry for core
`7` and handles step #3 from it; the entry is removed and the handler for the
acknowledged stream id is installed, but nothing is put into `connected_peers`,
so `has_peer(7)` turns false. -/
theorem peer_ack_leaves_no_connected_record :
    sample_core_pending.state.has_peer (some 7) = true ∧
      (handle_peer_step3 sample_core_pending (handshake_from (some 7))
          ⟨⟨some 7, 5⟩, none⟩ (some 7)).next.state.pending_peers = [] ∧
      (handle_peer_step3 sample_core_pending (handshake_from (some 7))
          ⟨⟨some 7, 5⟩, none⟩ (some 7)).next.state.connected_peers = [] ∧
      (handle_peer_step3 sample_core_pending (handshake_from (some 7))
          ⟨⟨some 7, 5⟩, none⟩ (some 7)).next.state.has_peer (some 7) = false ∧
      map_find (handle_peer_step3 sample_core_pending (handshake_from (some 7))
          ⟨⟨some 7, 5⟩, none⟩ (some 7)).next.streams ⟨some 7, 5⟩
        = some (stream_relay.peer_relay (some 7)) := by
  decide

/-- C5 (the code at the failing input): core `1` completed the handshake with
core `7` (step #1, then step #3), so `pending_peers` and `connected_peers` hold
no entry for `7` and only the governor knows it.  A replayed step #1 from core
`7` is answered with `invalid_stream`, sends nothing and leaves `core_state`,
pending map and governor included, and the stream handlers as they are, but
only after it drew a stream id: the counter behind `make_stream_id` goes from
`2` to `3`, and to `5` with three replays, so three replays do not leave the
actor that one replay leaves. -/
theorem peer_step1_replay_allocates :
    sample_core_connected.state.has_peer (some 7) = false ∧
      sample_core_connected.state.governor.has_peer (some 7) = true ∧
      (handle_peer_step1 sample_core_connected (request_from (some 7)) ["x".toList]
          (some 7)).reply = invalid_stream ∧
      (handle_peer_step1 sample_core_connected (request_from (some 7)) ["x".toList]
          (some 7)).out = [] ∧
      (handle_peer_step1 sample_core_connected (request_from (some 7)) ["x".toList]
          (some 7)).next.state = sample_core_connected.state ∧
      (handle_peer_step1 sample_core_connected (request_from (some 7)) ["x".toList]
          (some 7)).next.streams = sample_core_connected.streams ∧
      sample_core_connected.last_request_id = 2 ∧
      (handle_peer_step1 sample_core_connected (request_from (some 7)) ["x".toList]
          (some 7)).next.last_request_id = 3 ∧
      (deliver_times sample_core_connected (request_from (some 7))
          (core_msg.peer_step1 ["x".toList] (some 7)) 3).last_request_id = 5 ∧
      deliver_times sample_core_connected (request_from (some 7))
          (core_msg.peer_step1 ["x".toList] (some 7)) 3
        ≠ deliver_times sample_core_connected (request_from (some 7))
          (core_msg.peer_step1 ["x".toList] (some 7)) 1 := by
  decide

/-- A step #1 request from the non-anonymous core `A` handled `n ≥ 1` times
leaves the `core_state` and the stream handlers that handling it once leaves;
when the first request meets a core and a governor without a record of `A`, or
a core with `A` in `pending_peers` or `connected_peers`, the whole actor,
stream-id counter included, is the one left by a single handling, and in the
first case exactly one pending record for `A` exists; a request that finds `A`
in `pending_peers` or `connected_peers` returns `invalid_stream`, sends nothing
and leaves the actor, hence the stream-id counter, the pending map and the
governor, as it was. -/
theorem peer_step1_idempotent (s : core_actor_state) (cme : mailbox_element)
    (peer_ts : filter_type) (A : actor) (n : Nat) (hp : cme.sender ≠ none) (hn : 1 ≤ n) :
    (deliver_times s cme (core_msg.peer_step1 peer_ts A) n).state
        = (handle_peer_step1 s cme peer_ts A).next.state ∧
      (deliver_times s cme (core_msg.peer_step1 peer_ts A) n).streams
        = (handle_peer_step1 s cme peer_ts A).next.streams ∧
      (s.state.governor.has_peer A = false ∨ s.state.has_peer A = true →
        deliver_times s cme (core_msg.peer_step1 peer_ts A) n
          = (handle_peer_step1 s cme peer_ts A).next) ∧
      (s.state.has_peer A = false → s.state.governor.has_peer A = false →
        map_count (deliver_times s cme (core_msg.peer_step1 peer_ts A) n).state.pending_peers A
          = 1) ∧
      (s.state.has_peer A = true →
        handle_peer_step1 s cme peer_ts A = ⟨invalid_stream, s, []⟩) := by
  obtain ⟨k, rfl⟩ : ∃ k, n = k + 1 := ⟨n - 1, by omega⟩
  have hunf : deliver_times s cme (core_msg.peer_step1 peer_ts A) (k + 1)
      = deliver_times (handle_peer_step1 s cme peer_ts A).next cme
          (core_msg.peer_step1 peer_ts A) k := rfl
  by_cases h : s.state.has_peer A = true
  · have hrep := step1_repeated s cme peer_ts A h
    have hfix : deliver_times (handle_peer_step1 s cme peer_ts A).next cme
        (core_msg.peer_step1 peer_ts A) k = (handle_peer_step1 s cme peer_ts A).next := by
      apply deliver_times_fixed
      simp only [dispatch, hrep]
    rw [hunf, hfix]
    refine ⟨rfl, rfl, fun _ => rfl, ?_, fun _ => hrep⟩
    intro h2; rw [h] at h2; exact absurd h2 (by decide)
  · have hfalse : s.state.has_peer A = false := by simpa using h
    by_cases hg : s.state.governor.has_peer A = true
    · have hk := deliver_step1_known cme peer_ts A (k + 1) s hfalse hg
      have h1 := step1_known s cme peer_ts A hfalse hg
      refine ⟨hk.1.trans h1.1.symm, hk.2.trans h1.2.symm, ?_, ?_, ?_⟩
      · intro h2
        rcases h2 with h2 | h2
        · rw [hg] at h2; exact absurd h2 (by decide)
        · exact absurd h2 h
      · intro _ h2; rw [hg] at h2; exact absurd h2 (by decide)
      · intro h2; exact absurd h2 h
    · have hgf : s.state.governor.has_peer A = false := by simpa using hg
      have hpend := step1_fresh s cme peer_ts A hp hfalse hgf
      have hnow : (handle_peer_step1 s cme peer_ts A).next.state.has_peer A = true := by
        unfold core_state.has_peer
        rw [hpend, map_contains_emplace]
        rfl
      have hrep := step1_repeated (handle_peer_step1 s cme peer_ts A).next cme peer_ts A hnow
      have hfix : deliver_times (handle_peer_step1 s cme peer_ts A).next cme
          (core_msg.peer_step1 peer_ts A) k = (handle_peer_step1 s cme peer_ts A).next := by
        apply deliver_times_fixed
        simp only [dispatch, hrep]
      rw [hunf, hfix]
      refine ⟨rfl, rfl, fun _ => rfl, ?_, fun h2 => absurd h2 h⟩
      intro _ _
      rw [hpend]
      apply map_count_emplace_fresh
      unfold core_state.has_peer at hfalse
      exact (Bool.or_eq_false_iff.mp hfalse).1

/-- Three step #1 requests from core `7` to the sample core leave one pending
record and the actor that one request leaves. -/
theorem peer_step1_idempotent_witness :
    ((request_from (some 7)).sender ≠ none ∧ 1 ≤ 3) ∧
      map_count (deliver_times sample_core (request_from (some 7))
        (core_msg.peer_step1 ["x".toList] (some 7)) 3).state.pending_peers (some 7) = 1 ∧
      deliver_times sample_core (request_from (some 7))
          (core_msg.peer_step1 ["x".toList] (some 7)) 3 = sample_core_pending :=
  ⟨⟨by decide, by decide⟩,
    (peer_step1_idempotent sample_core (request_from (some 7)) ["x".toList] (some 7) 3
      (by decide) (by decide)).2.2.2.1 (by decide) (by decide),
    (peer_step1_idempotent sample_core (request_from (some 7)) ["x".toList] (some 7) 3
      (by decide) (by decide)).2.2.1 (Or.inl (by decide))⟩

/-- C6 (the code at the failing input): core `1` has no pending record at all and
receives step #2 from core `9`; the handshake is not rejected: the governor
gains a peer record for `9`, two stream handlers are installed and the core
sends its own stream handshake to `9`. -/
theorem peer_open_accepted_without_pending :
    sample_core.state.pending_peers = [] ∧
      sample_core.state.governor.has_peer (some 9) = false ∧
      (handle_peer_step2 sample_core (handshake_from (some 9)) ⟨⟨some 9, 4⟩, none⟩
          ["b".toList] (some 9)).next.state.governor.has_peer (some 9) = true ∧
      (handle_peer_step2 sample_core (handshake_from (some 9)) ⟨⟨some 9, 4⟩, none⟩
          ["b".toList] (some 9)).next.streams
        = sample_core.streams ++ [(⟨some 1, 2⟩, stream_relay.peer_relay (some 9)),
            (⟨some 9, 4⟩, stream_relay.peer_relay (some 9))] ∧
      (handle_peer_step2 sample_core (handshake_from (some 9)) ⟨⟨some 9, 4⟩, none⟩
          ["b".toList] (some 9)).out = [effect.send_stream_handshake (some 9) ⟨some 1, 2⟩] := by
  decide

/-- C7: when the pending peers hold no entry for core `A`, step #3 from `A` is
dropped: the actor afterwards is the actor before (pending peers, connected
peers, governor and stream handlers alike) and nothing is sent. -/
theorem peer_ack_without_pending_dropped (s : core_actor_state) (cme : mailbox_element)
    (in_ : stream_type) (A : actor) (h : ∀ sid, (A, sid) ∉ s.state.pending_peers) :
    (handle_peer_step3 s cme in_ A).next = s ∧ (handle_peer_step3 s cme in_ A).out = [] := by
  have hc := (map_contains_eq_false_iff s.state.pending_peers A).mpr h
  have hf := map_find_eq_none_of_not_contains _ _ hc
  unfold handle_peer_step3
  simp only [hf]
  split_ifs <;> exact ⟨rfl, rfl⟩

/-- C7 at a concrete input: the sample core, with core `7` pending, receives
step #3 from core `8`. -/
theorem peer_ack_without_pending_dropped_witness :
    (∀ sid, ((some 8 : actor), sid) ∉ sample_core_pending.state.pending_peers) ∧
      (handle_peer_step3 sample_core_pending (handshake_from (some 8))
          ⟨⟨some 8, 3⟩, none⟩ (some 8)).next = sample_core_pending ∧
      (handle_peer_step3 sample_core_pending (handshake_from (some 8))
          ⟨⟨some 8, 3⟩, none⟩ (some 8)).out = [] :=
  ⟨(map_contains_eq_false_iff _ _).mp (by decide),
    peer_ack_without_pending_dropped sample_core_pending (handshake_from (some 8))
      ⟨⟨some 8, 3⟩, none⟩ (some 8) ((map_contains_eq_false_iff _ _).mp (by decide))⟩

/-- C8: a handshake message without an identifiable sender is dropped.  Step #1
with a null `current_sender()` returns `invalid_stream`; steps #2 and #3 with a
null previous stage return at once; in all three the actor is unchanged
(pending peers, governor peers, stream handlers) and no message, reply or
stream handshake is sent. -/
theorem anonymous_handshake_dropped (s : core_actor_state) (cme : mailbox_element)
    (peer_ts filter : filter_type) (in_ : stream_type) (remote_core : actor) :
    (cme.sender = none →
        handle_peer_step1 s cme peer_ts remote_core = ⟨invalid_stream, s, []⟩) ∧
      (prev_peer_from_handshake cme = none →
        handle_peer_step2 s cme in_ filter remote_core = ⟨(), s, []⟩) ∧
      (prev_peer_from_handshake cme = none →
        handle_peer_step3 s cme in_ remote_core = ⟨(), s, []⟩) := by
  refine ⟨?_, ?_, ?_⟩
  · intro h; unfold handle_peer_step1; simp only [h, if_true]
  · intro h; unfold handle_peer_step2; simp only [h, if_true]
  · intro h; unfold handle_peer_step3; simp only [h, if_true]

/-- C8 at a concrete input: anonymous steps #1, #2 and #3 naming core `7`, which
the sample core has pending. -/
theorem anonymous_handshake_dropped_witness :
    handle_peer_step1 sample_core_pending ⟨none, [some 7], none⟩ ["x".toList] (some 7)
        = ⟨invalid_stream, sample_core_pending, []⟩ ∧
      handle_peer_step2 sample_core_pending (handshake_from none) ⟨⟨some 7, 5⟩, none⟩
        ["b".toList] (some 7) = ⟨(), sample_core_pending, []⟩ ∧
      handle_peer_step3 sample_core_pending (handshake_from none) ⟨⟨some 7, 5⟩, none⟩ (some 7)
        = ⟨(), sample_core_pending, []⟩ :=
  ⟨(anonymous_handshake_dropped sample_core_pending ⟨none, [some 7], none⟩ ["x".toList]
      ["b".toList] ⟨⟨some 7, 5⟩, none⟩ (some 7)).1 rfl,
    (anonymous_handshake_dropped sample_core_pending (handshake_from none) ["x".toList]
      ["b".toList] ⟨⟨some 7, 5⟩, none⟩ (some 7)).2.1 rfl,
    (anonymous_handshake_dropped sample_core_pending (handshake_from none) ["x".toList]
      ["b".toList] ⟨⟨some 7, 5⟩, none⟩ (some 7)).2.2 rfl⟩

/-! ## The connection supervisor -/

/-- C11 (the code at the failing input): with retry interval `0` and a failed
connect, the handler schedules no further attempt, but it takes the branch
meant for a successful connect: it monitors `*other` and reports
`peer_status::connected` to the core. -/
theorem supervisor_reports_connected_on_failure :
    supervisor_connect ⟨"127.0.0.1", 9999⟩ 0 none
        = [supervisor_effect.monitor none,
           supervisor_effect.send_status ⟨"127.0.0.1", 9999⟩ peer_status.connected
             (some none)] ∧
      (∀ e ∈ supervisor_connect ⟨"127.0.0.1", 9999⟩ 0 none, connect_delay e = none) := by
  decide

/-- C12 (as stated, refuted): with retry interval `5`, the down handler reports
`disconnected` and sends `atom::connect` to itself at once, with delay `0`
instead of `5`. -/
theorem supervisor_down_counterexample :
    supervisor_down ⟨"127.0.0.1", 9999⟩
        = [supervisor_effect.send_status ⟨"127.0.0.1", 9999⟩ peer_status.disconnected none,
           supervisor_effect.send_connect] ∧
      ¬ (∀ e ∈ supervisor_down ⟨"127.0.0.1", 9999⟩,
          ∀ d, connect_delay e = some d → d = 5) := by
  decide

/-- C12 (amended): for every retry interval `R > 0`, the down handler reports
`disconnected` for the address to the core and schedules the next connect
attempt at once; an attempt that fails schedules the following one after the
delay `R` and issues nothing else. -/
theorem supervisor_down_reconnects (net : network_info) (R : Nat) (hR : 0 < R) :
    supervisor_down net
        = [supervisor_effect.send_status net peer_status.disconnected none,
           supervisor_effect.send_connect] ∧
      (∀ e ∈ supervisor_down net, ∀ d, connect_delay e = some d → d = 0) ∧
      supervisor_connect net R none = [supervisor_effect.delayed_send_connect R] := by
  refine ⟨rfl, ?_, ?_⟩
  · intro e he d hd
    simp only [supervisor_down, List.mem_cons, List.mem_singleton, List.not_mem_nil,
      or_false] at he
    rcases he with rfl | rfl
    · simp [connect_delay] at hd
    · simp only [connect_delay, Option.some.injEq] at hd
      exact hd.symm
  · have hne : (R != 0) = true := by
      simp only [bne_iff_ne, ne_eq]
      omega
    simp [supervisor_connect, hne]

/-- C12 (amended), at retry interval `5`. -/
theorem supervisor_down_reconnects_witness :
    0 < 5 ∧
      supervisor_down ⟨"127.0.0.1", 9999⟩
        = [supervisor_effect.send_status ⟨"127.0.0.1", 9999⟩ peer_status.disconnected none,
           supervisor_effect.send_connect] ∧
      (∀ e ∈ supervisor_down ⟨"127.0.0.1", 9999⟩,
        ∀ d, connect_delay e = some d → d = 0) ∧
      supervisor_connect ⟨"127.0.0.1", 9999⟩ 5 none
        = [supervisor_effect.delayed_send_connect 5] :=
  ⟨by decide, supervisor_down_reconnects ⟨"127.0.0.1", 9999⟩ 5 (by decide)⟩

/-! ## Store attachment and join -/

/-- C13: when the master registry already holds `name`, a point-to-point
attach-master request returns the registered handle, emits nothing (no spawn)
and leaves the actor, hence registry, lanes and filter, as it was; and in every
state a core reaches from `init` the registry holds at most one master per name. -/
theorem attach_master_existing (s : core_actor_state) (cme : mailbox_element) (name : String)
    (backend_type : backend) (opts : backend_options) (m : actor)
    (hp : cme.stages = []) (hm : map_find s.state.masters name = some m) :
    handle_attach_master s cme name backend_type opts = ⟨result.value m, s, []⟩ ∧
      ∀ (self : actor) (initial_filter : filter_type) (evs : List (mailbox_element × core_msg))
        (nm : String), map_count (run (core_actor self initial_filter) evs).state.masters nm ≤ 1 := by
  constructor
  · unfold handle_attach_master
    simp [hp, hm]
  · intro self f evs nm
    apply run_masters_unique
    show map_count ([] : List (String × actor)) nm ≤ 1
    simp [map_count]

/-- C13 at a concrete input: a second attach of `kv` on the core that holds its master. -/
theorem attach_master_existing_witness :
    ((⟨some 4, [], none⟩ : mailbox_element).stages = [] ∧
        map_find sample_core_master.state.masters "kv" = some (some 0)) ∧
      handle_attach_master sample_core_master ⟨some 4, [], none⟩ "kv" backend.rocksdb []
        = ⟨result.value (some 0), sample_core_master, []⟩ ∧
      map_count (run (core_actor (some 1) [])
        [(⟨some 4, [], none⟩, core_msg.attach_master "kv" backend.memory []),
         (⟨some 4, [], none⟩, core_msg.attach_master "kv" backend.sqlite [])]).state.masters
        "kv" ≤ 1 :=
  ⟨⟨rfl, by decide⟩,
    (attach_master_existing sample_core_master ⟨some 4, [], none⟩ "kv" backend.rocksdb []
      (some 0) rfl (by decide)).1,
    (attach_master_existing sample_core_master ⟨some 4, [], none⟩ "kv" backend.rocksdb []
      (some 0) rfl (by decide)).2 (some 1) [] _ "kv"⟩

/-- C14: with no local master for `name` and a subscription to
`name/<reserved>/<master>` on record (held by its one subscriber, as the
handler asserts), a point-to-point attach-master request fails with
`master_exists`, emits nothing (no spawn) and leaves the actor, hence registry
and filter, as it was. -/
theorem attach_master_remote (s : core_actor_state) (cme : mailbox_element) (name : String)
    (backend_type : backend) (opts : backend_options) (subscribers : List actor)
    (hp : cme.stages = []) (hm : map_find s.state.masters name = none)
    (hsub : map_find s.state.subscriptions (master_topic name) = some subscribers)
    (_hone : subscribers.length = 1) :
    handle_attach_master s cme name backend_type opts
      = ⟨result.err (error.of_ec ec.master_exists), s, []⟩ := by
  unfold handle_attach_master find_remote_master
  simp [hp, hm, hsub]

/-- C14 at a concrete input: the subscription of core `9` to the master topic of `kv`. -/
theorem attach_master_remote_witness :
    ((⟨some 4, [], none⟩ : mailbox_element).stages = [] ∧
        map_find sample_core_remote_master.state.masters "kv" = none ∧
        map_find sample_core_remote_master.state.subscriptions (master_topic "kv")
          = some [some 9] ∧
        [(some 9 : actor)].length = 1) ∧
      handle_attach_master sample_core_remote_master ⟨some 4, [], none⟩ "kv" backend.memory []
        = ⟨result.err (error.of_ec ec.master_exists), sample_core_remote_master, []⟩ :=
  ⟨⟨rfl, by decide, by decide, rfl⟩,
    attach_master_remote sample_core_remote_master ⟨some 4, [], none⟩ "kv" backend.memory []
      [some 9] rfl (by decide) (by decide) rfl⟩

/-- C15: with no master registered for `name` and no governor peer, a
point-to-point attach-clone request returns `no_such_master`, emits nothing (no
clone, no resolver) and leaves the actor, hence clone registry, filter and
lanes, as it was. -/
theorem attach_clone_no_peers (s : core_actor_state) (cme : mailbox_element) (name : String)
    (hp : cme.stages = []) (hm : map_find s.state.masters name = none)
    (hpeers : s.state.governor.peers = []) :
    handle_attach_clone s cme name = ⟨result.err (error.of_ec ec.no_such_master), s, []⟩ := by
  unfold handle_attach_clone
  simp [hp, hm, hpeers]

/-- C15 at a concrete input: the sample core, which has no peers, asked for a clone of `kv`. -/
theorem attach_clone_no_peers_witness :
    ((⟨some 4, [], none⟩ : mailbox_element).stages = [] ∧
        map_find sample_core.state.masters "kv" = none ∧
        sample_core.state.governor.peers = []) ∧
      handle_attach_clone sample_core ⟨some 4, [], none⟩ "kv"
        = ⟨result.err (error.of_ec ec.no_such_master), sample_core, []⟩ :=
  ⟨⟨rfl, by decide, by decide⟩,
    attach_clone_no_peers sample_core ⟨some 4, [], none⟩ "kv" rfl (by decide) (by decide)⟩

/-- C16: a join request from an anonymous sender returns
`cannot_add_downstream`; a join request from a known sender without forwarding
stage delivers `no_downstream_stages_defined` through the response promise and
returns the invalid stream; in both cases the actor, hence lanes and filter, is
unchanged and no stream handshake goes out. -/
theorem join_rejected (s : core_actor_state) (cme : mailbox_element) (filter : filter_type) :
    (cme.sender = none →
        handle_join s cme filter
          = ⟨Except.error (error.of_sec sec.cannot_add_downstream), s, []⟩) ∧
      (cme.sender ≠ none → cme.stages = [] →
        handle_join s cme filter
          = ⟨Except.ok invalid_stream, s,
              [effect.deliver_error (error.of_sec sec.no_downstream_stages_defined)]⟩) := by
  constructor
  · intro h; unfold handle_join; simp [h]
  · intro h1 h2; unfold handle_join; simp [h1, h2, invalid_stream]

/-- C16 at concrete inputs: an anonymous join and a join of actor `4` without stages. -/
theorem join_rejected_witness :
    handle_join sample_core ⟨none, [some 4], none⟩ ["b".toList]
        = ⟨Except.error (error.of_sec sec.cannot_add_downstream), sample_core, []⟩ ∧
      handle_join sample_core ⟨some 4, [], none⟩ ["b".toList]
        = ⟨Except.ok invalid_stream, sample_core,
            [effect.deliver_error (error.of_sec sec.no_downstream_stages_defined)]⟩ :=
  ⟨(join_rejected sample_core ⟨none, [some 4], none⟩ ["b".toList]).1 rfl,
    (join_rejected sample_core ⟨some 4, [], none⟩ ["b".toList]).2 (by decide) rfl⟩

/-! ## The rocksdb backend -/

/-- C17: after a successful `insert(k, v, e)`, whatever `lookup_expiry(k)`
answers is exactly `(v, e)`, the old value overwritten, the expiry set to `e`
or, for an absent `e`, removed; it does answer when no engine call fails; and
the stored value and expiry of every other key are what they were.  The
serialization is any one whose `load` undoes its `save`. -/
theorem insert_then_lookup_expiry {data : Type} (pd : persist data)
    (pe : persist expiration_time) (hd : ∀ x, pd.load (pd.save x) = x)
    (he : ∀ x, pe.load (pe.save x) = x) (b : rocksdb_backend) (k v : data)
    (e : Option expiration_time) (hok : (b.do_insert pd pe k v e).1 = true) :
    (∀ r, ((b.do_insert pd pe k v e).2.do_lookup_expiry pd pe k).1 = some r → r = (some v, e)) ∧
      ((b.do_insert pd pe k v e).2.fault_free = true →
        ((b.do_insert pd pe k v e).2.do_lookup_expiry pd pe k).1 = some (some v, e)) ∧
      (∀ k2, k2 ≠ k → (b.do_insert pd pe k v e).2.entry pd pe k2 = b.entry pd pe k2) := by
  obtain ⟨_, hopen, _, hc⟩ := do_insert_ok pd pe b k v e hok
  have hentry : (b.do_insert pd pe k v e).2.entry pd pe k = (some v, e) := by
    unfold rocksdb_backend.entry
    simp only [to_serial_keyspace, to_serial_append, List.singleton_append, hc,
      rows_get_insert_batch_a, rows_get_insert_batch_e, from_serial, hd]
    cases e <;> simp [he, from_serial]
  refine ⟨?_, ?_, ?_⟩
  · intro r hr
    rcases lookup_expiry_cases pd pe (b.do_insert pd pe k v e).2 k with h | h
    · rw [h] at hr; exact absurd hr (by simp)
    · rw [h, hentry] at hr; exact (Option.some.inj hr).symm
  · intro hf
    rw [lookup_expiry_fault_free pd pe _ k hopen hf, hentry]
  · intro k2 hk2
    have hs : pd.save k2 ≠ pd.save k := fun h => hk2 (save_injective pd hd h)
    unfold rocksdb_backend.entry
    simp only [to_serial_keyspace, to_serial_append, List.singleton_append, hc]
    rw [rows_get_insert_batch_other pd pe _ k v e ('a' :: pd.save k2) (by simp [hs]) (by simp),
      rows_get_insert_batch_other pd pe _ k v e ('e' :: pd.save k2) (by simp) (by simp [hs])]

/-- C17 at a concrete input: key `1`, value `5` and an expiry into the empty store. -/
theorem insert_then_lookup_expiry_witness :
    ((∀ x, unary.load (unary.save x) = x) ∧
        (∀ x, expiry_codec.load (expiry_codec.save x) = x) ∧
        (sample_backend.do_insert unary expiry_codec 1 5 (some ⟨3, some 2⟩)).1 = true) ∧
      ((sample_backend.do_insert unary expiry_codec 1 5 (some ⟨3, some 2⟩)).2.do_lookup_expiry
        unary expiry_codec 1).1 = some (some 5, some ⟨3, some 2⟩) :=
  ⟨⟨unary_round_trip, expiry_codec_round_trip, by decide⟩,
    (insert_then_lookup_expiry unary expiry_codec unary_round_trip expiry_codec_round_trip
      sample_backend 1 5 (some ⟨3, some 2⟩) (by decide)).2.1 (by decide)⟩

/-- C18: on an open database, `expire(k, x)` with an expiration other than the
stored expiry of `k` (or with none stored) leaves database and sequence number
as they are and, when no engine call fails, returns success; with the stored
expiry it returns success and removes value and expiry of `k`, and of `k`
only, when no engine call fails; in particular an `expire(k, x)` that follows a
successful `insert(k, v, e2)` with `e2` other than `x` changes nothing. -/
theorem expire_guard {data : Type} (pd : persist data) (pe : persist expiration_time)
    (hd : ∀ x, pd.load (pd.save x) = x) (he : ∀ x, pe.load (pe.save x) = x)
    (b : rocksdb_backend) (k : data) (x : expiration_time) (hopen : b.db.isSome = true) :
    ((rows_get b.contents (to_serial_keyspace pd k 'e')).map (from_serial pe) ≠ some x →
        (b.do_expire pd pe k x).2.db = b.db ∧ (b.do_expire pd pe k x).2.sn = b.sn ∧
        (b.fault_free = true → (b.do_expire pd pe k x).1 = true)) ∧
      ((rows_get b.contents (to_serial_keyspace pd k 'e')).map (from_serial pe) = some x →
        b.fault_free = true →
        (b.do_expire pd pe k x).1 = true ∧
        (b.do_expire pd pe k x).2.entry pd pe k = (none, none) ∧
        rows_get (b.do_expire pd pe k x).2.contents (to_serial_keyspace pd k 'e') = none ∧
        (b.do_expire pd pe k x).2.sn = b.sn ∧
        ∀ k2, k2 ≠ k → (b.do_expire pd pe k x).2.entry pd pe k2 = b.entry pd pe k2) ∧
      (∀ v e2, e2 ≠ some x → (b.do_insert pd pe k v e2).1 = true →
        ((b.do_insert pd pe k v e2).2.do_expire pd pe k x).2.db
            = (b.do_insert pd pe k v e2).2.db ∧
          ((b.do_insert pd pe k v e2).2.do_expire pd pe k x).2.sn = b.sn) := by
  refine ⟨?_, ?_, ?_⟩
  · intro hx
    obtain ⟨h1, h2, h3⟩ := do_expire_other pd pe b k x hx
    exact ⟨h1, h2, h3 hopen⟩
  · intro hx hf
    obtain ⟨h1, h2⟩ := do_expire_same pd pe b k x hopen hf hx
    obtain ⟨g1, g2, g3⟩ := entry_after_erase pd pe hd b _ k h2
    exact ⟨h1, g1, g2, do_expire_sn pd pe b k x, g3⟩
  · intro v e2 hne hok
    obtain ⟨_, _, hsn, hc⟩ := do_insert_ok pd pe b k v e2 hok
    have hx : (rows_get (b.do_insert pd pe k v e2).2.contents
        (to_serial_keyspace pd k 'e')).map (from_serial pe) ≠ some x := by
      simp only [to_serial_keyspace, to_serial_append, List.singleton_append, hc,
        rows_get_insert_batch_e]
      cases e2 with
      | none => simp
      | some ev =>
        simp only [Option.map_some', from_serial, he, ne_eq, Option.some.injEq]
        intro h; exact hne (by rw [h])
    obtain ⟨h1, h2, _⟩ := do_expire_other pd pe _ k x hx
    exact ⟨h1, h2.trans hsn⟩

/-- C18 at a concrete input: the stored expiry of key `1` expires the key, another
expiration leaves the store alone. -/
theorem expire_guard_witness :
    ((∀ x, unary.load (unary.save x) = x) ∧
        (∀ x, expiry_codec.load (expiry_codec.save x) = x) ∧
        sample_store.db.isSome = true) ∧
      (sample_store.do_expire unary expiry_codec 1 ⟨3, some 2⟩).1 = true ∧
      (sample_store.do_expire unary expiry_codec 1 ⟨3, some 2⟩).2.entry unary expiry_codec 1
        = (none, none) ∧
      (sample_store.do_expire unary expiry_codec 1 ⟨4, some 2⟩).2.db = sample_store.db :=
  ⟨⟨unary_round_trip, expiry_codec_round_trip, by decide⟩,
    ((expire_guard unary expiry_codec unary_round_trip expiry_codec_round_trip sample_store 1
      ⟨3, some 2⟩ (by decide)).2.1 (by decide) (by decide)).1,
    ((expire_guard unary expiry_codec unary_round_trip expiry_codec_round_trip sample_store 1
      ⟨3, some 2⟩ (by decide)).2.1 (by decide) (by decide)).2.1,
    ((expire_guard unary expiry_codec unary_round_trip expiry_codec_round_trip sample_store 1
      ⟨4, some 2⟩ (by decide)).1 (by decide)).1⟩

/-- C19: after a successful `erase(k)`, whatever `lookup(k)` answers is the empty
value, whatever `exists(k)` answers is false, `lookup_expiry(k)` finds neither
value nor expiry, and, the keys of the rows being serializations, `k` is in
neither `keys()` nor `expiries()`; all four answer when no engine call fails;
the stored value and expiry of every other key are what they were; and erasing
a key without rows on an open database succeeds, when no engine call fails,
and leaves the database as it is. -/
theorem erase_removes {data : Type} (pd : persist data) (pe : persist expiration_time)
    (hd : ∀ x, pd.load (pd.save x) = x) (b : rocksdb_backend) (k : data) :
    ((b.do_erase pd k).1 = true →
      (∀ r, ((b.do_erase pd k).2.do_lookup pd k).1 = some r → r = none) ∧
      (∀ r, ((b.do_erase pd k).2.do_exists pd k).1 = some r → r = false) ∧
      (∀ r, ((b.do_erase pd k).2.do_lookup_expiry pd pe k).1 = some r → r = (none, none)) ∧
      (well_keyed pd b.contents →
        (∀ ks, ((b.do_erase pd k).2.do_keys pd).1 = some ks → k ∉ ks) ∧
        (∀ es, ((b.do_erase pd k).2.do_expiries pd pe).1 = some es → ∀ x ∈ es, x.key ≠ k)) ∧
      ((b.do_erase pd k).2.fault_free = true →
        ((b.do_erase pd k).2.do_lookup pd k).1 = some none ∧
        ((b.do_erase pd k).2.do_exists pd k).1 = some false ∧
        ((b.do_erase pd k).2.do_keys pd).1.isSome = true ∧
        ((b.do_erase pd k).2.do_expiries pd pe).1.isSome = true) ∧
      (∀ k2, k2 ≠ k → (b.do_erase pd k).2.entry pd pe k2 = b.entry pd pe k2) ∧
      (b.do_erase pd k).2.sn = b.sn) ∧
    (b.db.isSome = true → b.fault_free = true →
      rows_get b.contents (to_serial_keyspace pd k 'a') = none →
      rows_get b.contents (to_serial_keyspace pd k 'e') = none →
      (b.do_erase pd k).1 = true ∧ (b.do_erase pd k).2.db = b.db ∧
        (b.do_erase pd k).2.sn = b.sn) := by
  rw [do_erase_eq]
  constructor
  · intro hok
    obtain ⟨_, hopen, _, hsn, hc⟩ := do_erase_serial_ok b (pd.save k) hok
    obtain ⟨g1, g2, g3⟩ := entry_after_erase pd pe hd b _ k hc
    have ha : rows_get (b.do_erase_serial ('e' :: pd.save k)).2.contents
        (to_serial_keyspace pd k 'a') = none := by
      unfold rocksdb_backend.entry at g1
      cases hg : rows_get (b.do_erase_serial ('e' :: pd.save k)).2.contents
          (to_serial_keyspace pd k 'a') with
      | none => rfl
      | some v => rw [hg] at g1; simp at g1
    have hl := do_lookup_cases pd (b.do_erase_serial ('e' :: pd.save k)).2 k
    have hx := do_exists_cases pd (b.do_erase_serial ('e' :: pd.save k)).2 k
    have hks := do_keys_cases pd (b.do_erase_serial ('e' :: pd.save k)).2
    have hes := do_expiries_cases pd pe (b.do_erase_serial ('e' :: pd.save k)).2
    rw [ha] at hl hx
    refine ⟨?_, ?_, ?_, ?_, ?_, g3, hsn⟩
    · intro r hr
      rcases hl.1 with h | h
      · rw [h] at hr; exact absurd hr (by simp)
      · rw [h] at hr; exact (Option.some.inj hr).symm
    · intro r hr
      rcases hx.1 with h | h
      · rw [h] at hr; exact absurd hr (by simp)
      · rw [h] at hr; exact (Option.some.inj hr).symm
    · intro r hr
      rcases lookup_expiry_cases pd pe (b.do_erase_serial ('e' :: pd.save k)).2 k with h | h
      · rw [h] at hr; exact absurd hr (by simp)
      · rw [h, g1] at hr; exact (Option.some.inj hr).symm
    · intro hw
      have hw2 : well_keyed pd (b.do_erase_serial ('e' :: pd.save k)).2.contents := by
        rw [hc]; exact well_keyed_delete pd _ _ (well_keyed_delete pd _ _ hw)
      constructor
      · intro ks hks2 hmem
        rcases hks.1 with h | h
        · rw [h] at hks2; exact absurd hks2 (by simp)
        · rw [h] at hks2
          rw [← Option.some.inj hks2] at hmem
          obtain ⟨kv, hkv, hkq⟩ := List.mem_map.mp hmem
          exact not_mem_scan_of_absent pd _ 'a' (Or.inl rfl) hw2 k ha kv hkv hkq
      · intro es hes2 x hx2 hkey
        rcases hes.1 with h | h
        · rw [h] at hes2; exact absurd hes2 (by simp)
        · rw [h] at hes2
          rw [← Option.some.inj hes2] at hx2
          obtain ⟨kv, hkv, hkq⟩ := List.mem_map.mp hx2
          have : from_serial pd (drop_keyspace kv.1) = k := by rw [← hkey, ← hkq]
          exact not_mem_scan_of_absent pd _ 'e' (Or.inr rfl) hw2 k g2 kv hkv this
    · intro hf
      refine ⟨?_, ?_, ?_, ?_⟩
      · rw [hl.2 hopen hf]; rfl
      · rw [hx.2 hopen hf]; rfl
      · rw [hks.2 hopen hf]; rfl
      · rw [hes.2 hopen hf]; rfl
  · intro hopen hf ha he
    obtain ⟨h1, h2⟩ := do_erase_serial_fault_free b (pd.save k) hopen hf
    obtain ⟨_, ho2, hn, hsn, _⟩ := do_erase_serial_ok b (pd.save k) h1
    simp only [to_serial_keyspace, to_serial_append, List.singleton_append] at ha he
    refine ⟨h1, db_eq_of_contents ho2 hn ?_, hsn⟩
    rw [h2, rows_delete_absent _ _ ha, rows_delete_absent _ _ he]

/-- C19 at a concrete input: key `1` erased from the sample store. -/
theorem erase_removes_witness :
    (∀ x, unary.load (unary.save x) = x) ∧
      ((sample_store.do_erase unary 1).2.do_lookup unary 1).1 = some none ∧
      ((sample_store.do_erase unary 1).2.do_exists unary 1).1 = some false ∧
      (sample_store.do_erase unary 1).2.entry unary expiry_codec 2
        = sample_store.entry unary expiry_codec 2 ∧
      (sample_store.do_erase unary 3).2.db = sample_store.db :=
  ⟨unary_round_trip,
    (((erase_removes unary expiry_codec unary_round_trip sample_store 1).1 (by decide)).2.2.2.2.1
      (by decide)).1,
    (((erase_removes unary expiry_codec unary_round_trip sample_store 1).1 (by decide)).2.2.2.2.1
      (by decide)).2.1,
    ((erase_removes unary expiry_codec unary_round_trip sample_store 1).1
      (by decide)).2.2.2.2.2.1 2 (by decide),
    ((erase_removes unary expiry_codec unary_round_trip sample_store 3).2 (by decide)
      (by decide) (by decide) (by decide)).2.1⟩

/-- C20: for an open backend whose rows are in key order with serialized keys,
and with no engine call failing, `snap()` yields a snapshot `s` with the
sequence number of the backend, and after `n ≥ 1` calls of `init(s)` a further
`snap()` yields `s` again: the same sequence number and the same entries. -/
theorem snapshot_round_trip {data : Type} [DecidableEq data] (pd : persist data)
    (pe : persist expiration_time) (hd : ∀ x, pd.load (pd.save x) = x)
    (he : ∀ x, pe.load (pe.save x) = x) (b : rocksdb_backend) (hopen : b.opened = true)
    (hf : b.fault_free = true) (hs : rows_sorted b.contents) (hw : well_keyed pd b.contents)
    (n : Nat) (hn : 1 ≤ n) :
    ∃ s, (b.do_snap pd pe).1 = some s ∧ s.sn = b.sn ∧
      ((init_times pd pe s n (b.do_snap pd pe).2).do_snap pd pe).1 = some s := by
  obtain ⟨h1, h2, h3, _⟩ := do_snap_fault_free pd pe b hopen hf
  refine ⟨_, h1, rfl, ?_⟩
  obtain ⟨k, rfl⟩ : ∃ k, n = k + 1 := ⟨n - 1, by omega⟩
  obtain ⟨g1, g2, g3, g4⟩ := init_times_fault_free pd pe
    ⟨b.sn, snap_entries pd (snap_expiries pd pe b.contents) b.contents⟩ k _ h2 h3
  rw [(do_snap_fault_free pd pe _ g2 g3).1, g1, g4]
  simp only [snap_entries_init pd pe hd he b.contents hs hw]

/-- C20 at a concrete input: the sample store, snapshot, two `init`, snapshot. -/
theorem snapshot_round_trip_witness :
    ((∀ x, unary.load (unary.save x) = x) ∧
        (∀ x, expiry_codec.load (expiry_codec.save x) = x) ∧
        sample_store.opened = true ∧ sample_store.fault_free = true ∧
        rows_sorted sample_store.contents ∧ well_keyed unary sample_store.contents ∧ 1 ≤ 2) ∧
      ∃ s, (sample_store.do_snap unary expiry_codec).1 = some s ∧ s.sn = sample_store.sn ∧
        ((init_times unary expiry_codec s 2
          (sample_store.do_snap unary expiry_codec).2).do_snap unary expiry_codec).1 = some s :=
  ⟨⟨unary_round_trip, expiry_codec_round_trip, by decide, by decide,
      by unfold rows_sorted; decide, by unfold well_keyed; decide, by decide⟩,
    snapshot_round_trip unary expiry_codec unary_round_trip expiry_codec_round_trip
      sample_store (by decide) (by decide) (by unfold rows_sorted; decide)
      (by unfold well_keyed; decide) 2 (by decide)⟩

/-- C21: on an open database, when the value stored under `k` is one that
`util::increment_data` refuses (a value of a type that cannot be incremented),
`increment(k, by, mod_time)` returns `invalid` with no new expiry, unless the
lookup fails, in which case it returns `failure`; it returns `invalid` when no
engine call fails; and in either case nothing is written: the database, hence
every value and every expiry, and the sequence number are what they were. -/
theorem increment_invalid {data : Type} (pd : persist data) (pe : persist expiration_time)
    (u : util data) (b : rocksdb_backend) (k : data) (amount : Int) (mod_time : Nat)
    (v : data) (msg : Option String) (hopen : b.db.isSome = true)
    (hv : (b.entry pd pe k).1 = some v)
    (hrej : u.increment_data (some v) amount = updated.refused msg) :
    ((b.do_increment pd pe u k amount mod_time).1 = ⟨modification_result.status.invalid, none⟩ ∨
        (b.do_increment pd pe u k amount mod_time).1
          = ⟨modification_result.status.failure, none⟩) ∧
      (b.fault_free = true →
        (b.do_increment pd pe u k amount mod_time).1
          = ⟨modification_result.status.invalid, none⟩) ∧
      (b.do_increment pd pe u k amount mod_time).2.db = b.db ∧
      (b.do_increment pd pe u k amount mod_time).2.sn = b.sn ∧
      ∀ k2, (b.do_increment pd pe u k amount mod_time).2.entry pd pe k2 = b.entry pd pe k2 := by
  unfold rocksdb_backend.do_increment
  obtain ⟨hsn, hc⟩ := modify_cases pd pe u b k mod_time (fun d => u.increment_data d amount)
  have hentry : ∀ c : rocksdb_backend, c.db = b.db →
      ∀ k2, c.entry pd pe k2 = b.entry pd pe k2 := by
    intro c hc2 k2
    unfold rocksdb_backend.entry
    rw [contents_eq_of_db hc2]
  rcases hc with ⟨h1, h2, h3⟩ | ⟨_, _, h1, h2⟩ | ⟨w, hw, _, _⟩
  · exact ⟨Or.inr h1, fun hf => absurd ⟨hopen, hf⟩ h3, h2, hsn, hentry _ h2⟩
  · exact ⟨Or.inl h1, fun _ => h1, h2, hsn, hentry _ h2⟩
  · simp only [hv, hrej] at hw
    exact absurd hw (by simp)

/-- C21 at a concrete input: the string `s` stored under the key `s`, with an
expiry, and `increment` by `1`. -/
theorem increment_invalid_witness :
    (sample_typed.db.isSome = true ∧
        (sample_typed.entry sample_codec expiry_codec (sample_data.string "s".toList)).1
          = some (sample_data.string "s".toList) ∧
        sample_util.increment_data (some (sample_data.string "s".toList)) 1
          = updated.refused (some "attempt to increment non-integral data") ∧
        sample_typed.fault_free = true) ∧
      (sample_typed.do_increment sample_codec expiry_codec sample_util
          (sample_data.string "s".toList) 1 4).1 = ⟨modification_result.status.invalid, none⟩ ∧
      (sample_typed.do_increment sample_codec expiry_codec sample_util
          (sample_data.string "s".toList) 1 4).2.db = sample_typed.db :=
  ⟨⟨by decide, by decide, by decide, by decide⟩,
    (increment_invalid sample_codec expiry_codec sample_util sample_typed
      (sample_data.string "s".toList) 1 4 (sample_data.string "s".toList)
      (some "attempt to increment non-integral data") (by decide) (by decide)
      (by decide)).2.1 (by decide),
    (increment_invalid sample_codec expiry_codec sample_util sample_typed
      (sample_data.string "s".toList) 1 4 (sample_data.string "s".toList)
      (some "attempt to increment non-integral data") (by decide) (by decide)
      (by decide)).2.2.1⟩

/-- C22: on an open database, for a key `k` that has no stored value, and for a
key whose stored value `util::pop_left` and `util::pop_right` find to be an
empty list, `pop_left` and `pop_right` return `success` with no popped value
and no new expiry, unless the lookup fails, in which case they return
`failure`; they return `success` when no engine call fails; and in either case
the database and the sequence number are what they were. -/
theorem pop_nothing {data : Type} (pd : persist data) (pe : persist expiration_time)
    (u : util data) (b : rocksdb_backend) (k : data) (mod_time : Nat)
    (hopen : b.db.isSome = true)
    (hk : (b.entry pd pe k).1 = none ∨
      ∃ v, (b.entry pd pe k).1 = some v ∧ u.pop_left v = popped.empty ∧
        u.pop_right v = popped.empty) :
    (((b.do_pop_left pd pe u k mod_time).1 = (⟨modification_result.status.success, none⟩, none) ∨
        (b.do_pop_left pd pe u k mod_time).1
          = (⟨modification_result.status.failure, none⟩, none)) ∧
      (b.fault_free = true →
        (b.do_pop_left pd pe u k mod_time).1
          = (⟨modification_result.status.success, none⟩, none)) ∧
      (b.do_pop_left pd pe u k mod_time).2.db = b.db ∧
      (b.do_pop_left pd pe u k mod_time).2.sn = b.sn) ∧
    (((b.do_pop_right pd pe u k mod_time).1
          = (⟨modification_result.status.success, none⟩, none) ∨
        (b.do_pop_right pd pe u k mod_time).1
          = (⟨modification_result.status.failure, none⟩, none)) ∧
      (b.fault_free = true →
        (b.do_pop_right pd pe u k mod_time).1
          = (⟨modification_result.status.success, none⟩, none)) ∧
      (b.do_pop_right pd pe u k mod_time).2.db = b.db ∧
      (b.do_pop_right pd pe u k mod_time).2.sn = b.sn) := by
  unfold rocksdb_backend.do_pop_left rocksdb_backend.do_pop_right
  have hl : (b.entry pd pe k).1 = none ∨
      ∃ v, (b.entry pd pe k).1 = some v ∧ u.pop_left v = popped.empty := by
    rcases hk with h | ⟨v, h1, h2, _⟩
    · exact Or.inl h
    · exact Or.inr ⟨v, h1, h2⟩
  have hr : (b.entry pd pe k).1 = none ∨
      ∃ v, (b.entry pd pe k).1 = some v ∧ u.pop_right v = popped.empty := by
    rcases hk with h | ⟨v, h1, _, h2⟩
    · exact Or.inl h
    · exact Or.inr ⟨v, h1, h2⟩
  obtain ⟨l1, l2, l3, l4⟩ := pop_without_item pd pe u b k mod_time u.pop_left hl
  obtain ⟨r1, r2, r3, r4⟩ := pop_without_item pd pe u b k mod_time u.pop_right hr
  exact ⟨⟨l1, l2 hopen, l3, l4⟩, ⟨r1, r2 hopen, r3, r4⟩⟩

/-- C22 at concrete inputs: the empty vector stored under the key `v` popped
from the left, and the key `q`, which has no value, popped from the right. -/
theorem pop_nothing_witness :
    (sample_typed.db.isSome = true ∧ sample_typed.fault_free = true ∧
        (sample_typed.entry sample_codec expiry_codec (sample_data.string "v".toList)).1
          = some (sample_data.vector []) ∧
        sample_util.pop_left (sample_data.vector []) = popped.empty ∧
        sample_util.pop_right (sample_data.vector []) = popped.empty ∧
        (sample_typed.entry sample_codec expiry_codec (sample_data.string "q".toList)).1
          = none) ∧
      (sample_typed.do_pop_left sample_codec expiry_codec sample_util
          (sample_data.string "v".toList) 4).1
        = (⟨modification_result.status.success, none⟩, none) ∧
      (sample_typed.do_pop_right sample_codec expiry_codec sample_util
          (sample_data.string "q".toList) 4).1
        = (⟨modification_result.status.success, none⟩, none) :=
  ⟨⟨by decide, by decide, by decide, by decide, by decide, by decide⟩,
    (pop_nothing sample_codec expiry_codec sample_util sample_typed
      (sample_data.string "v".toList) 4 (by decide)
      (Or.inr ⟨sample_data.vector [], by decide, by decide, by decide⟩)).1.2.1 (by decide),
    (pop_nothing sample_codec expiry_codec sample_util sample_typed
      (sample_data.string "q".toList) 4 (by decide) (Or.inl (by decide))).2.2.1 (by decide)⟩

/-- C23, counterexample: an open backend with two stored keys whose estimator
answers `10`, which is not below the `exact_size_threshold` of `10`: `size()`
does not return the estimate, it scans and returns `2`. -/
theorem size_at_threshold_scans :
    sample_store_estimated.opened = true ∧
      (sample_store_estimated.take_estimate).1 = some 10 ∧
      ¬ 10 < sample_store_estimated.exact_size_threshold ∧
      (sample_store_estimated.do_size).1 = some 2 ∧
      (sample_store_estimated.do_size).1 ≠ some 10 := by
  decide

/-- C23, amended: on an open database `size()` returns the estimate, without a
scan (no iterator status is asked for), whenever an estimate is available and
is above `exact_size_threshold`; when no estimate is available or the estimate
is not above the threshold it scans, and whatever it then returns is the
number of rows of the `a` keyspace, which it does return when no engine call
fails. -/
theorem size_estimate_or_scan (b : rocksdb_backend) (hopen : b.db.isSome = true)
    (hs : rows_sorted b.contents) :
    (∀ n, (b.take_estimate).1 = some n → b.exact_size_threshold < n →
      b.do_size = (some n, (b.take_estimate).2)) ∧
    (((b.take_estimate).1 = none ∨
        ∃ n, (b.take_estimate).1 = some n ∧ n ≤ b.exact_size_threshold) →
      ((b.do_size).1 = none ∨
        (b.do_size).1
          = some (b.contents.filter (fun kv => kv.1.head? == some 'a')).length) ∧
      (b.do_size).2.faults = b.faults.tail ∧
      (b.fault_free = true →
        (b.do_size).1
          = some (b.contents.filter (fun kv => kv.1.head? == some 'a')).length)) := by
  have h := do_size_cases b hopen
  rw [rows_scan_eq_filter b.contents 'a' hs] at h
  exact h

/-- C23, amended, at concrete inputs: with two stored keys and a threshold of
`10`, the estimate `11` is returned and the estimate `10` leads to the count `2`. -/
theorem size_estimate_or_scan_witness :
    (sample_store_overestimated.db.isSome = true ∧
        rows_sorted sample_store_overestimated.contents ∧
        sample_store_estimated.db.isSome = true ∧
        rows_sorted sample_store_estimated.contents) ∧
      sample_store_overestimated.do_size
        = (some 11, (sample_store_overestimated.take_estimate).2) ∧
      (sample_store_estimated.do_size).1
        = some (sample_store_estimated.contents.filter
            (fun kv => kv.1.head? == some 'a')).length :=
  ⟨⟨by decide, by unfold rows_sorted; decide, by decide, by unfold rows_sorted; decide⟩,
    (size_estimate_or_scan sample_store_overestimated (by decide)
      (by unfold rows_sorted; decide)).1 11 (by decide) (by decide),
    ((size_estimate_or_scan sample_store_estimated (by decide)
      (by unfold rows_sorted; decide)).2 (Or.inr ⟨10, by decide, by decide⟩)).2.2 (by decide)⟩

/-- C24, counterexample: after an `erase` of key `1` that stopped between its two
deletes, key `1` has an expiry row and no value row, and `expiries()` reports
key `1` with that expiry. -/
theorem dangling_expiry_reported :
    sample_dangling.entry unary expiry_codec 1 = (none, none) ∧
      rows_get sample_dangling.contents (to_serial_keyspace unary 1 'e')
        = some (to_serial expiry_codec ⟨3, some 2⟩) ∧
      (sample_dangling.do_expiries unary expiry_codec).1 = some [⟨1, ⟨3, some 2⟩⟩] := by
  decide

/-- C24, amended: on an open database whose rows are in key order with
serialized keys, for a key `k` with an expiry row and no value row, whatever
`lookup_expiry(k)` answers is no value and no expiry, whatever `exists(k)`
answers is false, whatever `snap()` answers has no entry for `k`, while
whatever `expiries()` answers does report `k` with the stored expiry; all four
answer when no engine call fails, and then `expire(k, stored expiry)` succeeds
and removes the expiry row, leaving the other keys as they are. -/
theorem dangling_expiry_tolerated {data : Type} [DecidableEq data] (pd : persist data)
    (pe : persist expiration_time) (hd : ∀ x, pd.load (pd.save x) = x) (b : rocksdb_backend)
    (k : data) (eserial : bytes) (hopen : b.db.isSome = true) (hs : rows_sorted b.contents)
    (hw : well_keyed pd b.contents)
    (ha : rows_get b.contents (to_serial_keyspace pd k 'a') = none)
    (he : rows_get b.contents (to_serial_keyspace pd k 'e') = some eserial) :
    ((∀ r, (b.do_lookup_expiry pd pe k).1 = some r → r = (none, none)) ∧
      (∀ r, (b.do_exists pd k).1 = some r → r = false) ∧
      (∀ s, (b.do_snap pd pe).1 = some s → ∀ e ∈ s.entries, e.1 ≠ k) ∧
      (∀ es, (b.do_expiries pd pe).1 = some es →
        (⟨k, from_serial pe eserial⟩ : expirable data) ∈ es)) ∧
    (b.fault_free = true →
      (b.do_lookup_expiry pd pe k).1 = some (none, none) ∧
      (b.do_exists pd k).1 = some false ∧
      (b.do_snap pd pe).1.isSome = true ∧
      (b.do_expiries pd pe).1.isSome = true ∧
      (b.do_expire pd pe k (from_serial pe eserial)).1 = true ∧
      rows_get (b.do_expire pd pe k (from_serial pe eserial)).2.contents
        (to_serial_keyspace pd k 'e') = none ∧
      (b.do_expire pd pe k (from_serial pe eserial)).2.entry pd pe k = (none, none) ∧
      ∀ k2, k2 ≠ k →
        (b.do_expire pd pe k (from_serial pe eserial)).2.entry pd pe k2 = b.entry pd pe k2) := by
  have hentry : b.entry pd pe k = (none, none) := by
    unfold rocksdb_backend.entry; rw [ha]
  have hx := do_exists_cases pd b k
  have hsn := do_snap_cases pd pe b
  have hes := do_expiries_cases pd pe b
  rw [ha] at hx
  refine ⟨⟨?_, ?_, ?_, ?_⟩, ?_⟩
  · intro r hr
    rcases lookup_expiry_cases pd pe b k with h | h
    · rw [h] at hr; exact absurd hr (by simp)
    · rw [h, hentry] at hr; exact (Option.some.inj hr).symm
  · intro r hr
    rcases hx.1 with h | h
    · rw [h] at hr; exact absurd hr (by simp)
    · rw [h] at hr; exact (Option.some.inj hr).symm
  · intro s hs2 e hmem
    rcases hsn.1 with h | h
    · rw [h] at hs2; exact absurd hs2 (by simp)
    · rw [h] at hs2
      rw [← Option.some.inj hs2] at hmem
      obtain ⟨kv, hkv, hkq⟩ := List.mem_map.mp hmem
      rw [← hkq]
      exact not_mem_scan_of_absent pd _ 'a' (Or.inl rfl) hw k
        (by simpa [to_serial_keyspace, to_serial_append] using ha) kv hkv
  · intro es hes2
    rcases hes.1 with h | h
    · rw [h] at hes2; exact absurd hes2 (by simp)
    · rw [h] at hes2
      rw [← Option.some.inj hes2, rows_scan_eq_filter _ 'e' hs, List.mem_map]
      refine ⟨(to_serial_keyspace pd k 'e', eserial), ?_, ?_⟩
      · rw [List.mem_filter]
        exact ⟨(mem_iff_rows_get _ hs _).mpr he, by simp [to_serial_keyspace, to_serial_append]⟩
      · simp [to_serial_keyspace, to_serial_append, drop_keyspace, from_serial, hd]
  · intro hf
    obtain ⟨h1, h2⟩ := do_expire_same pd pe b k (from_serial pe eserial) hopen hf
      (by rw [he]; rfl)
    obtain ⟨g1, g2, g3⟩ := entry_after_erase pd pe hd b _ k h2
    refine ⟨?_, ?_, ?_, ?_, h1, g2, g1, g3⟩
    · rw [lookup_expiry_fault_free pd pe b k hopen hf, hentry]
    · rw [hx.2 hopen hf]; rfl
    · rw [hsn.2 hopen hf]; rfl
    · rw [hes.2 hopen hf]; rfl

/-- C24, amended, at a concrete input: key `1` of the store in which its expiry
row is left without the value row. -/
theorem dangling_expiry_tolerated_witness :
    ((∀ x, unary.load (unary.save x) = x) ∧ sample_dangling.db.isSome = true ∧
        rows_sorted sample_dangling.contents ∧ well_keyed unary sample_dangling.contents ∧
        rows_get sample_dangling.contents (to_serial_keyspace unary 1 'a') = none ∧
        rows_get sample_dangling.contents (to_serial_keyspace unary 1 'e')
          = some "mmmdxx".toList ∧
        sample_dangling.fault_free = true) ∧
      (sample_dangling.do_lookup_expiry unary expiry_codec 1).1 = some (none, none) ∧
      (sample_dangling.do_exists unary 1).1 = some false ∧
      (sample_dangling.do_expire unary expiry_codec 1
        (from_serial expiry_codec "mmmdxx".toList)).1 = true ∧
      rows_get (sample_dangling.do_expire unary expiry_codec 1
        (from_serial expiry_codec "mmmdxx".toList)).2.contents
        (to_serial_keyspace unary 1 'e') = none :=
  ⟨⟨unary_round_trip, by decide, by unfold rows_sorted; decide, by unfold well_keyed; decide,
      by decide, by decide, by decide⟩,
    ((dangling_expiry_tolerated unary expiry_codec unary_round_trip sample_dangling 1
      "mmmdxx".toList (by decide) (by unfold rows_sorted; decide) (by unfold well_keyed; decide)
      (by decide) (by decide)).2 (by decide)).1,
    ((dangling_expiry_tolerated unary expiry_codec unary_round_trip sample_dangling 1
      "mmmdxx".toList (by decide) (by unfold rows_sorted; decide) (by unfold well_keyed; decide)
      (by decide) (by decide)).2 (by decide)).2.1,
    ((dangling_expiry_tolerated unary expiry_codec unary_round_trip sample_dangling 1
      "mmmdxx".toList (by decide) (by unfold rows_sorted; decide) (by unfold well_keyed; decide)
      (by decide) (by decide)).2 (by decide)).2.2.2.2.1,
    ((dangling_expiry_tolerated unary expiry_codec unary_round_trip sample_dangling 1
      "mmmdxx".toList (by decide) (by unfold rows_sorted; decide) (by unfold well_keyed; decide)
      (by decide) (by decide)).2 (by decide)).2.2.2.2.2.1⟩

/-- C25: on an open database whose rows, metadata, value and expiry rows alike,
are in key order, the keys of the value and expiry rows being serializations,
the scan that seeks to `a` and stops at the first key whose leading byte is not
`a` visits all and only the value rows, and `keys()`, when no engine call fails,
returns each key `k` whose row `a` + serialize(`k`) is present, once, and
nothing else. -/
theorem keys_exactly_value_entries {data : Type} (pd : persist data)
    (hd : ∀ x, pd.load (pd.save x) = x) (b : rocksdb_backend) (hopen : b.db.isSome = true)
    (hf : b.fault_free = true) (hs : rows_sorted b.contents) (hw : well_keyed pd b.contents) :
    rows_scan b.contents 'a' = b.contents.filter (fun kv => kv.1.head? == some 'a') ∧
      ∃ ks, (b.do_keys pd).1 = some ks ∧ ks.Nodup ∧
        ∀ k, k ∈ ks ↔ rows_get b.contents (to_serial_keyspace pd k 'a') ≠ none := by
  have hscan := rows_scan_eq_filter b.contents 'a' hs
  refine ⟨hscan, _, (do_keys_cases pd b).2 hopen hf, ?_, ?_⟩
  · rw [hscan]
    have hnd : b.contents.Nodup := by
      have : List.Pairwise (fun x y : bytes × bytes => x.1 < y.1) b.contents := hs
      exact this.imp (fun {x y} hxy hxy2 => by rw [hxy2] at hxy; exact lt_irrefl _ hxy)
    refine List.Nodup.map_on ?_ (hnd.filter _)
    intro x hx y hy hxy
    rw [List.mem_filter] at hx hy
    have hx1 := key_of_well_keyed pd _ hw 'a' (Or.inl rfl) x hx.1 (by simpa using hx.2)
    have hy1 := key_of_well_keyed pd _ hw 'a' (Or.inl rfl) y hy.1 (by simpa using hy.2)
    have hk : x.1 = y.1 := by rw [hx1, hy1, hxy]
    have h1 := (mem_iff_rows_get _ hs x).mp hx.1
    have h2 := (mem_iff_rows_get _ hs y).mp hy.1
    rw [hk, h2] at h1
    exact Prod.ext hk (Option.some.inj h1).symm
  · intro k
    rw [hscan, List.mem_map]
    constructor
    · rintro ⟨kv, hkv, hk⟩
      rw [List.mem_filter] at hkv
      have h1 := key_of_well_keyed pd _ hw 'a' (Or.inl rfl) kv hkv.1 (by simpa using hkv.2)
      rw [hk] at h1
      have := rows_get_ne_none_of_mem _ kv hkv.1
      rw [h1] at this
      simpa [to_serial_keyspace, to_serial_append] using this
    · intro h
      obtain ⟨v, hv⟩ := Option.ne_none_iff_exists'.mp h
      refine ⟨(to_serial_keyspace pd k 'a', v), ?_, ?_⟩
      · rw [List.mem_filter]
        exact ⟨(mem_iff_rows_get _ hs _).mpr hv, by simp [to_serial_keyspace, to_serial_append]⟩
      · simp [to_serial_keyspace, to_serial_append, drop_keyspace, from_serial, hd]

/-- C25 at a concrete input: the store with the version row, two value rows and
an expiry row, whose keys are `1` and `2`. -/
theorem keys_exactly_value_entries_witness :
    ((∀ x, unary.load (unary.save x) = x) ∧ sample_full.db.isSome = true ∧
        sample_full.fault_free = true ∧ rows_sorted sample_full.contents ∧
        well_keyed unary sample_full.contents) ∧
      (sample_full.do_keys unary).1 = some [1, 2] ∧
      rows_scan sample_full.contents 'a'
        = sample_full.contents.filter (fun kv => kv.1.head? == some 'a') ∧
      ∃ ks, (sample_full.do_keys unary).1 = some ks ∧ ks.Nodup ∧
        ∀ k, k ∈ ks ↔ rows_get sample_full.contents (to_serial_keyspace unary k 'a') ≠ none :=
  ⟨⟨unary_round_trip, by decide, by decide, by unfold rows_sorted; decide,
      by unfold well_keyed; decide⟩,
    by decide,
    keys_exactly_value_entries unary unary_round_trip sample_full (by decide) (by decide)
      (by unfold rows_sorted; decide) (by unfold well_keyed; decide)⟩

/-- C26: starting from a store that `clear` or an `open` at a fresh path just
left, after any sequence of `init`, `insert`, `erase`, `expire`, `increment`,
`add_to_set`, `remove_from_set`, `push_left`, `push_right`, `pop_left` and
`pop_right` calls in which no `erase` and no `expire` stops between its two
deletes (as is the case when all engine writes succeed), every key with an
expiry row has a value row; so whatever `expiries()` reports is a key that
`keys()` reports, and both do report when the database is open and no engine
call fails. -/
theorem expiry_implies_value {data : Type} (pd : persist data) (pe : persist expiration_time)
    (u : util data) (b0 : rocksdb_backend) (db_path : String) (create_if_missing : Bool)
    (b : rocksdb_backend)
    (hstart : b0.do_clear = (true, b) ∨
      (map_find b0.disk db_path = none ∧
        b0.open db_path create_if_missing = (status.ok, b)))
    (cs : List (backend_call data)) (hc : b.erases_complete pd pe u cs = true) :
    (∀ k, rows_get (b.calls pd pe u cs).contents (to_serial_keyspace pd k 'e') ≠ none →
        rows_get (b.calls pd pe u cs).contents (to_serial_keyspace pd k 'a') ≠ none) ∧
      expiry_has_value (b.calls pd pe u cs).contents ∧
      (∀ ks es, ((b.calls pd pe u cs).do_keys pd).1 = some ks →
        ((b.calls pd pe u cs).do_expiries pd pe).1 = some es → ∀ x ∈ es, x.key ∈ ks) ∧
      ((b.calls pd pe u cs).db.isSome = true → (b.calls pd pe u cs).fault_free = true →
        ∃ ks es, ((b.calls pd pe u cs).do_keys pd).1 = some ks ∧
          ((b.calls pd pe u cs).do_expiries pd pe).1 = some es ∧ ∀ x ∈ es, x.key ∈ ks) := by
  have hb : b.contents = rows_put [] "mbroker_version".toList BROKER_VERSION := by
    rcases hstart with h | ⟨hfresh, h⟩
    · have := (do_clear_cases b0).2
      rw [h] at this
      exact this rfl
    · have := open_fresh b0 db_path create_if_missing hfresh
      rw [h] at this
      exact this rfl
  have h0 : rows_sorted b.contents ∧ expiry_has_value b.contents := by
    rw [hb]; exact ⟨rows_sorted_version, expiry_has_value_version⟩
  obtain ⟨hs, hv⟩ := calls_kept pd pe u cs b h0 hc
  have hsub := expiry_keys_in_keys pd pe _ hs hv
  have hks := do_keys_cases pd (b.calls pd pe u cs)
  have hes := do_expiries_cases pd pe (b.calls pd pe u cs)
  refine ⟨?_, hv, ?_, ?_⟩
  · intro k hk
    simp only [to_serial_keyspace, to_serial_append, List.singleton_append] at hk ⊢
    exact hv _ hk
  · intro ks es h1 h2 x hx
    rcases hks.1 with h | h
    · rw [h] at h1; exact absurd h1 (by simp)
    · rcases hes.1 with g | g
      · rw [g] at h2; exact absurd h2 (by simp)
      · rw [h] at h1; rw [g] at h2
        rw [← Option.some.inj h1]
        rw [← Option.some.inj h2] at hx
        exact hsub x hx
  · intro ho hf
    exact ⟨_, _, hks.2 ho hf, hes.2 ho hf, hsub⟩

/-- C26 at a concrete input: the sample calls on a freshly cleared store. -/
theorem expiry_implies_value_witness :
    (sample_backend.do_clear = (true, sample_fresh) ∧
        sample_fresh.erases_complete sample_codec expiry_codec sample_util sample_calls
          = true) ∧
      expiry_has_value
        (sample_fresh.calls sample_codec expiry_codec sample_util sample_calls).contents ∧
      ∃ ks es,
        ((sample_fresh.calls sample_codec expiry_codec sample_util sample_calls).do_keys
          sample_codec).1 = some ks ∧
        ((sample_fresh.calls sample_codec expiry_codec sample_util sample_calls).do_expiries
          sample_codec expiry_codec).1 = some es ∧ ∀ x ∈ es, x.key ∈ ks :=
  ⟨⟨by decide, by decide⟩,
    (expiry_implies_value sample_codec expiry_codec sample_util sample_backend "db" true
      sample_fresh (Or.inl (by decide)) sample_calls (by decide)).2.1,
    (expiry_implies_value sample_codec expiry_codec sample_util sample_backend "db" true
      sample_fresh (Or.inl (by decide)) sample_calls (by decide)).2.2.2 (by decide)
      (by decide)⟩

/-! ## The endpoint -/

/-- C27: `endpoint::unpeer(p)` returns true exactly when `p` is valid and a member
of the peer set; when it returns true, `p` is removed from the set and no other
member is, and the proxy of a remote peering is told to quit while for a local
peering both actors are told to unpeer; when it returns false, the endpoint is
unchanged and no message is sent; and a second `unpeer(p)` returns false,
changes nothing and sends nothing. -/
theorem unpeer_exact (valid : peering → Bool) (e : endpoint) (p : peering) :
    ((e.unpeer valid p).1 = true ↔ (valid p = true ∧ p ∈ e.peers)) ∧
      ((e.unpeer valid p).1 = true →
        (e.unpeer valid p).2.1.peers = e.peers.erase p ∧
        p ∉ (e.unpeer valid p).2.1.peers ∧
        (∀ q, q ≠ p → (q ∈ (e.unpeer valid p).2.1.peers ↔ q ∈ e.peers)) ∧
        (e.unpeer valid p).2.2
          = if p.remote then [anon_send.quit p.pimpl.peer_actor]
            else [anon_send.unpeer e.actor p.pimpl.peer_actor,
              anon_send.unpeer p.pimpl.peer_actor e.actor]) ∧
      ((e.unpeer valid p).1 = false →
        (e.unpeer valid p).2.1 = e ∧ (e.unpeer valid p).2.2 = []) ∧
      ((e.unpeer valid p).2.1.unpeer valid p
        = (false, (e.unpeer valid p).2.1, [])) := by
  unfold endpoint.unpeer
  by_cases hv : valid p = true
  · by_cases hm : p ∈ e.peers
    · by_cases hr : p.remote = true <;> simp [hv, hm, hr, Finset.mem_erase]
      · intro q hq; simp [hq]
      · intro q hq; simp [hq]
    · simp [hv, hm]
  · simp [hv]

end broker
